import Mathlib

/-!
# Wordle-For-Us: guess evaluation, hard-mode hints, sessions and match results

A shallow embedding of the game logic of the `Game` class (`src/src/game.js`),
of the status line of `onGuessComplete` and the wait for the opponent of
`onGameEnd` (`src/src/main.js`), of `getResults` (`src/src/multiplayer.js`,
with the queries of `src/src/supabase.js`) and of the key states of the
`Keyboard` (`src/src/keyboard.js`).

Modelling conventions.

* A JavaScript string is a `List Char`; every `Char` stands for one UTF-16 code
  unit, so `s.split('')` is the list itself and `s[i]` is `s[i]?`.
* `toLowerCase` / `toUpperCase` are the ASCII case maps (the keyboard only
  produces the keys `A`..`Z`, see `handleKeyPress`).
* DOM classes and animations of the board are rendering and are left out; the
  text content of the tiles is kept because `getCurrentGuess` reads it.
* A method that throws a `TypeError` ends there; its model gives the state
  reached at that point.
* The callbacks that the game hands to `setTimeout` are kept in a queue of
  the `Session`; an event of the session is a key press or a waiting callback
  that runs, so every interleaving of the two is a sequence of events.
* The dictionary `isValidWord` of `words.js` and the value of `getHardMode()`
  are parameters.
* An `async` callback is cut at its `await`: what runs before it and what
  runs after the awaited query has resolved are two events.
-/

namespace Wordle

/-- Number of rows of the board (`const NUM_ROWS = 6`). -/
def NUM_ROWS : Nat := 6

/-- Number of columns of the board (`const NUM_COLS = 5`). -/
def NUM_COLS : Nat := 5

/-- The three strings `'absent'`, `'present'`, `'correct'` stored in an evaluation. -/
inductive LetterState where
  | absent
  | present
  | correct
  deriving DecidableEq, Repr

/-- An element slot of the arrays `targetLetters` / `guessLetters`:
a one-character string, `null`, `undefined`, or a hole of a sparse array. -/
inductive Cell where
  | letter (c : Char)
  | null
  | undefined
  | empty
  deriving DecidableEq, Repr

/-- The value of `s[i]` for a string `s`: a one-character string, or
`undefined` when `i` is past the end. -/
inductive JSChar where
  | chr (c : Char)
  | undefined
  deriving DecidableEq, Repr

/-- The method `String.prototype.toLowerCase` on ASCII text. -/
def toLowerCase (s : List Char) : List Char := s.map Char.toLower

/-- The method `String.prototype.toUpperCase` on ASCII text. -/
def toUpperCase (s : List Char) : List Char := s.map Char.toUpper

/-- The call `s.split('')`: the array of the one-character strings of `s`. -/
def split (s : List Char) : List Cell := s.map Cell.letter

/-- Array read `xs[i]`: a hole or an index past the end reads as `undefined`. -/
def readCell (xs : List Cell) (i : Nat) : Cell :=
  match xs[i]? with
  | some Cell.empty => Cell.undefined
  | some v => v
  | none => Cell.undefined

/-- Array write `xs[i] = v`: a write past the end grows the array, leaving holes. -/
def writeCell (xs : List Cell) (i : Nat) (v : Cell) : List Cell :=
  if i < xs.length then xs.set i v
  else xs ++ List.replicate (i - xs.length) Cell.empty ++ [v]

/-- The call `xs.indexOf(v)` with strict equality; holes are skipped; `none` is `-1`. -/
def indexOf : List Cell → Cell → Option Nat
  | [], _ => none
  | x :: xs, v =>
    if x ≠ Cell.empty ∧ x = v then some 0
    else (indexOf xs v).map (· + 1)

/-- String indexing `s[i]`. -/
def strAt (s : List Char) (i : Nat) : JSChar :=
  match s[i]? with
  | some c => JSChar.chr c
  | none => JSChar.undefined

/-- The local variables of `evaluateGuess`. -/
structure EvalState where
  result : List LetterState
  targetLetters : List Cell
  guessLetters : List Cell
  deriving DecidableEq, Repr

/-- Body of the first loop of `evaluateGuess` (mark correct letters). -/
def firstPassStep (s : EvalState) (i : Nat) : EvalState :=
  if readCell s.guessLetters i = readCell s.targetLetters i then
    { result := s.result.set i LetterState.correct
      targetLetters := writeCell s.targetLetters i Cell.null
      guessLetters := writeCell s.guessLetters i Cell.null }
  else s

/-- Body of the second loop of `evaluateGuess` (mark present letters). -/
def secondPassStep (s : EvalState) (i : Nat) : EvalState :=
  if readCell s.guessLetters i = Cell.null then s
  else
    match indexOf s.targetLetters (readCell s.guessLetters i) with
    | some targetIndex =>
      { s with
        result := s.result.set i LetterState.present
        targetLetters := writeCell s.targetLetters targetIndex Cell.null }
    | none => s

/-- The two loops of `evaluateGuess` run on the target word and the guess. -/
def evaluate (targetWord guess : List Char) : EvalState :=
  let s0 : EvalState :=
    { result := List.replicate NUM_COLS LetterState.absent
      targetLetters := split targetWord
      guessLetters := split guess }
  let s1 := (List.range NUM_COLS).foldl firstPassStep s0
  (List.range NUM_COLS).foldl secondPassStep s1

/-- The object `revealedHints.correct` (position -> letter): the entry at
index `p` is the value stored under the integer key `p`, `none` when the
object has no such key. -/
abbrev PosMap := List (Option JSChar)

/-- Property read `correct[p]` restricted to own keys: `none` when the key is missing. -/
def objGet (m : PosMap) (p : Nat) : Option JSChar :=
  match m[p]? with
  | some (some v) => some v
  | _ => none

/-- Property write `correct[p] = v`. -/
def objSet (m : PosMap) (p : Nat) (v : JSChar) : PosMap :=
  if p < m.length then m.set p (some v)
  else m ++ List.replicate (p - m.length) none ++ [some v]

/-- The pairs of `Object.entries(correct)` from key `k` on, integer keys ascending. -/
def objEntriesFrom : Nat → PosMap → List (Nat × JSChar)
  | _, [] => []
  | k, none :: m => objEntriesFrom (k + 1) m
  | k, some v :: m => (k, v) :: objEntriesFrom (k + 1) m

/-- The call `Object.entries(correct)`. -/
def objEntries (m : PosMap) : List (Nat × JSChar) := objEntriesFrom 0 m

/-- The call `Object.values(correct)`. -/
def objValues (m : PosMap) : List JSChar := m.filterMap id

/-- The call `present.delete(v)` on a `Set` kept as the list of its members in
insertion order. -/
def setDelete (s : List JSChar) (v : JSChar) : List JSChar := s.filter (· ≠ v)

/-- The call `present.add(v)` on a `Set` kept as the list of its members in
insertion order. -/
def setAdd (s : List JSChar) (v : JSChar) : List JSChar :=
  if v ∈ s then s else s ++ [v]

/-- The field `revealedHints`. -/
structure RevealedHints where
  correct : PosMap
  present : List JSChar
  deriving DecidableEq, Repr

/-- An element of `guesses`: `{ word, result }`. -/
structure GuessEntry where
  word : List Char
  result : List LetterState
  deriving DecidableEq, Repr

/-- The fields of a `Game` that the game logic reads and writes; `tiles`
holds the `textContent` of every tile of the board. -/
structure Game where
  targetWord : List Char
  currentRow : Nat
  currentCol : Nat
  guesses : List GuessEntry
  gameOver : Bool
  won : Bool
  revealedHints : RevealedHints
  tiles : List (List (List Char))
  deriving DecidableEq, Repr

/-- The tiles made by `createBoard`: `NUM_ROWS` rows of `NUM_COLS` empty tiles. -/
def createBoard : List (List (List Char)) :=
  List.replicate NUM_ROWS (List.replicate NUM_COLS [])

/-- The state built by the constructor of `Game`. -/
def Game.new : Game :=
  { targetWord := []
    currentRow := 0
    currentCol := 0
    guesses := []
    gameOver := false
    won := false
    revealedHints := { correct := [], present := [] }
    tiles := createBoard }

/-- The method `startGame(targetWord)`; the reset of the on-screen keyboard is
not part of the game state. -/
def Game.startGame (_this : Game) (targetWord : List Char) : Game :=
  { targetWord := toLowerCase targetWord
    currentRow := 0
    currentCol := 0
    guesses := []
    gameOver := false
    won := false
    revealedHints := { correct := [], present := [] }
    tiles := createBoard }

/-- The method `evaluateGuess(guess)`: the returned array, and the game state after the
call (the method assigns to no field; its arrays are local). -/
def Game.evaluateGuess (this : Game) (guess : List Char) : List LetterState × Game :=
  ((evaluate this.targetWord guess).result, this)

/-- The method `getOrdinalSuffix(n)`: `s[(v - 20) % 10] || s[v] || s[0]` with the
remainder taking the sign of the dividend. -/
def getOrdinalSuffix (n : Nat) : List Char :=
  let s : List (List Char) := ["th".toList, "st".toList, "nd".toList, "rd".toList]
  let v := n % 100
  let k : Int := Int.tmod ((v : Int) - 20) 10
  match (if 0 ≤ k then s[k.toNat]? else none) with
  | some x => x
  | none =>
    match s[v]? with
    | some x => x
    | none => "th".toList

/-- The string `String(v)` for a value stored in the hints. -/
def jsToString : JSChar → List Char
  | JSChar.chr c => [c]
  | JSChar.undefined => "undefined".toList

/-- The call `s.includes(v)`: the string form of `v` occurs in `s` as a substring. -/
def strIncludes (s : List Char) (v : JSChar) : Bool :=
  s.tails.any (fun t => (jsToString v).isPrefixOf t)

/-- How a call of `validateHardMode` ends. -/
inductive HardModeCheck where
  /-- `return true`. -/
  | accepted
  /-- `shakeRow(); showToast(toast); return false`. -/
  | rejected (toast : List Char)
  /-- A `TypeError` is thrown on the way to `return false`. -/
  | typeError
  deriving DecidableEq, Repr

/-- Whether `shakeRow()` completes: it reads `this.tiles[currentRow][col]` for every column. -/
def Game.shakeRowOk (this : Game) : Bool :=
  match this.tiles[this.currentRow]? with
  | some row => decide (NUM_COLS ≤ row.length)
  | none => false

/-- The rejection branch for a position: the toast is
`pos + 1` (a string concatenation, `pos` being a key), the ordinal suffix of
`parseInt(pos) + 1`, and the upper-cased letter. -/
def Game.rejectPosition (this : Game) (pos : Nat) (letter : JSChar) : HardModeCheck :=
  if this.shakeRowOk then
    match letter with
    | JSChar.chr c =>
      HardModeCheck.rejected
        (Nat.toDigits 10 pos ++ ['1'] ++ getOrdinalSuffix (pos + 1)
          ++ " letter must be ".toList ++ toUpperCase [c])
    | JSChar.undefined => HardModeCheck.typeError
  else HardModeCheck.typeError

/-- The rejection branch for a present letter. -/
def Game.rejectMissing (this : Game) (letter : JSChar) : HardModeCheck :=
  if this.shakeRowOk then
    match letter with
    | JSChar.chr c =>
      HardModeCheck.rejected ("Guess must contain ".toList ++ toUpperCase [c])
    | JSChar.undefined => HardModeCheck.typeError
  else HardModeCheck.typeError

/-- Second loop of `validateHardMode`, over the members of `present`. -/
def Game.checkPresent (this : Game) (guess : List Char) : List JSChar → HardModeCheck
  | [] => HardModeCheck.accepted
  | letter :: rest =>
    if strIncludes guess letter then this.checkPresent guess rest
    else this.rejectMissing letter

/-- First loop of `validateHardMode`, over `Object.entries(correct)`, followed by the second. -/
def Game.checkCorrect (this : Game) (guess : List Char) : List (Nat × JSChar) → HardModeCheck
  | [] => this.checkPresent guess this.revealedHints.present
  | (pos, letter) :: rest =>
    if strAt guess pos ≠ letter then this.rejectPosition pos letter
    else this.checkCorrect guess rest

/-- The method `validateHardMode(guess)`. -/
def Game.validateHardMode (this : Game) (guess : List Char) : HardModeCheck :=
  this.checkCorrect guess (objEntries this.revealedHints.correct)

/-- Body of the loop of `updateRevealedHints` at index `i` with `result[i] = r`. -/
def updateStep (guess : List Char) (h : RevealedHints) (i : Nat) (r : LetterState) :
    RevealedHints :=
  match r with
  | LetterState.correct =>
    { correct := objSet h.correct i (strAt guess i)
      present := setDelete h.present (strAt guess i) }
  | LetterState.present =>
    if strAt guess i ∈ objValues h.correct then h
    else { h with present := setAdd h.present (strAt guess i) }
  | LetterState.absent => h

/-- The loop of `updateRevealedHints` from index `i` on, over the rest of `result`. -/
def updateLoop (guess : List Char) : Nat → List LetterState → RevealedHints → RevealedHints
  | _, [], h => h
  | i, r :: rs, h => updateLoop guess (i + 1) rs (updateStep guess h i r)

/-- The method `updateRevealedHints(guess, result)`. -/
def Game.updateRevealedHints (this : Game) (guess : List Char) (result : List LetterState) :
    Game :=
  { this with revealedHints := updateLoop guess 0 result this.revealedHints }

/-- The state given by `evaluateGuess` to a position that holds the pair
`p = (guess[i], target[i])` when the second loop reaches it with the array
`targetLetters = tl`: `correct` on an exact match, else `present` when
`indexOf` finds the letter, else `absent`. -/
def scoreOne (p : Char × Char) (tl : List Cell) : LetterState :=
  if p.1 = p.2 then LetterState.correct
  else
    match indexOf tl (Cell.letter p.1) with
    | some _ => LetterState.present
    | none => LetterState.absent

/-- The array `targetLetters` after the second loop has visited that position. -/
def consume (p : Char × Char) (tl : List Cell) : List Cell :=
  if p.1 = p.2 then tl
  else
    match indexOf tl (Cell.letter p.1) with
    | some k => writeCell tl k Cell.null
    | none => tl

/-- The states given by the second loop to the positions still to visit. -/
def scoreRest : List (Char × Char) → List Cell → List LetterState
  | [], _ => []
  | p :: ps, tl => scoreOne p tl :: scoreRest ps (consume p tl)

/-- Number of occurrences of `l` in the guess at positions that are not exact matches. -/
def nonExactGuess (l : Char) (guess target : List Char) : Nat :=
  (guess.zip target).countP (fun p => decide (p.1 = l ∧ p.1 ≠ p.2))

/-- Number of occurrences of `l` in the target at positions that are not exact matches. -/
def nonExactTarget (l : Char) (guess target : List Char) : Nat :=
  (guess.zip target).countP (fun p => decide (p.2 = l ∧ p.1 ≠ p.2))

/-- Number of positions of the guess that carry `l` and are marked `present`. -/
def presentCount (l : Char) (guess : List Char) (result : List LetterState) : Nat :=
  (guess.zip result).countP (fun q => decide (q.1 = l ∧ q.2 = LetterState.present))

/-- Number of positions of the guess that carry `l` and are marked `correct` or `present`. -/
def creditedCount (l : Char) (guess : List Char) (result : List LetterState) : Nat :=
  (guess.zip result).countP
    (fun q => decide (q.1 = l ∧ (q.2 = LetterState.correct ∨ q.2 = LetterState.present)))

/-- A word of `NUM_COLS` lowercase letters `a`..`z`. -/
def isLowercaseWord (w : List Char) : Bool :=
  w.length == NUM_COLS && w.all Char.isLower

/-- A hint state that no session reaches: position 1 confirmed as `a` and an
empty present-set, in an otherwise fresh game. -/
def overwrittenHints : Game :=
  { Game.new with
    revealedHints := { correct := [none, some (JSChar.chr 'a')], present := [] } }

/-! ## Key presses, submissions and the deferred callbacks -/

/-- A closure handed to `setTimeout` by the game. -/
inductive Timer where
  /-- The callback of `submitGuess` ("check for win/loss after animation"),
  closed over `guess` and `result`. -/
  | decide (guess : List Char) (result : List LetterState)
  /-- The inner callback of the win branch, which calls `onGameEnd(true, ...)`. -/
  | gameEnd
  deriving DecidableEq, Repr

/-- A call made to one of the two callbacks given to the constructor. -/
inductive Call where
  /-- The call `onGameEnd(won, guesses)`. -/
  | onGameEnd (won : Bool) (guesses : Nat)
  /-- The call `onGuessComplete(guessCount, greenCount, yellowCount, won)`;
  `none` when the fourth argument is left out. -/
  | onGuessComplete (guessCount greenCount yellowCount : Nat) (won : Option Bool)
  deriving DecidableEq, Repr

/-- The method `revealRow(result)`, which advances to the next row; it reads
the tiles of the current row that `shakeRow` reads, and the state is left
as it is when one of them is missing (`TypeError`). -/
def Game.revealRow (this : Game) : Game :=
  if this.shakeRowOk then { this with currentRow := this.currentRow + 1, currentCol := 0 }
  else this

/-- The method `addLetter(letter)`: the state after the call. The call throws
a `TypeError`, before any write, when the tile is missing. -/
def Game.addLetter (this : Game) (letter : List Char) : Game :=
  if NUM_COLS ≤ this.currentCol then this
  else
    match this.tiles[this.currentRow]? with
    | none => this
    | some row =>
      if this.currentCol < row.length then
        { this with
          tiles := this.tiles.set this.currentRow (row.set this.currentCol (toUpperCase letter))
          currentCol := this.currentCol + 1 }
      else this

/-- The method `deleteLetter()`: the state after the call. The column is
decremented first; the call then throws a `TypeError` when the tile is missing. -/
def Game.deleteLetter (this : Game) : Game :=
  if this.currentCol ≤ 0 then this
  else
    match this.tiles[this.currentRow]? with
    | none => { this with currentCol := this.currentCol - 1 }
    | some row =>
      if this.currentCol - 1 < row.length then
        { this with
          tiles := this.tiles.set this.currentRow (row.set (this.currentCol - 1) [])
          currentCol := this.currentCol - 1 }
      else { this with currentCol := this.currentCol - 1 }

/-- The method `getCurrentGuess()`: the lower-cased text of the `NUM_COLS`
tiles of the current row, concatenated; `none` when a tile is missing (`TypeError`). -/
def Game.getCurrentGuess (this : Game) : Option (List Char) :=
  (List.range NUM_COLS).foldl
    (fun acc col =>
      match acc with
      | none => none
      | some guess =>
        match this.tiles[this.currentRow]? with
        | none => none
        | some row =>
          match row[col]? with
          | none => none
          | some tile => some (guess ++ toLowerCase tile))
    (some [])

/-- How a call of `submitGuess` ends. -/
inductive SubmitStatus where
  /-- A `TypeError` thrown by `getCurrentGuess`. -/
  | typeError
  /-- The toast `Not enough letters`. -/
  | notEnoughLetters
  /-- The toast `Not in word list`. -/
  | notInWordList
  /-- Hard mode is on and `validateHardMode` did not return `true`. -/
  | hardModeViolation (check : HardModeCheck)
  /-- The guess went through all checks and was evaluated. -/
  | accepted (guess : List Char) (result : List LetterState)
  deriving DecidableEq, Repr

/-- What a call of `submitGuess` or `handleKeyPress` leaves behind: the game
state after it, how it ended, and the callback it handed to `setTimeout`. -/
structure SubmitOutcome where
  game : Game
  status : Option SubmitStatus
  timer : Option Timer
  deriving DecidableEq, Repr

/-- The method `submitGuess()`. The dictionary `isValidWord` of `words.js`
and the value `hardMode` returned by `getHardMode()` are parameters. -/
def Game.submitGuess (this : Game) (isValidWord : List Char → Bool) (hardMode : Bool) :
    SubmitOutcome :=
  match this.getCurrentGuess with
  | none => { game := this, status := some SubmitStatus.typeError, timer := none }
  | some guess =>
    if guess.length < NUM_COLS then
      { game := this, status := some SubmitStatus.notEnoughLetters, timer := none }
    else if isValidWord guess = false then
      { game := this, status := some SubmitStatus.notInWordList, timer := none }
    else if hardMode = true ∧ this.validateHardMode guess ≠ HardModeCheck.accepted then
      { game := this
        status := some (SubmitStatus.hardModeViolation (this.validateHardMode guess))
        timer := none }
    else
      let result := (this.evaluateGuess guess).1
      let pushed : Game := { this with guesses := this.guesses ++ [{ word := guess, result := result }] }
      { game := (pushed.revealRow).updateRevealedHints guess result
        status := some (SubmitStatus.accepted guess result)
        timer := some (Timer.decide guess result) }

/-- The test `/^[A-Z]$/.test(key)`. -/
def isLetterKey (key : List Char) : Bool :=
  match key with
  | [c] => c.isUpper
  | _ => false

/-- The method `handleKeyPress(key)`. -/
def Game.handleKeyPress (this : Game) (isValidWord : List Char → Bool) (hardMode : Bool)
    (key : List Char) : SubmitOutcome :=
  if this.gameOver then { game := this, status := none, timer := none }
  else if key = "ENTER".toList then this.submitGuess isValidWord hardMode
  else if key = "BACKSPACE".toList then
    { game := this.deleteLetter, status := none, timer := none }
  else if isLetterKey key then
    { game := this.addLetter (toLowerCase key), status := none, timer := none }
  else { game := this, status := none, timer := none }

/-- Whether `bounceRow(currentRow - 1)` completes: it reads `this.tiles[currentRow - 1]`. -/
def Game.bounceRowOk (this : Game) : Bool :=
  decide (1 ≤ this.currentRow) && (this.tiles[this.currentRow - 1]?).isSome

/-- What a deferred callback leaves behind: the game state, the callbacks it
handed to `setTimeout`, and the calls it made. -/
structure TimerOutcome where
  game : Game
  timers : List Timer
  calls : List Call
  deriving DecidableEq, Repr

/-- The last step of the deferred callback of `submitGuess`: the report to
`onGuessComplete`, with the fourth argument only when the game is over. -/
def Game.reportGuess (this : Game) (result : List LetterState) (hasOnGuessComplete : Bool) :
    List Call :=
  if hasOnGuessComplete then
    [Call.onGuessComplete this.guesses.length (result.count LetterState.correct)
      (result.count LetterState.present) (if this.gameOver then some this.won else none)]
  else []

/-- The deferred callback of `submitGuess` for `guess` and `result`, run on
the state `this` of the game at that time; the two flags tell whether
`onGuessComplete` and `onGameEnd` are set. -/
def Game.decideGuess (this : Game) (guess : List Char) (result : List LetterState)
    (hasOnGuessComplete hasOnGameEnd : Bool) : TimerOutcome :=
  if guess = this.targetWord then
    let ended : Game := { this with gameOver := true, won := true }
    if ended.bounceRowOk then
      { game := ended
        timers := [Timer.gameEnd]
        calls := ended.reportGuess result hasOnGuessComplete }
    else { game := ended, timers := [], calls := [] }
  else if NUM_ROWS ≤ this.currentRow then
    let ended : Game := { this with gameOver := true, won := false }
    { game := ended
      timers := []
      calls := (if hasOnGameEnd then [Call.onGameEnd false ended.guesses.length] else [])
        ++ ended.reportGuess result hasOnGuessComplete }
  else { game := this, timers := [], calls := this.reportGuess result hasOnGuessComplete }

/-- The status line of `onGuessComplete` in `main.js`:
`won === true ? 'won' : (won === false ? 'lost' : 'playing')`. -/
inductive PlayerStatus where
  | playing
  | won
  | lost
  deriving DecidableEq, Repr

/-- The status that `onGuessComplete` of `main.js` derives from its fourth argument. -/
def statusOfWon : Option Bool → PlayerStatus
  | some true => PlayerStatus.won
  | some false => PlayerStatus.lost
  | none => PlayerStatus.playing

/-- The arguments that `onGuessComplete` of `main.js` passes on to
`multiplayer.updateMyGameState`; `none` when `isMultiplayer` is false. -/
def onGuessComplete (isMultiplayer : Bool) (guessCount greenCount yellowCount : Nat)
    (won : Option Bool) : Option (Nat × Nat × Nat × PlayerStatus) :=
  if isMultiplayer then some (guessCount, greenCount, yellowCount, statusOfWon won)
  else none

/-- A game together with what surrounds it: the callbacks waiting in the
timer queue, whether the two callbacks of the constructor are set, and the
calls made to them so far. -/
structure Session where
  game : Game
  timers : List Timer
  calls : List Call
  hasOnGuessComplete : Bool
  hasOnGameEnd : Bool
  deriving DecidableEq, Repr

/-- The call `game.startGame(target)`; callbacks already waiting are not cancelled. -/
def Session.start (s : Session) (target : List Char) : Session :=
  { s with game := s.game.startGame target }

/-- A key press: `game.handleKeyPress(key)`. -/
def Session.handleKey (isValidWord : List Char → Bool) (s : Session) (key : List Char)
    (hardMode : Bool) : Session :=
  { s with
    game := (s.game.handleKeyPress isValidWord hardMode key).game
    timers := s.timers ++ (s.game.handleKeyPress isValidWord hardMode key).timer.toList }

/-- The timer queue runs its `i`-th callback. -/
def Session.fire (s : Session) (i : Nat) : Session :=
  match s.timers[i]? with
  | none => s
  | some (Timer.decide guess result) =>
    { s with
      game := (s.game.decideGuess guess result s.hasOnGuessComplete s.hasOnGameEnd).game
      timers := s.timers.eraseIdx i
        ++ (s.game.decideGuess guess result s.hasOnGuessComplete s.hasOnGameEnd).timers
      calls := s.calls
        ++ (s.game.decideGuess guess result s.hasOnGuessComplete s.hasOnGameEnd).calls }
  | some Timer.gameEnd =>
    { s with
      timers := s.timers.eraseIdx i
      calls := s.calls
        ++ (if s.hasOnGameEnd then [Call.onGameEnd true s.game.guesses.length] else []) }

/-- What happens to a session: a key press (with the hard-mode setting read
at that moment), a direct call of `submitGuess`, or a waiting callback that runs. -/
inductive Event where
  | key (key : List Char) (hardMode : Bool)
  | submit (hardMode : Bool)
  | fire (i : Nat)
  deriving DecidableEq, Repr

/-- Whether hard mode is on at a submission made by the event. -/
def Event.hard : Event → Bool
  | Event.key _ hardMode => hardMode
  | Event.submit hardMode => hardMode
  | Event.fire _ => true

/-- One event. -/
def Session.step (isValidWord : List Char → Bool) (s : Session) : Event → Session
  | Event.key key hardMode => s.handleKey isValidWord key hardMode
  | Event.submit hardMode =>
    { s with
      game := (s.game.submitGuess isValidWord hardMode).game
      timers := s.timers ++ (s.game.submitGuess isValidWord hardMode).timer.toList }
  | Event.fire i => s.fire i

/-- A sequence of events, in order. -/
def Session.run (isValidWord : List Char → Bool) (s : Session) (events : List Event) : Session :=
  events.foldl (Session.step isValidWord) s

/-- A key press whose deferred callbacks run before anything else happens:
the decision scheduled by an accepted submission and, after a win, the
call of `onGameEnd`. -/
def Session.press (isValidWord : List Char → Bool) (s : Session) (k : List Char × Bool) :
    Session :=
  ((s.handleKey isValidWord k.1 k.2).fire 0).fire 0

/-- A sequence of key presses, each resolved before the next. -/
def Session.play (isValidWord : List Char → Bool) (s : Session) (keys : List (List Char × Bool)) :
    Session :=
  keys.foldl (Session.press isValidWord) s

/-- A fresh game in a session with both callbacks set and no callback waiting. -/
def Session.new : Session :=
  { game := Game.new, timers := [], calls := [], hasOnGuessComplete := true, hasOnGameEnd := true }

/-- The key presses that type `word` (given in upper case) and press `ENTER`. -/
def typeWord (word : List Char) (hardMode : Bool) : List Event :=
  word.map (fun c => Event.key [c] hardMode) ++ [Event.key "ENTER".toList hardMode]

/-- The same key presses for `Session.play`. -/
def typeKeys (word : List Char) (hardMode : Bool) : List (List Char × Bool) :=
  word.map (fun c => ([c], hardMode)) ++ [("ENTER".toList, hardMode)]

/-- A small dictionary for the examples. -/
def sampleWords (w : List Char) : Bool :=
  decide (w ∈ ["crane".toList, "trace".toList, "brace".toList, "slate".toList,
    "pious".toList, "bumpy".toList, "fight".toList])

/-- The session in which `CRANE` has just been entered against the target
`crane` and the deferred decision has not run yet. -/
def pendingWin : Session :=
  (Session.new.start "crane".toList).run sampleWords (typeWord "CRANE".toList false)

/-- Four wrong guesses, each resolved before the next; then `CRANE` and, while
its decision is still waiting, `TRACE`; then the waiting callbacks run. -/
def racedWin : Session :=
  (((Session.new.start "crane".toList).play sampleWords
      (typeKeys "SLATE".toList false ++ typeKeys "PIOUS".toList false
        ++ typeKeys "BUMPY".toList false ++ typeKeys "FIGHT".toList false)).run sampleWords
    (typeWord "CRANE".toList false ++ typeWord "TRACE".toList false
      ++ [Event.fire 0, Event.fire 1, Event.fire 0]))

/-- The target is entered first and `TRACE` right after it, while the first
decision is still waiting; then that decision and the `onGameEnd` call run. -/
def racedReport : Session :=
  (Session.new.start "crane".toList).run sampleWords
    (typeWord "CRANE".toList false ++ typeWord "TRACE".toList false
      ++ [Event.fire 0, Event.fire 1])

/-! ## Match results (`src/src/multiplayer.js`, `src/src/supabase.js`)

The tables of the database are lists of rows; a query fails only where
`.single()` does not find exactly one row. Identifiers are natural numbers. -/

/-- A row of the table `users`. -/
structure User where
  id : Nat
  username : List Char
  deriving DecidableEq, Repr

/-- A row of the table `rooms`, as far as `getResults` reads it. -/
structure Room where
  id : Nat
  player1_id : Nat
  player2_id : Option Nat
  current_word : List Char
  deriving DecidableEq, Repr

/-- A row of the table `game_states`. -/
structure GameStateRow where
  room_id : Nat
  user_id : Nat
  guess_count : Nat
  green_count : Nat
  yellow_count : Nat
  status : PlayerStatus
  deriving DecidableEq, Repr

/-- A row of the table `match_results`. -/
structure MatchRecord where
  room_id : Nat
  player1_id : Nat
  player2_id : Option Nat
  winner_id : Option Nat
  player1_guesses : Nat
  player2_guesses : Nat
  word : List Char
  deriving DecidableEq, Repr

/-- The two tables that `getResults` reads and writes. -/
structure Database where
  game_states : List GameStateRow
  match_results : List MatchRecord
  deriving DecidableEq, Repr

/-- The fields of a `Multiplayer` that `getResults` reads and writes. -/
structure Multiplayer where
  user : Option User
  room : Option Room
  opponent : Option User
  myScore : Nat
  opponentScore : Nat
  draws : Nat
  deriving DecidableEq, Repr

/-- The query `getOpponentState(roomId, myUserId)`: the single row of the room
that belongs to another user; `none` when `.single()` fails. -/
def getOpponentState (db : Database) (roomId myUserId : Nat) : Option GameStateRow :=
  match db.game_states.filter (fun r => r.room_id == roomId && r.user_id != myUserId) with
  | [row] => some row
  | _ => none

/-- The insert of `saveMatchResult`. -/
def saveMatchResult (db : Database) (roomId player1Id : Nat) (player2Id winnerId : Option Nat)
    (p1Guesses p2Guesses : Nat) (word : List Char) : Database :=
  { db with
    match_results := db.match_results ++
      [{ room_id := roomId, player1_id := player1Id, player2_id := player2Id,
         winner_id := winnerId, player1_guesses := p1Guesses, player2_guesses := p2Guesses,
         word := word }] }

/-- The object returned by `getHeadToHead`. -/
structure HeadToHead where
  user1Wins : Nat
  user2Wins : Nat
  draws : Nat
  totalGames : Nat
  deriving DecidableEq, Repr

/-- The loop of `getHeadToHead` over the rows found. -/
def countMatch (userId1 : Nat) (acc : HeadToHead) (m : MatchRecord) : HeadToHead :=
  match m.winner_id with
  | none => { acc with draws := acc.draws + 1 }
  | some w =>
    if w = userId1 then { acc with user1Wins := acc.user1Wins + 1 }
    else { acc with user2Wins := acc.user2Wins + 1 }

/-- The query `getHeadToHead(userId1, userId2)`. -/
def getHeadToHead (db : Database) (userId1 userId2 : Nat) : HeadToHead :=
  let data := db.match_results.filter (fun m =>
    (m.player1_id == userId1 && m.player2_id == some userId2)
      || (m.player1_id == userId2 && m.player2_id == some userId1))
  data.foldl (countMatch userId1)
    { user1Wins := 0, user2Wins := 0, draws := 0, totalGames := data.length }

/-- The method `loadHeadToHead()`. -/
def Multiplayer.loadHeadToHead (this : Multiplayer) (db : Database) : Multiplayer :=
  match this.user, this.opponent with
  | some user, some opponent =>
    { this with
      myScore := (getHeadToHead db user.id opponent.id).user1Wins
      opponentScore := (getHeadToHead db user.id opponent.id).user2Wins
      draws := (getHeadToHead db user.id opponent.id).draws }
  | _, _ => this

/-- The method `isHost()`. -/
def Multiplayer.isHost (this : Multiplayer) : Bool :=
  match this.room, this.user with
  | some room, some user => room.player1_id == user.id
  | _, _ => false

/-- The expression `n || 7` on a guess count. -/
def orSeven (n : Nat) : Nat := if n = 0 then 7 else n

/-- The winner decided by `getResults`: the local variables `won`, `draw` and `winnerId`. -/
structure Verdict where
  won : Bool
  draw : Bool
  winnerId : Option Nat
  deriving DecidableEq, Repr

/-- The branch "Determine winner" of `getResults`. -/
def determineWinner (myWon : Bool) (myGuesses : Nat) (opponentWon : Bool)
    (opponentGuesses : Nat) (myId opponentId : Nat) : Verdict :=
  if myWon = true ∧ opponentWon = true then
    if myGuesses < opponentGuesses then { won := true, draw := false, winnerId := some myId }
    else if opponentGuesses < myGuesses then
      { won := false, draw := false, winnerId := some opponentId }
    else { won := false, draw := true, winnerId := none }
  else if myWon = true ∧ opponentWon = false then
    { won := true, draw := false, winnerId := some myId }
  else if myWon = false ∧ opponentWon = true then
    { won := false, draw := false, winnerId := some opponentId }
  else { won := false, draw := true, winnerId := none }

/-- The object returned by `getResults`. -/
structure Results where
  won : Bool
  draw : Bool
  myGuesses : Option Nat
  opponentGuesses : Option Nat
  myName : List Char
  opponentName : List Char
  word : List Char
  myScore : Nat
  opponentScore : Nat
  draws : Nat
  deriving DecidableEq, Repr

/-- How a call of `getResults` ends. -/
inductive ResultsOutcome where
  /-- The early `return null`: no room or no opponent. -/
  | null
  /-- An error thrown on the way: no user, or `getOpponentState` failed. -/
  | threw
  /-- The returned object, with the `winnerId` decided on the way, and the
  states of the `Multiplayer` and of the database after the call. -/
  | returned (results : Results) (winnerId : Option Nat) (this : Multiplayer) (db : Database)
  deriving DecidableEq, Repr

/-- The method `getResults(myWon, myGuesses)` run on the database `db`. -/
def Multiplayer.getResults (this : Multiplayer) (db : Database) (myWon : Bool)
    (myGuesses : Nat) : ResultsOutcome :=
  match this.room, this.opponent with
  | some room, some opponent =>
    match this.user with
    | none => ResultsOutcome.threw
    | some user =>
      match getOpponentState db room.id user.id with
      | none => ResultsOutcome.threw
      | some opponentState =>
        let opponentWon := decide (opponentState.status = PlayerStatus.won)
        let opponentGuesses := opponentState.guess_count
        let verdict :=
          determineWinner myWon myGuesses opponentWon opponentGuesses user.id opponent.id
        let db1 :=
          if this.isHost then
            saveMatchResult db room.id room.player1_id room.player2_id verdict.winnerId
              (orSeven myGuesses) (orSeven opponentGuesses) room.current_word
          else db
        let this1 := this.loadHeadToHead db1
        ResultsOutcome.returned
          { won := verdict.won
            draw := verdict.draw
            myGuesses := if myWon then some myGuesses else none
            opponentGuesses := if opponentWon then some opponentGuesses else none
            myName := user.username
            opponentName := opponent.username
            word := room.current_word
            myScore := this1.myScore
            opponentScore := this1.opponentScore
            draws := this1.draws }
          verdict.winnerId this1 db1
  | _, _ => ResultsOutcome.null

/-! ## Properties of the states of a session -/

/-- The board has `NUM_ROWS` rows of `NUM_COLS` tiles, the current row is the
number of guesses taken, and it is at most `NUM_ROWS`. -/
def Game.boardOk (this : Game) : Prop :=
  this.tiles.length = NUM_ROWS ∧ (∀ row ∈ this.tiles, row.length = NUM_COLS) ∧
    this.guesses.length = this.currentRow ∧ this.currentRow ≤ NUM_ROWS

/-- A later guess repeats every letter that an earlier one had evaluated `correct`. -/
def keepsCorrect (earlier later : GuessEntry) : Prop :=
  ∀ (p : Nat) (c : Char), earlier.result[p]? = some LetterState.correct →
    earlier.word[p]? = some c → later.word[p]? = some c

/-- Every letter evaluated `correct` in the history is the confirmed letter of
its position, and every guess repeats the letters confirmed by the guesses before it. -/
def Game.hardModeOk (this : Game) : Prop :=
  (∀ e ∈ this.guesses, ∀ (p : Nat) (c : Char), e.result[p]? = some LetterState.correct →
    e.word[p]? = some c → objGet this.revealedHints.correct p = some (JSChar.chr c)) ∧
  this.guesses.Pairwise keepsCorrect

/-- The game after `submitGuess` has accepted `guess` with the evaluation
`result`: the entry is pushed, the row advanced, the hints updated. -/
def Game.accept (this : Game) (guess : List Char) (result : List LetterState) : Game :=
  { this with
    guesses := this.guesses ++ [{ word := guess, result := result }]
    currentRow := this.currentRow + 1
    currentCol := 0
    revealedHints := updateLoop guess 0 result this.revealedHints }

/-- No callback is waiting, the board is in order, and the flags `gameOver`
and `won` say what the history of guesses says. -/
def Session.settled (s : Session) : Prop :=
  s.timers = [] ∧ s.game.boardOk ∧
  (s.game.won = true ↔ ∃ e ∈ s.game.guesses, e.word = s.game.targetWord) ∧
  ((s.game.gameOver = true ∧ s.game.won = false) ↔
    (s.game.guesses.length = NUM_ROWS ∧ ∀ e ∈ s.game.guesses, e.word ≠ s.game.targetWord)) ∧
  (s.game.won = true → s.game.gameOver = true)

/-- Whether a call is a call of `onGuessComplete`. -/
def Call.isGuessComplete : Call → Bool
  | Call.onGuessComplete _ _ _ _ => true
  | Call.onGameEnd _ _ => false

/-- A room for the examples: user 1 (the host) against user 2 on the word `crane`. -/
def sampleMatch : Multiplayer :=
  { user := some { id := 1, username := "ann".toList }
    room := some { id := 10, player1_id := 1, player2_id := some 2,
                   current_word := "crane".toList }
    opponent := some { id := 2, username := "bob".toList }
    myScore := 0, opponentScore := 0, draws := 0 }

/-- The database of the examples when the opponent has won in five guesses. -/
def sampleDatabase : Database :=
  { game_states :=
      [{ room_id := 10, user_id := 1, guess_count := 3, green_count := 5, yellow_count := 0,
         status := PlayerStatus.won },
       { room_id := 10, user_id := 2, guess_count := 5, green_count := 5, yellow_count := 0,
         status := PlayerStatus.won }]
    match_results := [] }

/-- The database after a call of `getResults` that started on `db`: the early
return and a thrown error write nothing. -/
def ResultsOutcome.database (db : Database) : ResultsOutcome → Database
  | ResultsOutcome.returned _ _ _ db2 => db2
  | _ => db

/-- Six wrong guesses against the target `crane`, each resolved before the next. -/
def lostSession : Session :=
  (Session.new.start "crane".toList).play sampleWords
    (typeKeys "SLATE".toList false ++ typeKeys "PIOUS".toList false
      ++ typeKeys "BUMPY".toList false ++ typeKeys "FIGHT".toList false
      ++ typeKeys "TRACE".toList false ++ typeKeys "BRACE".toList false)

/-- The database of the examples when the host has lost, with the six guesses
reported by `lostSession`, and the opponent has won in three guesses. -/
def lostDatabase : Database :=
  { game_states :=
      [{ room_id := 10, user_id := 1, guess_count := 6, green_count := 3, yellow_count := 1,
         status := PlayerStatus.lost },
       { room_id := 10, user_id := 2, guess_count := 3, green_count := 5, yellow_count := 0,
         status := PlayerStatus.won }]
    match_results := [] }

/-- The opponent of `sampleMatch` in the same room: user 2, who did not create the room. -/
def sampleGuest : Multiplayer :=
  { user := some { id := 2, username := "bob".toList }
    room := some { id := 10, player1_id := 1, player2_id := some 2,
                   current_word := "crane".toList }
    opponent := some { id := 1, username := "ann".toList }
    myScore := 0, opponentScore := 0, draws := 0 }

/-- A database for the examples with four earlier records: between the users
1 and 2 a win of each and a draw, and a record of the users 1 and 3. -/
def sampleLedger : Database :=
  { game_states := []
    match_results :=
      [{ room_id := 7, player1_id := 1, player2_id := some 2, winner_id := some 1,
         player1_guesses := 3, player2_guesses := 5, word := "slate".toList },
       { room_id := 8, player1_id := 2, player2_id := some 1, winner_id := some 2,
         player1_guesses := 4, player2_guesses := 6, word := "pious".toList },
       { room_id := 8, player1_id := 2, player2_id := some 1, winner_id := none,
         player1_guesses := 4, player2_guesses := 4, word := "bumpy".toList },
       { room_id := 9, player1_id := 1, player2_id := some 3, winner_id := some 3,
         player1_guesses := 6, player2_guesses := 2, word := "fight".toList }] }

/-- One run of the result computation of a match on the shared database: the
host's client or the guest's client calls `getResults` with its own outcome,
the status and guess count of its own state. -/
def resultsCall (host guest : Multiplayer) (hostState guestState : GameStateRow)
    (db : Database) (byHost : Bool) : Database :=
  if byHost then
    (host.getResults db (decide (hostState.status = PlayerStatus.won))
      hostState.guess_count).database db
  else
    (guest.getResults db (decide (guestState.status = PlayerStatus.won))
      guestState.guess_count).database db

/-- The database after the runs `callers` of the result computation, in
order; `true` stands for a call by the host, `false` for a call by the guest. -/
def resultsCalls (host guest : Multiplayer) (hostState guestState : GameStateRow)
    (db : Database) (callers : List Bool) : Database :=
  callers.foldl (resultsCall host guest hostState guestState) db

/-- Whether a call is a call of `onGameEnd`. -/
def Call.isGameEnd : Call → Bool
  | Call.onGameEnd _ _ => true
  | Call.onGuessComplete _ _ _ _ => false

/-! ## Waiting for the opponent (`onGameEnd` of `src/src/main.js`)

The branch "Wait for opponent" of `checkOpponent` sets an interval that polls
`checkBothFinished` and installs a handler for the pushed updates. The
callbacks are `async`: a poll callback is suspended at its `await` until the
query resolves, and other callbacks run meanwhile. -/

/-- The state of the wait. -/
structure Waiting where
  /-- Whether the interval `pollInterval` is still set. -/
  pollInterval : Bool
  /-- Whether `multiplayer.onOpponentUpdate` is the handler installed by the wait
  (and not yet `originalHandler` again). -/
  onOpponentUpdate : Bool
  /-- The poll callbacks suspended at `await multiplayer.checkBothFinished()`. -/
  checking : Nat
  /-- How many times `getResults` was called and its result passed to `showResultsModal`. -/
  surfaced : Nat
  deriving DecidableEq, Repr

/-- The state right after the wait was set up. -/
def Waiting.new : Waiting :=
  { pollInterval := true, onOpponentUpdate := true, checking := 0, surfaced := 0 }

/-- What happens during the wait. -/
inductive WaitEvent where
  /-- The interval fires: its callback starts and awaits `checkBothFinished()`. -/
  | tick
  /-- The query of a suspended poll callback resolves with `finished`. -/
  | checked (finished : Bool)
  /-- The subscription delivers a state of the opponent. -/
  | push (status : PlayerStatus)
  deriving DecidableEq, Repr

/-- One event of the wait. The poll callback clears the interval and
surfaces the result; the pushed handler clears the interval, puts
`originalHandler` back and surfaces the result. -/
def Waiting.step (w : Waiting) : WaitEvent → Waiting
  | WaitEvent.tick =>
    if w.pollInterval then { w with checking := w.checking + 1 } else w
  | WaitEvent.checked finished =>
    if w.checking = 0 then w
    else if finished then
      { w with checking := w.checking - 1, pollInterval := false, surfaced := w.surfaced + 1 }
    else { w with checking := w.checking - 1 }
  | WaitEvent.push status =>
    if w.onOpponentUpdate then
      if status ≠ PlayerStatus.playing then
        { w with pollInterval := false, onOpponentUpdate := false, surfaced := w.surfaced + 1 }
      else w
    else w

/-- A sequence of events of the wait, in order. -/
def Waiting.run (w : Waiting) (events : List WaitEvent) : Waiting :=
  events.foldl Waiting.step w

/-! ## The keyboard (`src/src/keyboard.js`)

The object `keyStates` is a list of properties, key name and state; the object
`keys` is given by the names of the keys that have an element. The classes of
the key elements, which follow `keyStates`, are left out. -/

/-- The constant `KEYBOARD_ROWS`. -/
def KEYBOARD_ROWS : List (List (List Char)) :=
  [["Q", "W", "E", "R", "T", "Y", "U", "I", "O", "P"].map String.toList,
   ["A", "S", "D", "F", "G", "H", "J", "K", "L"].map String.toList,
   ["ENTER", "Z", "X", "C", "V", "B", "N", "M", "BACKSPACE"].map String.toList]

/-- The read `o[key]` of a property; `none` is `undefined`. -/
def propGet : List (List Char × LetterState) → List Char → Option LetterState
  | [], _ => none
  | (k, v) :: rest, key => if k = key then some v else propGet rest key

/-- The write `o[key] = v` of a property. -/
def propSet : List (List Char × LetterState) → List Char → LetterState →
    List (List Char × LetterState)
  | [], key, v => [(key, v)]
  | (k, w) :: rest, key, v =>
    if k = key then (k, v) :: rest else (k, w) :: propSet rest key v

/-- The fields of a `Keyboard` that `updateKeyState` reads and writes. -/
structure Keyboard where
  /-- The names of the properties of `this.keys`. -/
  keys : List (List Char)
  keyStates : List (List Char × LetterState)
  deriving DecidableEq, Repr

/-- The keyboard after the constructor: `render()` has put one element per key
of `KEYBOARD_ROWS` into `this.keys`. -/
def Keyboard.new : Keyboard :=
  { keys := KEYBOARD_ROWS.flatten, keyStates := [] }

/-- The table `stateOrder` of `updateKeyState`. -/
def stateOrder : LetterState → Nat
  | LetterState.absent => 1
  | LetterState.present => 2
  | LetterState.correct => 3

/-- The method `updateKeyState(letter, state)`. -/
def Keyboard.updateKeyState (this : Keyboard) (letter : List Char) (state : LetterState) :
    Keyboard :=
  let key := toUpperCase letter
  if key ∈ this.keys then
    match propGet this.keyStates key with
    | none => { this with keyStates := propSet this.keyStates key state }
    | some currentState =>
      if stateOrder state > stateOrder currentState then
        { this with keyStates := propSet this.keyStates key state }
      else this
  else this

/-- The method `reset()`. -/
def Keyboard.reset (this : Keyboard) : Keyboard :=
  { this with keyStates := [] }

/-- A sequence of calls of `updateKeyState`, in order. -/
def Keyboard.updates (this : Keyboard) (calls : List (List Char × LetterState)) : Keyboard :=
  calls.foldl (fun k c => k.updateKeyState c.1 c.2) this

/-- The state of a key after one more call for it: what `updateKeyState`
stores when the stored state is `current`. -/
def upgraded (current : Option LetterState) (state : LetterState) : Option LetterState :=
  match current with
  | none => some state
  | some currentState =>
    if stateOrder state > stateOrder currentState then some state else some currentState

/-- The states passed for the key `key` in a sequence of calls. -/
def passedFor (key : List Char) (calls : List (List Char × LetterState)) : List LetterState :=
  (calls.filter (fun c => decide (toUpperCase c.1 = key))).map (fun c => c.2)

/-- The hints agree with the word `target`: every confirmed position holds
the letter of `target` at that position, and every member of the present-set
is a letter that occurs in `target`. -/
def hintsAgree (target : List Char) (h : RevealedHints) : Prop :=
  (∀ (p : Nat) (v : JSChar), objGet h.correct p = some v → strAt target p = v) ∧
  (∀ v ∈ h.present, ∃ c, v = JSChar.chr c ∧ c ∈ target)

/-- Every tile of the board holds at most one letter. -/
def Game.tilesOk (this : Game) : Prop :=
  ∀ row ∈ this.tiles, ∀ tile ∈ row, tile.length ≤ 1

/-- The game with the target `audio` after the guess `ABBEY`, which confirms
`a` at position 0, with `BBBBB` typed into the second row; every word counts
as valid. -/
def firstConfirmed : Game :=
  ((Session.new.start "audio".toList).run (fun _ => true)
    (typeWord "ABBEY".toList true ++ [Event.fire 0]
      ++ "BBBBB".toList.map (fun c => Event.key [c] true))).game

/-- The game with the target `crane` after the guesses `SLATE` and `TRACE`
(confirmed: `r`, `a`, `e` at the positions 1, 2, 4; present: `c`), with
`PIOUS` typed into the third row. -/
def laterConfirmed : Game :=
  ((Session.new.start "crane".toList).run sampleWords
    (typeWord "SLATE".toList true ++ [Event.fire 0] ++ typeWord "TRACE".toList true
      ++ [Event.fire 0] ++ "PIOUS".toList.map (fun c => Event.key [c] true))).game

/-! ## Arrays: reads and writes at the end of a prefix -/

theorem readCell_append_cons (pre post : List Cell) (x : Cell) :
    readCell (pre ++ x :: post) pre.length = if x = Cell.empty then Cell.undefined else x := by
  unfold readCell
  rw [List.getElem?_append_right (Nat.le_refl _)]
  cases x <;> simp

theorem writeCell_append_cons (pre post : List Cell) (x v : Cell) :
    writeCell (pre ++ x :: post) pre.length v = pre ++ v :: post := by
  unfold writeCell
  rw [if_pos (by simp)]
  rw [List.set_append_right _ _ (Nat.le_refl _)]
  simp

theorem set_append_cons {α : Type} (pre post : List α) (x v : α) :
    (pre ++ x :: post).set pre.length v = pre ++ v :: post := by
  rw [List.set_append_right _ _ (Nat.le_refl _)]
  simp

/-! ## The first loop in closed form -/

theorem firstPass_range' (ps : List (Char × Char)) :
    ∀ (rd : List LetterState) (td gd : List Cell),
      rd.length = td.length → gd.length = td.length →
      List.foldl firstPassStep
          { result := rd ++ ps.map (fun _ => LetterState.absent)
            targetLetters := td ++ ps.map (fun p => Cell.letter p.2)
            guessLetters := gd ++ ps.map (fun p => Cell.letter p.1) }
          (List.range' td.length ps.length)
        = { result := rd ++ ps.map
              (fun p => if p.1 = p.2 then LetterState.correct else LetterState.absent)
            targetLetters := td ++ ps.map
              (fun p => if p.1 = p.2 then Cell.null else Cell.letter p.2)
            guessLetters := gd ++ ps.map
              (fun p => if p.1 = p.2 then Cell.null else Cell.letter p.1) } := by
  induction ps with
  | nil => intro rd td gd _ _; simp
  | cons p ps ih =>
    intro rd td gd hr hg
    have key := ih (rd ++ [if p.1 = p.2 then LetterState.correct else LetterState.absent])
      (td ++ [if p.1 = p.2 then Cell.null else Cell.letter p.2])
      (gd ++ [if p.1 = p.2 then Cell.null else Cell.letter p.1])
      (by simp [hr]) (by simp [hg])
    simp only [List.length_append, List.length_singleton, List.append_assoc,
      List.singleton_append] at key
    simp only [List.length_cons, List.range'_succ, List.foldl_cons, List.map_cons]
    rw [← key]
    congr 1
    unfold firstPassStep
    simp only
    rw [← hg, readCell_append_cons, writeCell_append_cons, hg, readCell_append_cons,
      writeCell_append_cons, ← hr, set_append_cons]
    by_cases h : p.1 = p.2
    · simp [h]
    · simp [h]

/-! ## The second loop as a recursion over the positions -/

theorem secondPassStep_append_cons (rd rs : List LetterState) (tl gd gs : List Cell)
    (p : Char × Char) (hr : rd.length = gd.length) :
    secondPassStep
        { result := rd ++ (if p.1 = p.2 then LetterState.correct else LetterState.absent) :: rs
          targetLetters := tl
          guessLetters := gd ++ (if p.1 = p.2 then Cell.null else Cell.letter p.1) :: gs }
        gd.length
      = { result := rd ++ scoreOne p tl :: rs
          targetLetters := consume p tl
          guessLetters := gd ++ (if p.1 = p.2 then Cell.null else Cell.letter p.1) :: gs } := by
  unfold secondPassStep scoreOne consume
  simp only
  rw [readCell_append_cons]
  by_cases h : p.1 = p.2
  · simp [h]
  · simp only [h, if_false, reduceCtorEq]
    cases hk : indexOf tl (Cell.letter p.1) with
    | none => simp
    | some k =>
      simp only
      rw [← hr, set_append_cons]

theorem secondPass_range' (ps : List (Char × Char)) :
    ∀ (rd : List LetterState) (tl gd : List Cell), rd.length = gd.length →
      (List.foldl secondPassStep
          { result := rd ++ ps.map
              (fun p => if p.1 = p.2 then LetterState.correct else LetterState.absent)
            targetLetters := tl
            guessLetters := gd ++ ps.map
              (fun p => if p.1 = p.2 then Cell.null else Cell.letter p.1) }
          (List.range' gd.length ps.length)).result
        = rd ++ scoreRest ps tl := by
  induction ps with
  | nil => intro rd tl gd _; simp [scoreRest]
  | cons p ps ih =>
    intro rd tl gd hr
    simp only [List.length_cons, List.range'_succ, List.foldl_cons, List.map_cons]
    rw [secondPassStep_append_cons rd _ tl gd _ p hr]
    have key := ih (rd ++ [scoreOne p tl]) (consume p tl)
      (gd ++ [if p.1 = p.2 then Cell.null else Cell.letter p.1]) (by simp [hr])
    simp only [List.length_append, List.length_singleton, List.append_assoc,
      List.singleton_append] at key
    simpa [scoreRest] using key

/-- For a guess and a target of `NUM_COLS` letters, the array returned by
`evaluateGuess` is `scoreRest` run on the letter pairs and the target letters
left over by the first loop. -/
theorem evaluate_result_eq (target guess : List Char)
    (hg : guess.length = NUM_COLS) (ht : target.length = NUM_COLS) :
    (evaluate target guess).result
      = scoreRest (guess.zip target)
          ((guess.zip target).map
            (fun p => if p.1 = p.2 then Cell.null else Cell.letter p.2)) := by
  have hlen : (guess.zip target).length = NUM_COLS := by simp [hg, ht]
  have h1 : List.replicate NUM_COLS LetterState.absent
      = (guess.zip target).map (fun _ => LetterState.absent) := by
    rw [← hlen]; simp
  have e2 : (guess.zip target).map Prod.snd = target :=
    List.map_snd_zip guess target (by omega)
  have e3 : (guess.zip target).map Prod.fst = guess :=
    List.map_fst_zip guess target (by omega)
  have h2 : split target = (guess.zip target).map (fun p => Cell.letter p.2) := by
    have : split target = ((guess.zip target).map Prod.snd).map Cell.letter := by
      rw [e2]; rfl
    rw [this, List.map_map]; rfl
  have h3 : split guess = (guess.zip target).map (fun p => Cell.letter p.1) := by
    have : split guess = ((guess.zip target).map Prod.fst).map Cell.letter := by
      rw [e3]; rfl
    rw [this, List.map_map]; rfl
  unfold evaluate
  simp only
  rw [h1, h2, h3, List.range_eq_range', ← hlen]
  have a := firstPass_range' (guess.zip target) [] [] [] rfl rfl
  simp only [List.nil_append, List.length_nil] at a
  rw [a]
  have b := secondPass_range' (guess.zip target) []
    ((guess.zip target).map (fun p => if p.1 = p.2 then Cell.null else Cell.letter p.2)) [] rfl
  simp only [List.nil_append, List.length_nil] at b
  exact b

/-! ## Counting the letters left in `targetLetters` -/

theorem writeCell_cons_succ (x v : Cell) (xs : List Cell) (j : Nat) :
    writeCell (x :: xs) (j + 1) v = x :: writeCell xs j v := by
  unfold writeCell
  by_cases h : j < xs.length
  · simp [h]
  · simp [h]

theorem writeCell_cons_zero (x v : Cell) (xs : List Cell) :
    writeCell (x :: xs) 0 v = v :: xs := by
  simp [writeCell]

theorem indexOf_letter_none (tl : List Cell) (c : Char) :
    indexOf tl (Cell.letter c) = none ↔ List.count (Cell.letter c) tl = 0 := by
  induction tl with
  | nil => simp [indexOf]
  | cons x xs ih =>
    by_cases hx : x = Cell.letter c
    · subst hx
      simp [indexOf]
    · have hx' : ¬ (x ≠ Cell.empty ∧ x = Cell.letter c) := fun h => hx h.2
      simp only [indexOf, hx', if_false, Option.map_eq_none', ih]
      rw [List.count_cons_of_ne (Ne.symm hx)]

theorem indexOf_letter_some (tl : List Cell) (c d : Char) :
    ∀ k, indexOf tl (Cell.letter c) = some k →
      List.count (Cell.letter d) (writeCell tl k Cell.null) + (if d = c then 1 else 0)
        = List.count (Cell.letter d) tl := by
  induction tl with
  | nil => intro k h; simp [indexOf] at h
  | cons x xs ih =>
    intro k h
    by_cases hx : x = Cell.letter c
    · subst hx
      simp only [indexOf, ne_eq, reduceCtorEq, not_false_eq_true, and_self, if_true,
        Option.some.injEq] at h
      subst h
      rw [writeCell_cons_zero]
      by_cases hd : d = c
      · subst hd; simp
      · have : Cell.letter c ≠ Cell.letter d := by
          intro e; injection e with e; exact hd e.symm
        simp [hd, List.count_cons_of_ne this]
    · have hx' : ¬ (x ≠ Cell.empty ∧ x = Cell.letter c) := fun h => hx h.2
      simp only [indexOf, hx', if_false, Option.map_eq_some'] at h
      obtain ⟨j, hj, rfl⟩ := h
      rw [writeCell_cons_succ]
      have := ih j hj
      by_cases hxd : x = Cell.letter d
      · subst hxd
        simp only [List.count_cons_self]
        omega
      · rw [List.count_cons_of_ne (Ne.symm hxd), List.count_cons_of_ne (Ne.symm hxd)]
        exact this

theorem count_consume (p : Char × Char) (tl : List Cell) (d : Char) (h : p.1 ≠ p.2) :
    List.count (Cell.letter d) (consume p tl)
      = List.count (Cell.letter d) tl - (if d = p.1 then 1 else 0) := by
  unfold consume
  rw [if_neg h]
  cases hk : indexOf tl (Cell.letter p.1) with
  | none =>
    have := (indexOf_letter_none tl p.1).1 hk
    by_cases hd : d = p.1
    · subst hd; simp [this]
    · simp [hd]
  | some k =>
    have := indexOf_letter_some tl p.1 d k hk
    simp only
    omega

theorem consume_exact (p : Char × Char) (tl : List Cell) (h : p.1 = p.2) :
    consume p tl = tl := by
  simp [consume, h]

theorem scoreOne_exact (p : Char × Char) (tl : List Cell) (h : p.1 = p.2) :
    scoreOne p tl = LetterState.correct := by
  simp [scoreOne, h]

theorem scoreOne_nonExact (p : Char × Char) (tl : List Cell) (h : p.1 ≠ p.2) :
    scoreOne p tl
      = if 0 < List.count (Cell.letter p.1) tl then LetterState.present
        else LetterState.absent := by
  unfold scoreOne
  rw [if_neg h]
  cases hk : indexOf tl (Cell.letter p.1) with
  | none =>
    have := (indexOf_letter_none tl p.1).1 hk
    simp [this]
  | some k =>
    have := indexOf_letter_some tl p.1 p.1 k hk
    simp only [if_true] at this
    have : 0 < List.count (Cell.letter p.1) tl := by omega
    simp [this]

/-! ## What the second loop gives to every position -/

theorem scoreRest_length (ps : List (Char × Char)) :
    ∀ tl, (scoreRest ps tl).length = ps.length := by
  induction ps with
  | nil => intro tl; rfl
  | cons p ps ih => intro tl; simp [scoreRest, ih]

theorem scoreRest_all_exact (ps : List (Char × Char)) (h : ∀ p ∈ ps, p.1 = p.2) :
    ∀ tl, scoreRest ps tl = List.replicate ps.length LetterState.correct := by
  induction ps with
  | nil => intro tl; rfl
  | cons p ps ih =>
    intro tl
    have hp : p.1 = p.2 := h p (List.mem_cons_self _ _)
    simp only [scoreRest, scoreOne_exact p tl hp, List.length_cons, List.replicate_succ]
    rw [ih (fun q hq => h q (List.mem_cons_of_mem _ hq))]

theorem scoreRest_getElem? (ps : List (Char × Char)) :
    ∀ (tl : List Cell) (i : Nat) (p : Char × Char), ps[i]? = some p →
      (scoreRest ps tl)[i]? = some
        (if p.1 = p.2 then LetterState.correct
         else if (ps.take i).countP (fun q => decide (q.1 = p.1 ∧ q.1 ≠ q.2))
              < List.count (Cell.letter p.1) tl
           then LetterState.present else LetterState.absent) := by
  induction ps with
  | nil => intro tl i p h; simp at h
  | cons q qs ih =>
    intro tl i p h
    cases i with
    | zero =>
      simp only [List.getElem?_cons_zero, Option.some.injEq] at h
      subst h
      simp only [scoreRest, List.getElem?_cons_zero, List.take_zero, List.countP_nil]
      by_cases hq : q.1 = q.2
      · rw [scoreOne_exact q tl hq]; simp [hq]
      · rw [scoreOne_nonExact q tl hq]; simp [hq]
    | succ j =>
      simp only [List.getElem?_cons_succ] at h
      simp only [scoreRest, List.getElem?_cons_succ, List.take_succ_cons, List.countP_cons]
      rw [ih (consume q tl) j p h]
      by_cases hp : p.1 = p.2
      · simp [hp]
      · simp only [hp, if_false]
        by_cases hq : q.1 = q.2
        · rw [consume_exact q tl hq]
          simp [hq]
        · rw [count_consume q tl p.1 hq]
          by_cases hqp : q.1 = p.1
          · have hd : decide (q.1 = p.1 ∧ q.1 ≠ q.2) = true :=
              decide_eq_true ⟨hqp, hq⟩
            rw [if_pos hqp.symm, hd]
            simp only [if_true]
            congr 1
            apply if_congr _ rfl rfl
            omega
          · have hpq : ¬ p.1 = q.1 := fun e => hqp e.symm
            have hd : decide (q.1 = p.1 ∧ q.1 ≠ q.2) = false :=
              decide_eq_false (fun e => hqp e.1)
            rw [if_neg hpq, hd]
            simp

/-! ## Counting the marks of a letter -/

theorem scoreRest_presentCount (l : Char) (ps : List (Char × Char)) :
    ∀ tl, (ps.zip (scoreRest ps tl)).countP
          (fun q => decide (q.1.1 = l ∧ q.2 = LetterState.present))
        = min (ps.countP (fun p => decide (p.1 = l ∧ p.1 ≠ p.2)))
            (List.count (Cell.letter l) tl) := by
  induction ps with
  | nil => intro tl; simp [scoreRest]
  | cons p ps ih =>
    intro tl
    simp only [scoreRest, List.zip_cons_cons, List.countP_cons]
    rw [ih (consume p tl)]
    by_cases hp : p.1 = p.2
    · rw [consume_exact p tl hp, scoreOne_exact p tl hp]
      simp [hp]
    · rw [count_consume p tl l hp, scoreOne_nonExact p tl hp]
      by_cases hl : p.1 = l
      · subst hl
        by_cases hc : 0 < List.count (Cell.letter p.1) tl
        · simp only [hc, hp, if_true, ne_eq, not_false_eq_true, and_self, decide_True]
          omega
        · simp only [hc, hp, if_false, ne_eq, not_false_eq_true, and_self, decide_True,
            reduceCtorEq, and_false, decide_False, if_true]
          omega
      · have hl' : ¬ l = p.1 := fun e => hl e.symm
        simp [hl, hl']

theorem scoreRest_correctCount (l : Char) (ps : List (Char × Char)) :
    ∀ tl, (ps.zip (scoreRest ps tl)).countP
          (fun q => decide (q.1.1 = l ∧ q.2 = LetterState.correct))
        = ps.countP (fun p => decide (p.1 = l ∧ p.1 = p.2)) := by
  induction ps with
  | nil => intro tl; simp [scoreRest]
  | cons p ps ih =>
    intro tl
    simp only [scoreRest, List.zip_cons_cons, List.countP_cons]
    rw [ih (consume p tl)]
    by_cases hp : p.1 = p.2
    · rw [scoreOne_exact p tl hp]
      simp [hp]
    · rw [scoreOne_nonExact p tl hp]
      by_cases hc : 0 < List.count (Cell.letter p.1) tl <;> simp [hc, hp]

/-! ## From the letter pairs back to the guess and the target -/

theorem zip_fst_countP {β : Type} (ps : List (Char × Char)) (r : List β)
    (f : Char × β → Bool) :
    ((ps.map Prod.fst).zip r).countP f = (ps.zip r).countP (fun q => f (q.1.1, q.2)) := by
  rw [List.zip_map_left, List.countP_map]
  rfl

theorem take_zip_pairs (g t : List Char) (i : Nat) :
    (g.zip t).take i = (g.take i).zip (t.take i) := by
  induction g generalizing t i with
  | nil => simp
  | cons a g ih =>
    cases t with
    | nil => simp
    | cons b t =>
      cases i with
      | zero => simp
      | succ j => simp [ih]

theorem count_leftover (l : Char) (ps : List (Char × Char)) :
    List.count (Cell.letter l)
        (ps.map (fun p => if p.1 = p.2 then Cell.null else Cell.letter p.2))
      = ps.countP (fun p => decide (p.2 = l ∧ p.1 ≠ p.2)) := by
  induction ps with
  | nil => simp
  | cons p ps ih =>
    simp only [List.map_cons, List.count_cons, List.countP_cons, ih]
    by_cases hp : p.1 = p.2
    · simp [hp]
    · by_cases hl : p.2 = l
      · simp [hp, hl]
      · simp [hp, hl]

theorem count_target (l : Char) (ps : List (Char × Char)) :
    List.count l (ps.map Prod.snd)
      = ps.countP (fun p => decide (p.1 = l ∧ p.1 = p.2))
        + ps.countP (fun p => decide (p.2 = l ∧ p.1 ≠ p.2)) := by
  induction ps with
  | nil => simp
  | cons p ps ih =>
    simp only [List.map_cons, List.count_cons, List.countP_cons, ih]
    by_cases hp : p.1 = p.2
    · have e3 : decide (p.2 = l ∧ p.1 ≠ p.2) = false := decide_eq_false (fun e => e.2 hp)
      by_cases hl : p.2 = l
      · have e1 : (p.2 == l) = true := by simp [hl]
        have e2 : decide (p.1 = l ∧ p.1 = p.2) = true := decide_eq_true ⟨hp.trans hl, hp⟩
        rw [e1, e2, e3]
        simp only [if_true, Bool.false_eq_true, if_false]
        omega
      · have e1 : (p.2 == l) = false := by simp [hl]
        have e2 : decide (p.1 = l ∧ p.1 = p.2) = false :=
          decide_eq_false (fun e => hl (e.2 ▸ e.1))
        rw [e1, e2, e3]
        simp only [Bool.false_eq_true, if_false]
        omega
    · have e2 : decide (p.1 = l ∧ p.1 = p.2) = false := decide_eq_false (fun e => hp e.2)
      by_cases hl : p.2 = l
      · have e1 : (p.2 == l) = true := by simp [hl]
        have e3 : decide (p.2 = l ∧ p.1 ≠ p.2) = true := decide_eq_true ⟨hl, hp⟩
        rw [e1, e2, e3]
        simp only [if_true, Bool.false_eq_true, if_false]
        omega
      · have e1 : (p.2 == l) = false := by simp [hl]
        have e3 : decide (p.2 = l ∧ p.1 ≠ p.2) = false := decide_eq_false (fun e => hl e.1)
        rw [e1, e2, e3]
        simp only [Bool.false_eq_true, if_false]
        omega

theorem countP_credited {α : Type} (f : α → Prop) [DecidablePred f]
    (xs : List (α × LetterState)) :
    xs.countP (fun q => decide (f q.1 ∧ (q.2 = LetterState.correct ∨ q.2 = LetterState.present)))
      = xs.countP (fun q => decide (f q.1 ∧ q.2 = LetterState.correct))
        + xs.countP (fun q => decide (f q.1 ∧ q.2 = LetterState.present)) := by
  induction xs with
  | nil => simp
  | cons q xs ih =>
    simp only [List.countP_cons, ih]
    by_cases hf : f q.1
    · cases h2 : q.2 <;> simp [hf] <;> omega
    · simp [hf]

/-- Position by position: `correct` on an exact match; otherwise `present`
when fewer non-exact occurrences of the letter precede it in the guess than
the target has non-exact occurrences of it; otherwise `absent`. -/
theorem evaluate_getElem? (target guess : List Char)
    (hg : guess.length = NUM_COLS) (ht : target.length = NUM_COLS)
    (i : Nat) (a b : Char) (ha : guess[i]? = some a) (hb : target[i]? = some b) :
    (evaluate target guess).result[i]? = some
      (if a = b then LetterState.correct
       else if nonExactGuess a (guess.take i) (target.take i) < nonExactTarget a guess target
         then LetterState.present else LetterState.absent) := by
  have hz : (guess.zip target)[i]? = some (a, b) := by
    rw [List.getElem?_zip_eq_some]; exact ⟨ha, hb⟩
  rw [evaluate_result_eq target guess hg ht,
    scoreRest_getElem? (guess.zip target) _ i (a, b) hz, count_leftover, take_zip_pairs]
  rfl

theorem evaluate_presentCount (target guess : List Char)
    (hg : guess.length = NUM_COLS) (ht : target.length = NUM_COLS) (l : Char) :
    presentCount l guess (evaluate target guess).result
      = min (nonExactGuess l guess target) (nonExactTarget l guess target) := by
  have e3 : (guess.zip target).map Prod.fst = guess :=
    List.map_fst_zip guess target (by omega)
  unfold presentCount nonExactGuess nonExactTarget
  rw [evaluate_result_eq target guess hg ht]
  have key := zip_fst_countP (guess.zip target)
    (scoreRest (guess.zip target)
      ((guess.zip target).map (fun p => if p.1 = p.2 then Cell.null else Cell.letter p.2)))
    (fun q => decide (q.1 = l ∧ q.2 = LetterState.present))
  rw [e3] at key
  rw [key]
  have k2 := scoreRest_presentCount l (guess.zip target)
    ((guess.zip target).map (fun p => if p.1 = p.2 then Cell.null else Cell.letter p.2))
  rw [count_leftover] at k2
  exact k2

theorem evaluate_creditedCount (target guess : List Char)
    (hg : guess.length = NUM_COLS) (ht : target.length = NUM_COLS) (l : Char) :
    creditedCount l guess (evaluate target guess).result
      = (guess.zip target).countP (fun p => decide (p.1 = l ∧ p.1 = p.2))
        + min (nonExactGuess l guess target) (nonExactTarget l guess target) := by
  have e3 : (guess.zip target).map Prod.fst = guess :=
    List.map_fst_zip guess target (by omega)
  have hp := evaluate_presentCount target guess hg ht l
  unfold presentCount at hp
  unfold creditedCount
  rw [countP_credited (fun c => c = l), hp]
  congr 1
  rw [evaluate_result_eq target guess hg ht]
  have key := zip_fst_countP (guess.zip target)
    (scoreRest (guess.zip target)
      ((guess.zip target).map (fun p => if p.1 = p.2 then Cell.null else Cell.letter p.2)))
    (fun q => decide (q.1 = l ∧ q.2 = LetterState.correct))
  rw [e3] at key
  rw [key]
  exact scoreRest_correctCount l (guess.zip target) _

theorem count_target_word (target guess : List Char)
    (hg : guess.length = NUM_COLS) (ht : target.length = NUM_COLS) (l : Char) :
    List.count l target
      = (guess.zip target).countP (fun p => decide (p.1 = l ∧ p.1 = p.2))
        + nonExactTarget l guess target := by
  have e2 : (guess.zip target).map Prod.snd = target :=
    List.map_snd_zip guess target (by omega)
  conv_lhs => rw [← e2]
  exact count_target l (guess.zip target)

/-! ## Lowercase words -/

theorem toLower_of_isLower (c : Char) (h : c.isLower = true) : c.toLower = c := by
  unfold Char.isLower at h
  simp only [ge_iff_le, Bool.and_eq_true, decide_eq_true_eq] at h
  have h97 : 97 ≤ c.toNat := h.1
  unfold Char.toLower
  simp only
  rw [if_neg (by omega)]

theorem toLowerCase_of_lower (w : List Char) (h : w.all Char.isLower = true) :
    toLowerCase w = w := by
  unfold toLowerCase
  induction w with
  | nil => rfl
  | cons c w ih =>
    simp only [List.all_cons, Bool.and_eq_true] at h
    simp only [List.map_cons, toLower_of_isLower c h.1, ih h.2]

theorem evaluate_self (w : List Char) (hw : w.length = NUM_COLS) :
    (evaluate w w).result = List.replicate NUM_COLS LetterState.correct := by
  rw [evaluate_result_eq w w hw hw, scoreRest_all_exact]
  · simp [hw]
  · intro p hp
    rw [List.zip_eq_zipWith, List.mem_iff_getElem?] at hp
    obtain ⟨i, hi⟩ := hp
    rw [List.getElem?_zipWith_eq_some] at hi
    obtain ⟨x, y, hx, hy, rfl⟩ := hi
    rw [hx] at hy
    exact Option.some.inj hy

theorem evaluateGuess_fst (this : Game) (guess : List Char) :
    (this.evaluateGuess guess).1 = (evaluate this.targetWord guess).result := by
  simp only [Game.evaluateGuess]

/-! ## Claims on `evaluateGuess` -/

/-- C1: for every word `W` of five lowercase letters, after `startGame(W)` the
call `evaluateGuess(W)` returns the five-element array whose every entry is
`correct`. -/
theorem C1_evaluateGuess_target_all_correct (this : Game) (W : List Char)
    (hW : isLowercaseWord W = true) :
    ((this.startGame W).evaluateGuess W).1 = List.replicate NUM_COLS LetterState.correct := by
  unfold isLowercaseWord at hW
  simp only [Bool.and_eq_true, beq_iff_eq] at hW
  unfold Game.evaluateGuess Game.startGame
  simp only
  rw [toLowerCase_of_lower W hW.2]
  exact evaluate_self W hW.1

/-- C1, at the word `crane`. -/
theorem C1_evaluateGuess_target_all_correct_witness :
    isLowercaseWord "crane".toList = true ∧
    ((Game.new.startGame "crane".toList).evaluateGuess "crane".toList).1
      = List.replicate NUM_COLS LetterState.correct :=
  ⟨by decide, C1_evaluateGuess_target_all_correct Game.new "crane".toList (by decide)⟩

/-- C2: for a guess and a target of five letters and every letter `l`, the
number of positions of the guess that carry `l` and are marked `correct` or
`present` is at most the number of occurrences of `l` in the target; a letter
that does not occur in the target is `absent` wherever the guess has it. -/
theorem C2_credited_le_occurrences (this : Game) (guess : List Char) (l : Char)
    (hg : guess.length = NUM_COLS) (ht : this.targetWord.length = NUM_COLS) :
    creditedCount l guess (this.evaluateGuess guess).1 ≤ this.targetWord.count l ∧
    (l ∉ this.targetWord →
      ∀ i : Nat, guess[i]? = some l →
        (this.evaluateGuess guess).1[i]? = some LetterState.absent) := by
  have hc := count_target_word this.targetWord guess hg ht l
  constructor
  · rw [evaluateGuess_fst, evaluate_creditedCount this.targetWord guess hg ht l, hc]
    omega
  · intro hl i hi
    rw [evaluateGuess_fst]
    have h0 : List.count l this.targetWord = 0 := List.count_eq_zero_of_not_mem hl
    have hlt : i < this.targetWord.length := by
      have := (List.getElem?_eq_some_iff.1 hi).1
      omega
    have hb : this.targetWord[i]? = some (this.targetWord[i]) :=
      List.getElem?_eq_getElem hlt
    have hne : ¬ l = this.targetWord[i] := by
      intro e
      exact hl (e ▸ List.getElem_mem hlt)
    rw [evaluate_getElem? this.targetWord guess hg ht i l _ hi hb, if_neg hne,
      if_neg (by omega)]

/-- C2, at target `crane` and guess `speed` for the letter `e`. -/
theorem C2_credited_le_occurrences_witness :
    creditedCount 'e' "speed".toList
        ((Game.new.startGame "crane".toList).evaluateGuess "speed".toList).1
      ≤ (Game.new.startGame "crane".toList).targetWord.count 'e' :=
  (C2_credited_le_occurrences (Game.new.startGame "crane".toList) "speed".toList
    'e' (by decide) (by decide)).1

/-- C3: for a guess and a target of five letters, `evaluateGuess` returns
exactly five letter states, and the state at position `i` is `correct` if and
only if `guess[i] = target[i]`. -/
theorem C3_correct_iff_exact_match (this : Game) (guess : List Char)
    (hg : guess.length = NUM_COLS) (ht : this.targetWord.length = NUM_COLS) :
    (this.evaluateGuess guess).1.length = NUM_COLS ∧
    ∀ i : Nat, i < NUM_COLS →
      ((this.evaluateGuess guess).1[i]? = some LetterState.correct
        ↔ guess[i]? = this.targetWord[i]?) := by
  constructor
  · rw [evaluateGuess_fst, evaluate_result_eq this.targetWord guess hg ht, scoreRest_length]
    simp [hg, ht]
  · intro i hi
    rw [evaluateGuess_fst]
    have ha : guess[i]? = some (guess[i]) := List.getElem?_eq_getElem (by omega)
    have hb : this.targetWord[i]? = some (this.targetWord[i]) :=
      List.getElem?_eq_getElem (by omega)
    rw [evaluate_getElem? this.targetWord guess hg ht i _ _ ha hb, ha, hb]
    by_cases h : guess[i] = this.targetWord[i]
    · simp [h]
    · simp only [h, if_false, Option.some.injEq]
      split <;> simp

/-- C3, at target `crane` and guess `trace`. -/
theorem C3_correct_iff_exact_match_witness :
    ((Game.new.startGame "crane".toList).evaluateGuess "trace".toList).1.length = NUM_COLS :=
  (C3_correct_iff_exact_match (Game.new.startGame "crane".toList) "trace".toList
    (by decide) (by decide)).1

/-- C4: for a guess and a target of five letters and every letter `l`, the
number of positions of the guess that carry `l` and are marked `present` is
the minimum of the numbers of non-exact-match occurrences of `l` in the guess
and in the target; a non-exact-match occurrence of `l` at position `i` of the
guess is `present` when fewer than that many non-exact-match occurrences of
`l` precede it (so the marked ones are the leftmost), and `absent` otherwise.
Target `crane` with guess `trace` gives absent, correct, correct, present,
correct. -/
theorem C4_present_leftmost_min (this : Game) (guess : List Char) (l : Char)
    (hg : guess.length = NUM_COLS) (ht : this.targetWord.length = NUM_COLS) :
    presentCount l guess (this.evaluateGuess guess).1
        = min (nonExactGuess l guess this.targetWord) (nonExactTarget l guess this.targetWord) ∧
    (∀ i : Nat, guess[i]? = some l → this.targetWord[i]? ≠ some l →
      (this.evaluateGuess guess).1[i]? = some
        (if nonExactGuess l (guess.take i) (this.targetWord.take i)
              < min (nonExactGuess l guess this.targetWord)
                  (nonExactTarget l guess this.targetWord)
          then LetterState.present else LetterState.absent)) ∧
    ((Game.new.startGame "crane".toList).evaluateGuess "trace".toList).1
      = [LetterState.absent, LetterState.correct, LetterState.correct,
         LetterState.present, LetterState.correct] := by
  refine ⟨?_, ?_, by decide⟩
  · rw [evaluateGuess_fst]
    exact evaluate_presentCount this.targetWord guess hg ht l
  · intro i hi hne
    rw [evaluateGuess_fst]
    have hlt : i < guess.length := (List.getElem?_eq_some_iff.1 hi).1
    have hb : this.targetWord[i]? = some (this.targetWord[i]) :=
      List.getElem?_eq_getElem (by omega)
    have hne' : ¬ l = this.targetWord[i] := by
      intro e
      exact hne (by rw [hb, ← e])
    rw [evaluate_getElem? this.targetWord guess hg ht i l _ hi hb, if_neg hne']
    have hpre : nonExactGuess l (guess.take i) (this.targetWord.take i)
        < nonExactGuess l guess this.targetWord := by
      unfold nonExactGuess
      rw [← take_zip_pairs]
      have hz : (guess.zip this.targetWord)[i]? = some (l, this.targetWord[i]) := by
        rw [List.getElem?_zip_eq_some]; exact ⟨hi, hb⟩
      have hsplit := List.take_append_drop i (guess.zip this.targetWord)
      have hdrop : (guess.zip this.targetWord).drop i
          = (l, this.targetWord[i]) :: (guess.zip this.targetWord).drop (i + 1) := by
        have hi' : i < (guess.zip this.targetWord).length := by
          simp [List.length_zip]; omega
        rw [List.drop_eq_getElem_cons hi']
        congr 1
        have := List.getElem?_eq_getElem hi'
        rw [hz] at this
        exact (Option.some.inj this).symm
      conv_rhs => rw [← hsplit, hdrop]
      rw [List.countP_append, List.countP_cons]
      have : decide ((l, this.targetWord[i]).1 = l ∧
          (l, this.targetWord[i]).1 ≠ (l, this.targetWord[i]).2) = true :=
        decide_eq_true ⟨rfl, hne'⟩
      rw [this]
      simp only [if_true]
      omega
    congr 1
    apply if_congr _ rfl rfl
    omega

/-- C4, at target `crane` and guess `eerie` for the letter `e`. -/
theorem C4_present_leftmost_min_witness :
    presentCount 'e' "eerie".toList
        ((Game.new.startGame "crane".toList).evaluateGuess "eerie".toList).1
      = min (nonExactGuess 'e' "eerie".toList (Game.new.startGame "crane".toList).targetWord)
          (nonExactTarget 'e' "eerie".toList (Game.new.startGame "crane".toList).targetWord) :=
  (C4_present_leftmost_min (Game.new.startGame "crane".toList) "eerie".toList 'e'
    (by decide) (by decide)).1

/-- C5: `evaluateGuess` is pure: the game state after the call (target word,
guesses, current row, revealed hints and every other field) is the state
before it (the guess is an immutable string, the arrays written are local), a
second call returns the same array, and the array is the same in every game
state that has the same target word. -/
theorem C5_evaluateGuess_pure (this other : Game) (guess : List Char) :
    (this.evaluateGuess guess).2 = this ∧
    ((this.evaluateGuess guess).2.evaluateGuess guess).1 = (this.evaluateGuess guess).1 ∧
    ({ other with targetWord := this.targetWord }.evaluateGuess guess).1
      = (this.evaluateGuess guess).1 := by
  simp only [Game.evaluateGuess, and_self]

/-- C6, counterexample: `CRANE` is a case-variant of `crane`, yet against the
target `crane` the call `evaluateGuess('CRANE')` returns five `absent` where
`evaluateGuess('crane')` returns five `correct`. -/
theorem C6_case_sensitive_counterexample :
    toLowerCase "CRANE".toList = toLowerCase "crane".toList ∧
    ((Game.new.startGame "crane".toList).evaluateGuess "CRANE".toList).1
      = List.replicate NUM_COLS LetterState.absent ∧
    ((Game.new.startGame "crane".toList).evaluateGuess "crane".toList).1
      = List.replicate NUM_COLS LetterState.correct := by
  decide

/-- C6, amended: `startGame` lowercases the target, so after `startGame(t2)`
for any case-variant `t2` of `t`, the array returned for a guess in the
lowercase form in which `submitGuess` passes it (`getCurrentGuess` lowercases
the tiles) is the same for every case-variant `g2` of `g`; `CRANE`, lowercased,
against the target `CRANE` is all `correct`. -/
theorem C6_case_insensitive_after_lowercasing (this other : Game) (t t2 g g2 : List Char)
    (ht : toLowerCase t2 = toLowerCase t) (hg : toLowerCase g2 = toLowerCase g) :
    ((other.startGame t2).evaluateGuess (toLowerCase g2)).1
        = ((this.startGame t).evaluateGuess (toLowerCase g)).1 ∧
    ((Game.new.startGame "CRANE".toList).evaluateGuess (toLowerCase "CRANE".toList)).1
        = List.replicate NUM_COLS LetterState.correct := by
  refine ⟨?_, by decide⟩
  simp only [Game.evaluateGuess, Game.startGame, ht, hg]

/-- C6 amended, at target `Crane` / `crane` and guess `TRACE` / `trace`. -/
theorem C6_case_insensitive_after_lowercasing_witness :
    ((Game.new.startGame "Crane".toList).evaluateGuess (toLowerCase "TRACE".toList)).1
      = ((Game.new.startGame "crane".toList).evaluateGuess (toLowerCase "trace".toList)).1 :=
  (C6_case_insensitive_after_lowercasing Game.new Game.new "crane".toList "Crane".toList
    "trace".toList "TRACE".toList (by decide) (by decide)).1

/-! ## The position map and the present-set -/

theorem objGet_objSet_self (m : PosMap) (p : Nat) (v : JSChar) :
    objGet (objSet m p v) p = some v := by
  unfold objGet objSet
  by_cases h : p < m.length
  · simp [h]
  · have h' : m.length ≤ p := Nat.le_of_not_lt h
    rw [if_neg h, List.append_assoc, List.getElem?_append_right h',
      List.getElem?_append_right (by simp)]
    simp

theorem objGet_objSet_ne (m : PosMap) (p q : Nat) (v : JSChar) (hq : q ≠ p) :
    objGet (objSet m p v) q = objGet m q := by
  unfold objGet objSet
  by_cases h : p < m.length
  · rw [if_pos h, List.getElem?_set_ne (Ne.symm hq)]
  · have h' : m.length ≤ p := Nat.le_of_not_lt h
    rw [if_neg h, List.append_assoc]
    by_cases hqm : q < m.length
    · rw [List.getElem?_append_left hqm]
    · have hqm' : m.length ≤ q := Nat.le_of_not_lt hqm
      rw [List.getElem?_append_right hqm', List.getElem?_eq_none hqm']
      by_cases hqp : q - m.length < p - m.length
      · rw [List.getElem?_append_left (by simpa using hqp)]
        simp [hqp]
      · rw [List.getElem?_append_right (by simpa using hqp)]
        have : q - m.length - (List.replicate (p - m.length) (none : Option JSChar)).length
            = (q - p - 1) + 1 := by
          simp only [List.length_replicate]
          omega
        rw [this]
        simp

theorem mem_objValues (m : PosMap) (v : JSChar) :
    v ∈ objValues m ↔ ∃ p, objGet m p = some v := by
  unfold objValues objGet
  simp only [List.mem_filterMap, id]
  constructor
  · rintro ⟨a, ha, rfl⟩
    obtain ⟨p, hp⟩ := List.mem_iff_getElem?.1 ha
    exact ⟨p, by rw [hp]⟩
  · rintro ⟨p, hp⟩
    cases hm : m[p]? with
    | none => rw [hm] at hp; simp at hp
    | some a =>
      rw [hm] at hp
      cases a with
      | none => simp at hp
      | some w =>
        simp only [Option.some.injEq] at hp
        subst hp
        exact ⟨some w, List.mem_iff_getElem?.2 ⟨p, hm⟩, rfl⟩

theorem mem_setDelete (s : List JSChar) (v x : JSChar) :
    x ∈ setDelete s v ↔ x ∈ s ∧ x ≠ v := by
  simp [setDelete]

theorem mem_setAdd (s : List JSChar) (v x : JSChar) :
    x ∈ setAdd s v ↔ x ∈ s ∨ x = v := by
  unfold setAdd
  by_cases h : v ∈ s
  · rw [if_pos h]
    constructor
    · exact Or.inl
    · rintro (hx | rfl)
      · exact hx
      · exact h
  · rw [if_neg h]
    simp

/-! ## One step of `updateRevealedHints` -/

theorem updateStep_correct_other (guess : List Char) (h : RevealedHints) (i : Nat)
    (r : LetterState) (p : Nat) (hp : p ≠ i) :
    objGet (updateStep guess h i r).correct p = objGet h.correct p := by
  cases r with
  | correct => simp only [updateStep]; exact objGet_objSet_ne _ _ _ _ hp
  | present =>
    simp only [updateStep]
    split <;> rfl
  | absent => rfl

theorem updateStep_not_mem_present (guess : List Char) (h : RevealedHints) (i : Nat)
    (r : LetterState) (v : JSChar) (hv : v ∈ objValues h.correct) (hn : v ∉ h.present) :
    v ∉ (updateStep guess h i r).present := by
  cases r with
  | correct =>
    simp only [updateStep, mem_setDelete]
    exact fun e => hn e.1
  | present =>
    simp only [updateStep]
    split
    · exact hn
    · rename_i hc
      simp only [mem_setAdd]
      rintro (e | rfl)
      · exact hn e
      · exact hc hv
  | absent => exact hn

theorem updateStep_correct_of_ne (guess : List Char) (h : RevealedHints) (i : Nat)
    (r : LetterState) (hr : r ≠ LetterState.correct) :
    (updateStep guess h i r).correct = h.correct := by
  cases r with
  | correct => exact absurd rfl hr
  | present =>
    simp only [updateStep]
    split <;> rfl
  | absent => rfl

theorem updateStep_mem_present (guess : List Char) (h : RevealedHints) (i : Nat)
    (r : LetterState) (v : JSChar) (hv : v ∈ h.present)
    (hn : v ∉ (updateStep guess h i r).present) :
    r = LetterState.correct ∧ v = strAt guess i := by
  cases r with
  | correct =>
    simp only [updateStep, mem_setDelete, not_and, not_not] at hn
    exact ⟨rfl, hn hv⟩
  | present =>
    exfalso
    apply hn
    simp only [updateStep]
    split
    · exact hv
    · exact (mem_setAdd _ _ _).2 (Or.inl hv)
  | absent => exact absurd hv hn

theorem mem_objValues_objSet (m : PosMap) (i : Nat) (c v : JSChar)
    (hv : v ∈ objValues (objSet m i c)) : v = c ∨ v ∈ objValues m := by
  obtain ⟨p, hp⟩ := (mem_objValues _ _).1 hv
  by_cases hpi : p = i
  · subst hpi
    rw [objGet_objSet_self] at hp
    exact Or.inl (Option.some.inj hp).symm
  · rw [objGet_objSet_ne _ _ _ _ hpi] at hp
    exact Or.inr ((mem_objValues _ _).2 ⟨p, hp⟩)

theorem updateStep_disjoint (guess : List Char) (h : RevealedHints) (i : Nat)
    (r : LetterState) (hd : ∀ v ∈ h.present, v ∉ objValues h.correct) :
    ∀ v ∈ (updateStep guess h i r).present, v ∉ objValues (updateStep guess h i r).correct := by
  cases r with
  | correct =>
    intro v hv hc
    simp only [updateStep, mem_setDelete] at hv
    simp only [updateStep] at hc
    rcases mem_objValues_objSet _ _ _ _ hc with e | e
    · exact hv.2 e
    · exact hd v hv.1 e
  | present =>
    simp only [updateStep]
    split
    · exact hd
    · rename_i hc
      intro v hv
      rcases (mem_setAdd _ _ _).1 hv with e | e
      · exact hd v e
      · rw [e]; exact hc
  | absent => exact hd

/-! ## The loop of `updateRevealedHints` -/

theorem updateLoop_keep (guess : List Char) (rs : List LetterState) :
    ∀ (k : Nat) (h : RevealedHints) (p : Nat) (v : JSChar), p < k →
      objGet h.correct p = some v →
      objGet (updateLoop guess k rs h).correct p = some v ∧
      (v ∉ h.present → v ∉ (updateLoop guess k rs h).present) := by
  induction rs with
  | nil => intro k h p v _ hv; exact ⟨hv, id⟩
  | cons r rs ih =>
    intro k h p v hp hv
    have hne : p ≠ k := Nat.ne_of_lt hp
    have h1 : objGet (updateStep guess h k r).correct p = some v := by
      rw [updateStep_correct_other guess h k r p hne]; exact hv
    have key := ih (k + 1) (updateStep guess h k r) p v (by omega) h1
    refine ⟨key.1, fun hn => key.2 ?_⟩
    exact updateStep_not_mem_present guess h k r v ((mem_objValues _ _).2 ⟨p, hv⟩) hn

theorem updateLoop_correct (guess : List Char) (rs : List LetterState) :
    ∀ (k : Nat) (h : RevealedHints) (j : Nat), rs[j]? = some LetterState.correct →
      objGet (updateLoop guess k rs h).correct (k + j) = some (strAt guess (k + j)) ∧
      strAt guess (k + j) ∉ (updateLoop guess k rs h).present := by
  induction rs with
  | nil => intro k h j hj; simp at hj
  | cons r rs ih =>
    intro k h j hj
    cases j with
    | zero =>
      simp only [List.getElem?_cons_zero, Option.some.injEq] at hj
      subst hj
      simp only [Nat.add_zero, updateLoop]
      have h1 : objGet (updateStep guess h k LetterState.correct).correct k
          = some (strAt guess k) := by
        simp only [updateStep]; exact objGet_objSet_self _ _ _
      have h2 : strAt guess k ∉ (updateStep guess h k LetterState.correct).present := by
        simp only [updateStep, mem_setDelete]
        exact fun e => e.2 rfl
      have key := updateLoop_keep guess rs (k + 1) _ k _ (by omega) h1
      exact ⟨key.1, key.2 h2⟩
    | succ j =>
      simp only [List.getElem?_cons_succ] at hj
      have key := ih (k + 1) (updateStep guess h k r) j hj
      have e : k + 1 + j = k + (j + 1) := by omega
      rw [e] at key
      exact key

theorem updateLoop_entry (guess : List Char) (rs : List LetterState) :
    ∀ (k : Nat) (h : RevealedHints) (p : Nat) (v : JSChar),
      objGet h.correct p = some v →
      objGet (updateLoop guess k rs h).correct p = some v ∨
      ∃ j, p = k + j ∧ rs[j]? = some LetterState.correct ∧
        objGet (updateLoop guess k rs h).correct p = some (strAt guess p) := by
  induction rs with
  | nil => intro k h p v hv; exact Or.inl hv
  | cons r rs ih =>
    intro k h p v hv
    by_cases hc : p = k ∧ r = LetterState.correct
    · obtain ⟨rfl, rfl⟩ := hc
      right
      refine ⟨0, rfl, List.getElem?_cons_zero, ?_⟩
      exact (updateLoop_correct guess (LetterState.correct :: rs) p h 0
        List.getElem?_cons_zero).1
    · have h1 : objGet (updateStep guess h k r).correct p = some v := by
        by_cases hp : p = k
        · have hr : r ≠ LetterState.correct := fun e => hc ⟨hp, e⟩
          rw [updateStep_correct_of_ne guess h k r hr]; exact hv
        · rw [updateStep_correct_other guess h k r p hp]; exact hv
      rcases ih (k + 1) (updateStep guess h k r) p v h1 with e | ⟨j, hj, hr, e⟩
      · exact Or.inl e
      · exact Or.inr ⟨j + 1, by omega, by simpa using hr, e⟩

theorem updateLoop_disjoint (guess : List Char) (rs : List LetterState) :
    ∀ (k : Nat) (h : RevealedHints), (∀ v ∈ h.present, v ∉ objValues h.correct) →
      ∀ v ∈ (updateLoop guess k rs h).present,
        v ∉ objValues (updateLoop guess k rs h).correct := by
  induction rs with
  | nil => intro k h hd; exact hd
  | cons r rs ih =>
    intro k h hd
    exact ih (k + 1) _ (updateStep_disjoint guess h k r hd)

theorem updateLoop_removed (guess : List Char) (rs : List LetterState) :
    ∀ (k : Nat) (h : RevealedHints) (v : JSChar), v ∈ h.present →
      v ∉ (updateLoop guess k rs h).present →
      v ∈ objValues (updateLoop guess k rs h).correct := by
  induction rs with
  | nil => intro k h v hv hn; exact absurd hv hn
  | cons r rs ih =>
    intro k h v hv hn
    by_cases h1 : v ∈ (updateStep guess h k r).present
    · exact ih (k + 1) _ v h1 hn
    · obtain ⟨rfl, rfl⟩ := updateStep_mem_present guess h k r v hv h1
      have := (updateLoop_correct guess (LetterState.correct :: rs) k h 0
        List.getElem?_cons_zero).1
      exact (mem_objValues _ _).2 ⟨k + 0, this⟩

theorem updateLoop_present (guess : List Char) (rs : List LetterState) :
    ∀ (k : Nat) (h : RevealedHints),
      (∀ (j : Nat) (v : JSChar), rs[j]? = some LetterState.correct →
        objGet h.correct (k + j) = some v → v = strAt guess (k + j)) →
      ∀ j : Nat, rs[j]? = some LetterState.present →
        strAt guess (k + j) ∉ objValues (updateLoop guess k rs h).correct →
        strAt guess (k + j) ∈ (updateLoop guess k rs h).present := by
  induction rs with
  | nil => intro k h _ j hj; simp at hj
  | cons r rs ih =>
    intro k h hkeep j hj hn
    cases j with
    | zero =>
      simp only [List.getElem?_cons_zero, Option.some.injEq] at hj
      subst hj
      simp only [Nat.add_zero] at hn ⊢
      have h0 : strAt guess k ∉ objValues h.correct := by
        intro hin
        obtain ⟨p, hp⟩ := (mem_objValues _ _).1 hin
        apply hn
        rcases updateLoop_entry guess (LetterState.present :: rs) k h p _ hp with e | ⟨j, hj, hr, e⟩
        · exact (mem_objValues _ _).2 ⟨p, e⟩
        · have := hkeep j _ hr (hj ▸ hp)
          rw [← hj] at this
          rw [← this] at e
          exact (mem_objValues _ _).2 ⟨p, e⟩
      have h1 : strAt guess k ∈ (updateStep guess h k LetterState.present).present := by
        simp only [updateStep, if_neg h0]
        exact (mem_setAdd _ _ _).2 (Or.inr rfl)
      by_contra hc
      exact hn (updateLoop_removed guess rs (k + 1) _ _ h1 hc)
    | succ j =>
      simp only [List.getElem?_cons_succ] at hj
      have e : k + 1 + j = k + (j + 1) := by omega
      have key := ih (k + 1) (updateStep guess h k r) (by
        intro i v hi hv
        have e2 : k + 1 + i = k + (i + 1) := by omega
        rw [e2] at hv ⊢
        rw [updateStep_correct_other guess h k r _ (by omega)] at hv
        exact hkeep (i + 1) v (by simpa using hi) hv) j hj
      rw [e] at key
      exact key hn

/-! ## `validateHardMode` -/

theorem objGet_cons_succ (a : Option JSChar) (m : PosMap) (n : Nat) :
    objGet (a :: m) (n + 1) = objGet m n := by
  simp [objGet]

theorem mem_objEntriesFrom (m : PosMap) :
    ∀ (k p : Nat) (v : JSChar),
      (p, v) ∈ objEntriesFrom k m ↔ k ≤ p ∧ objGet m (p - k) = some v := by
  induction m with
  | nil => intro k p v; simp [objEntriesFrom, objGet]
  | cons a m ih =>
    intro k p v
    by_cases hpk : p = k
    · subst hpk
      cases a with
      | none => simp [objEntriesFrom, ih, objGet]
      | some w =>
        simp only [objEntriesFrom, List.mem_cons, Prod.mk.injEq, true_and, ih]
        simp only [Nat.sub_self, Nat.le_refl, true_and, objGet, List.getElem?_cons_zero,
          Option.some.injEq]
        constructor
        · rintro (e | e)
          · exact e.symm
          · omega
        · intro e; exact Or.inl e.symm
    · by_cases hlt : p < k
      · cases a with
        | none =>
          simp only [objEntriesFrom, ih]
          constructor <;> intro e <;> omega
        | some w =>
          simp only [objEntriesFrom, List.mem_cons, Prod.mk.injEq, ih]
          constructor
          · rintro (e | e) <;> omega
          · intro e; omega
      · have e : p - k = (p - (k + 1)) + 1 := by omega
        cases a with
        | none =>
          simp only [objEntriesFrom, ih]
          rw [e, objGet_cons_succ]
          constructor
          · intro h; exact ⟨by omega, h.2⟩
          · intro h; exact ⟨by omega, h.2⟩
        | some w =>
          simp only [objEntriesFrom, List.mem_cons, Prod.mk.injEq, ih]
          rw [e, objGet_cons_succ]
          constructor
          · rintro (h | h)
            · exact absurd h.1 hpk
            · exact ⟨by omega, h.2⟩
          · intro h; exact Or.inr ⟨by omega, h.2⟩

theorem mem_objEntries (m : PosMap) (p : Nat) (v : JSChar) :
    (p, v) ∈ objEntries m ↔ objGet m p = some v := by
  simp [objEntries, mem_objEntriesFrom]

theorem strIncludes_chr (s : List Char) (c : Char) :
    strIncludes s (JSChar.chr c) = true ↔ c ∈ s := by
  unfold strIncludes jsToString
  induction s with
  | nil => simp [List.isPrefixOf]
  | cons a s ih =>
    simp only [List.tails, List.any_cons, Bool.or_eq_true, ih, List.mem_cons]
    simp only [List.isPrefixOf, Bool.and_true, beq_iff_eq]

theorem strIncludes_undefined (s : List Char) (hs : s.length < 9) :
    strIncludes s JSChar.undefined = false := by
  unfold strIncludes
  rw [List.any_eq_false]
  intro t ht hp
  have h1 : t.length ≤ s.length := ((List.mem_tails t s).1 ht).length_le
  have h2 : (jsToString JSChar.undefined).length ≤ t.length :=
    (List.isPrefixOf_iff_prefix.1 hp).length_le
  have h3 : (jsToString JSChar.undefined).length = 9 := by decide
  omega

theorem strAt_eq_chr (s : List Char) (i : Nat) (c : Char) :
    strAt s i = JSChar.chr c ↔ s[i]? = some c := by
  unfold strAt
  cases s[i]? with
  | none => simp
  | some a => simp

theorem strIncludes_iff (s : List Char) (hs : s.length = NUM_COLS) (v : JSChar) :
    strIncludes s v = true ↔ ∃ i, i < s.length ∧ strAt s i = v := by
  cases v with
  | chr c =>
    rw [strIncludes_chr, List.mem_iff_getElem?]
    constructor
    · rintro ⟨i, hi⟩
      exact ⟨i, (List.getElem?_eq_some_iff.1 hi).1, (strAt_eq_chr s i c).2 hi⟩
    · rintro ⟨i, _, hi⟩
      exact ⟨i, (strAt_eq_chr s i c).1 hi⟩
  | undefined =>
    rw [strIncludes_undefined s (by rw [hs]; decide)]
    constructor
    · intro h; exact absurd h (by decide)
    · rintro ⟨i, hi, h⟩
      exfalso
      unfold strAt at h
      rw [List.getElem?_eq_getElem hi] at h
      exact JSChar.noConfusion h

theorem rejectMissing_ne_accepted (this : Game) (v : JSChar) :
    this.rejectMissing v ≠ HardModeCheck.accepted := by
  unfold Game.rejectMissing
  cases this.shakeRowOk <;> cases v <;> simp

theorem rejectPosition_ne_accepted (this : Game) (p : Nat) (v : JSChar) :
    this.rejectPosition p v ≠ HardModeCheck.accepted := by
  unfold Game.rejectPosition
  cases this.shakeRowOk <;> cases v <;> simp

theorem checkPresent_accepted (this : Game) (guess : List Char) (ps : List JSChar) :
    this.checkPresent guess ps = HardModeCheck.accepted
      ↔ ∀ v ∈ ps, strIncludes guess v = true := by
  induction ps with
  | nil => simp [Game.checkPresent]
  | cons v ps ih =>
    simp only [Game.checkPresent, List.mem_cons, forall_eq_or_imp]
    by_cases h : strIncludes guess v = true
    · simp [h, ih]
    · simp [h, rejectMissing_ne_accepted]

theorem checkCorrect_accepted (this : Game) (guess : List Char) (es : List (Nat × JSChar)) :
    this.checkCorrect guess es = HardModeCheck.accepted
      ↔ (∀ e ∈ es, strAt guess e.1 = e.2) ∧
        this.checkPresent guess this.revealedHints.present = HardModeCheck.accepted := by
  induction es with
  | nil => simp [Game.checkCorrect]
  | cons e es ih =>
    obtain ⟨p, v⟩ := e
    simp only [Game.checkCorrect, List.mem_cons, forall_eq_or_imp]
    by_cases h : strAt guess p = v
    · simp [h, ih]
    · simp [h, rejectPosition_ne_accepted]

/-! ## Claims on the hard-mode hints -/

/-- C7: for every hint state and every candidate guess of five letters,
`validateHardMode` returns `true` if and only if (a) at every position `p` of
`revealedHints.correct` the guess has the confirmed letter and (b) every
member of `revealedHints.present` occurs at some position of the guess. -/
theorem C7_validateHardMode_true_iff (this : Game) (guess : List Char)
    (hg : guess.length = NUM_COLS) :
    this.validateHardMode guess = HardModeCheck.accepted ↔
      (∀ (p : Nat) (v : JSChar),
        objGet this.revealedHints.correct p = some v → strAt guess p = v) ∧
      (∀ v ∈ this.revealedHints.present, ∃ i, i < guess.length ∧ strAt guess i = v) := by
  unfold Game.validateHardMode
  rw [checkCorrect_accepted, checkPresent_accepted]
  constructor
  · rintro ⟨h1, h2⟩
    refine ⟨fun p v hv => h1 (p, v) ((mem_objEntries _ _ _).2 hv), fun v hv => ?_⟩
    exact (strIncludes_iff guess hg v).1 (h2 v hv)
  · rintro ⟨h1, h2⟩
    refine ⟨fun e he => h1 e.1 e.2 ((mem_objEntries _ _ _).1 he), fun v hv => ?_⟩
    exact (strIncludes_iff guess hg v).2 (h2 v hv)

/-- C7, at the hints recorded for `trace` against `crane` and the candidate `brace`. -/
theorem C7_validateHardMode_true_iff_witness :
    ((Game.new.startGame "crane".toList).updateRevealedHints "trace".toList
        [LetterState.absent, LetterState.correct, LetterState.correct,
         LetterState.present, LetterState.correct]).validateHardMode "brace".toList
      = HardModeCheck.accepted ↔
    (∀ (p : Nat) (v : JSChar),
      objGet ((Game.new.startGame "crane".toList).updateRevealedHints "trace".toList
        [LetterState.absent, LetterState.correct, LetterState.correct,
         LetterState.present, LetterState.correct]).revealedHints.correct p = some v →
      strAt "brace".toList p = v) ∧
    (∀ v ∈ ((Game.new.startGame "crane".toList).updateRevealedHints "trace".toList
        [LetterState.absent, LetterState.correct, LetterState.correct,
         LetterState.present, LetterState.correct]).revealedHints.present,
      ∃ i, i < "brace".toList.length ∧ strAt "brace".toList i = v) :=
  C7_validateHardMode_true_iff _ "brace".toList (by decide)

/-- C8: for a guess and an evaluation of the same length, after
`updateRevealedHints(guess, evaluation)` every position `p` whose evaluation is
`correct` has `revealedHints.correct[p] = guess[p]`, a letter of the guess,
and that letter is not a member of `revealedHints.present`. -/
theorem C8_correct_position_recorded (this : Game) (guess : List Char)
    (result : List LetterState) (hlen : guess.length = result.length) (p : Nat)
    (hp : result[p]? = some LetterState.correct) :
    ∃ c, guess[p]? = some c ∧
      objGet (this.updateRevealedHints guess result).revealedHints.correct p
        = some (JSChar.chr c) ∧
      JSChar.chr c ∉ (this.updateRevealedHints guess result).revealedHints.present := by
  have hlt : p < guess.length := by
    have := (List.getElem?_eq_some_iff.1 hp).1
    omega
  have hc : guess[p]? = some (guess[p]) := List.getElem?_eq_getElem hlt
  have key := updateLoop_correct guess result 0 this.revealedHints p hp
  have hs : strAt guess (0 + p) = JSChar.chr (guess[p]) := by
    rw [Nat.zero_add]; exact (strAt_eq_chr guess p _).2 hc
  rw [hs, Nat.zero_add] at key
  exact ⟨guess[p], hc, key.1, key.2⟩

/-- C8, at the guess `trace` with its evaluation against `crane`, position 1. -/
theorem C8_correct_position_recorded_witness :
    ∃ c, "trace".toList[1]? = some c ∧
      objGet ((Game.new.startGame "crane".toList).updateRevealedHints "trace".toList
        [LetterState.absent, LetterState.correct, LetterState.correct,
         LetterState.present, LetterState.correct]).revealedHints.correct 1
        = some (JSChar.chr c) ∧
      JSChar.chr c ∉ ((Game.new.startGame "crane".toList).updateRevealedHints "trace".toList
        [LetterState.absent, LetterState.correct, LetterState.correct,
         LetterState.present, LetterState.correct]).revealedHints.present :=
  C8_correct_position_recorded (Game.new.startGame "crane".toList) "trace".toList
    [LetterState.absent, LetterState.correct, LetterState.correct,
     LetterState.present, LetterState.correct] (by decide) 1 (by decide)

/-- C9, counterexample: from the hint state with position 1 confirmed as `a`
and an empty present-set, the guess `abxyz` evaluated present, correct,
absent, absent, absent overwrites position 1 with `b`; afterwards the letter
`a` of position 0, evaluated `present`, is neither in `revealedHints.present`
nor a confirmed letter at any position of `revealedHints.correct`. -/
theorem C9_present_iff_counterexample :
    (∀ v ∈ overwrittenHints.revealedHints.present,
      v ∉ objValues overwrittenHints.revealedHints.correct) ∧
    strAt "abxyz".toList 0 ∉
      (overwrittenHints.updateRevealedHints "abxyz".toList
        [LetterState.present, LetterState.correct, LetterState.absent,
         LetterState.absent, LetterState.absent]).revealedHints.present ∧
    strAt "abxyz".toList 0 ∉
      objValues (overwrittenHints.updateRevealedHints "abxyz".toList
        [LetterState.present, LetterState.correct, LetterState.absent,
         LetterState.absent, LetterState.absent]).revealedHints.correct := by
  decide

/-- C9, amended: from a hint state in which no member of the present-set is a
confirmed letter, and for a guess and an evaluation that leave the letter of
every already confirmed position as it is (a position evaluated `correct`
that holds a confirmed letter holds `guess[p]`), after
`updateRevealedHints(guess, evaluation)` a letter at a position evaluated
`present` is in `revealedHints.present` if and only if it is not a confirmed
letter at any position of `revealedHints.correct`, and no member of the
present-set is a confirmed letter. -/
theorem C9_present_iff_not_confirmed (this : Game) (guess : List Char)
    (result : List LetterState)
    (hdisj : ∀ v ∈ this.revealedHints.present, v ∉ objValues this.revealedHints.correct)
    (hkeep : ∀ (p : Nat) (v : JSChar), result[p]? = some LetterState.correct →
      objGet this.revealedHints.correct p = some v → v = strAt guess p) :
    (∀ p : Nat, result[p]? = some LetterState.present →
      (strAt guess p ∈ (this.updateRevealedHints guess result).revealedHints.present
        ↔ strAt guess p ∉
            objValues (this.updateRevealedHints guess result).revealedHints.correct)) ∧
    (∀ v ∈ (this.updateRevealedHints guess result).revealedHints.present,
      v ∉ objValues (this.updateRevealedHints guess result).revealedHints.correct) := by
  have hd := updateLoop_disjoint guess result 0 this.revealedHints hdisj
  refine ⟨fun p hp => ⟨fun h => hd _ h, fun h => ?_⟩, hd⟩
  have key := updateLoop_present guess result 0 this.revealedHints
    (fun j v hj hv => by
      rw [Nat.zero_add] at hv ⊢
      exact hkeep j v hj hv) p hp
  rw [Nat.zero_add] at key
  exact key h

/-- C9 amended, at a fresh game and the guess `trace` with its evaluation
against `crane`, for the letter `c` at position 3. -/
theorem C9_present_iff_not_confirmed_witness :
    strAt "trace".toList 3 ∈
        ((Game.new.startGame "crane".toList).updateRevealedHints "trace".toList
          [LetterState.absent, LetterState.correct, LetterState.correct,
           LetterState.present, LetterState.correct]).revealedHints.present
      ↔ strAt "trace".toList 3 ∉
        objValues ((Game.new.startGame "crane".toList).updateRevealedHints "trace".toList
          [LetterState.absent, LetterState.correct, LetterState.correct,
           LetterState.present, LetterState.correct]).revealedHints.correct :=
  (C9_present_iff_not_confirmed (Game.new.startGame "crane".toList) "trace".toList
    [LetterState.absent, LetterState.correct, LetterState.correct,
     LetterState.present, LetterState.correct]
    (by decide) (by intro p v _ h; simp [Game.startGame, objGet] at h)).1 3 (by decide)

/-- C10: hint accumulation is monotonic. After `updateRevealedHints(guess,
evaluation)` every position that had an entry in `revealedHints.correct`
still has one (the same, or `guess[p]` when the position is evaluated
`correct`; a letter whenever the evaluation is no longer than the guess), and
a member of the present-set that is missing after the call is a confirmed
letter at some position after the call. -/
theorem C10_hints_monotonic (this : Game) (guess : List Char) (result : List LetterState) :
    (∀ (p : Nat) (v : JSChar), objGet this.revealedHints.correct p = some v →
      ∃ w, objGet (this.updateRevealedHints guess result).revealedHints.correct p = some w ∧
        (w = v ∨ (result[p]? = some LetterState.correct ∧ w = strAt guess p)) ∧
        ((∃ c, v = JSChar.chr c) → result.length ≤ guess.length → ∃ c, w = JSChar.chr c)) ∧
    (∀ v ∈ this.revealedHints.present,
      v ∉ (this.updateRevealedHints guess result).revealedHints.present →
      v ∈ objValues (this.updateRevealedHints guess result).revealedHints.correct) := by
  refine ⟨fun p v hv => ?_, fun v hv hn => ?_⟩
  · rcases updateLoop_entry guess result 0 this.revealedHints p v hv with e | ⟨j, hj, hr, e⟩
    · exact ⟨v, e, Or.inl rfl, fun hc _ => hc⟩
    · have hpj : p = j := by omega
      subst hpj
      refine ⟨strAt guess p, e, Or.inr ⟨hr, rfl⟩, fun _ hle => ?_⟩
      have hlt : p < guess.length := by
        have := (List.getElem?_eq_some_iff.1 hr).1
        omega
      exact ⟨guess[p], (strAt_eq_chr guess p _).2 (List.getElem?_eq_getElem hlt)⟩
  · exact updateLoop_removed guess result 0 this.revealedHints v hv hn

/-! ## Submissions -/

theorem range_NUM_COLS : List.range NUM_COLS = [0, 1, 2, 3, 4] := by decide

theorem getCurrentGuess_shakeRowOk (this : Game) (guess : List Char)
    (h : this.getCurrentGuess = some guess) : this.shakeRowOk = true := by
  unfold Game.getCurrentGuess at h
  unfold Game.shakeRowOk
  rw [range_NUM_COLS] at h
  simp only [List.foldl] at h
  cases ht : this.tiles[this.currentRow]? with
  | none => simp [ht] at h
  | some row =>
    simp only [ht] at h
    cases h4 : row[4]? with
    | none =>
      exfalso
      cases h0 : row[0]? <;> cases h1 : row[1]? <;> cases h2 : row[2]? <;>
        cases h3 : row[3]? <;> simp [h0, h1, h2, h3, h4] at h
    | some t =>
      have : 4 < row.length := (List.getElem?_eq_some_iff.1 h4).1
      simp only [NUM_COLS, decide_eq_true_eq]
      omega

theorem submitGuess_rejected (this : Game) (isValidWord : List Char → Bool) (hardMode : Bool)
    (guess : List Char) (hg : this.getCurrentGuess = some guess)
    (hrej : guess.length < NUM_COLS ∨ isValidWord guess = false ∨
      (hardMode = true ∧ this.validateHardMode guess ≠ HardModeCheck.accepted)) :
    (this.submitGuess isValidWord hardMode).game = this ∧
    (this.submitGuess isValidWord hardMode).timer = none ∧
    ∀ g r, (this.submitGuess isValidWord hardMode).status ≠ some (SubmitStatus.accepted g r) := by
  unfold Game.submitGuess
  simp only [hg]
  by_cases h1 : guess.length < NUM_COLS
  · simp [h1]
  · by_cases h2 : isValidWord guess = false
    · simp [h1, h2]
    · by_cases h3 : hardMode = true ∧ this.validateHardMode guess ≠ HardModeCheck.accepted
      · simp [h1, h2, h3]
      · exfalso
        rcases hrej with h | h | h
        · exact h1 h
        · exact h2 h
        · exact h3 h

theorem submitGuess_accepted (this : Game) (isValidWord : List Char → Bool) (hardMode : Bool)
    (guess : List Char) (hg : this.getCurrentGuess = some guess)
    (hlen : NUM_COLS ≤ guess.length) (hv : isValidWord guess = true)
    (hh : hardMode = true → this.validateHardMode guess = HardModeCheck.accepted) :
    this.submitGuess isValidWord hardMode =
      { game :=
          { this with
            guesses := this.guesses ++ [{ word := guess, result := (this.evaluateGuess guess).1 }]
            currentRow := this.currentRow + 1
            currentCol := 0
            revealedHints :=
              updateLoop guess 0 (this.evaluateGuess guess).1 this.revealedHints }
        status := some (SubmitStatus.accepted guess (this.evaluateGuess guess).1)
        timer := some (Timer.decide guess (this.evaluateGuess guess).1) } := by
  have hs := getCurrentGuess_shakeRowOk this guess hg
  have h1 : ¬ guess.length < NUM_COLS := by omega
  have h2 : ¬ isValidWord guess = false := by simp [hv]
  have h3 : ¬ (hardMode = true ∧ this.validateHardMode guess ≠ HardModeCheck.accepted) :=
    fun h => h.2 (hh h.1)
  unfold Game.submitGuess
  simp only [hg, h1, h2, h3, if_false]
  have hs' : Game.shakeRowOk
      { this with guesses := this.guesses ++ [{ word := guess, result := (this.evaluateGuess guess).1 }] }
      = true := by
    simpa [Game.shakeRowOk] using hs
  simp only [Game.revealRow, hs', if_true, Game.updateRevealedHints, Bool.true_eq_false,
    if_false]

/-- Every way in which `submitGuess` ends without accepting leaves the game as it was. -/
theorem submitGuess_not_accepted (this : Game) (isValidWord : List Char → Bool)
    (hardMode : Bool)
    (h : ∀ g r, (this.submitGuess isValidWord hardMode).status
      ≠ some (SubmitStatus.accepted g r)) :
    (this.submitGuess isValidWord hardMode).game = this ∧
    (this.submitGuess isValidWord hardMode).timer = none := by
  cases hg : this.getCurrentGuess with
  | none => simp [Game.submitGuess, hg]
  | some guess =>
    by_cases hrej : guess.length < NUM_COLS ∨ isValidWord guess = false ∨
      (hardMode = true ∧ this.validateHardMode guess ≠ HardModeCheck.accepted)
    · exact ⟨(submitGuess_rejected this isValidWord hardMode guess hg hrej).1,
        (submitGuess_rejected this isValidWord hardMode guess hg hrej).2.1⟩
    · exfalso
      simp only [not_or, not_and, not_not, not_lt] at hrej
      have := submitGuess_accepted this isValidWord hardMode guess hg hrej.1
        (by simpa using hrej.2.1) hrej.2.2
      exact h guess _ (by rw [this])

theorem submitGuess_cases (this : Game) (isValidWord : List Char → Bool) (hardMode : Bool) :
    ((this.submitGuess isValidWord hardMode).game = this ∧
      (this.submitGuess isValidWord hardMode).timer = none) ∨
    ∃ guess, this.getCurrentGuess = some guess ∧ NUM_COLS ≤ guess.length ∧
      isValidWord guess = true ∧
      (hardMode = true → this.validateHardMode guess = HardModeCheck.accepted) ∧
      this.submitGuess isValidWord hardMode =
        { game :=
            { this with
              guesses := this.guesses
                ++ [{ word := guess, result := (this.evaluateGuess guess).1 }]
              currentRow := this.currentRow + 1
              currentCol := 0
              revealedHints :=
                updateLoop guess 0 (this.evaluateGuess guess).1 this.revealedHints }
          status := some (SubmitStatus.accepted guess (this.evaluateGuess guess).1)
          timer := some (Timer.decide guess (this.evaluateGuess guess).1) } := by
  cases hg : this.getCurrentGuess with
  | none => left; simp [Game.submitGuess, hg]
  | some guess =>
    by_cases hrej : guess.length < NUM_COLS ∨ isValidWord guess = false ∨
      (hardMode = true ∧ this.validateHardMode guess ≠ HardModeCheck.accepted)
    · left
      exact ⟨(submitGuess_rejected this isValidWord hardMode guess hg hrej).1,
        (submitGuess_rejected this isValidWord hardMode guess hg hrej).2.1⟩
    · right
      simp only [not_or, not_and, not_not, not_lt] at hrej
      have hv : isValidWord guess = true := by simpa using hrej.2.1
      exact ⟨guess, rfl, hrej.1, hv, hrej.2.2,
        submitGuess_accepted this isValidWord hardMode guess hg hrej.1 hv hrej.2.2⟩

theorem decideGuess_game (this : Game) (guess : List Char) (result : List LetterState)
    (a b : Bool) :
    ∃ go w, (this.decideGuess guess result a b).game = { this with gameOver := go, won := w } := by
  unfold Game.decideGuess
  by_cases h1 : guess = this.targetWord
  · simp only [h1, if_true]
    split
    · exact ⟨true, true, rfl⟩
    · exact ⟨true, true, rfl⟩
  · simp only [h1, if_false]
    split
    · exact ⟨true, false, rfl⟩
    · exact ⟨this.gameOver, this.won, rfl⟩

/-! ## The board stays within its rows -/

theorem boardOk_startGame (this : Game) (target : List Char) :
    (this.startGame target).boardOk := by
  unfold Game.boardOk Game.startGame createBoard
  simp only [List.length_replicate, List.length_nil, true_and]
  refine ⟨fun row hrow => ?_, by decide⟩
  rw [List.eq_of_mem_replicate hrow, List.length_replicate]

theorem boardOk_set_row (this : Game) (h : this.boardOk) (row : List (List Char))
    (hrow : this.tiles[this.currentRow]? = some row) (i : Nat) (x : List Char) (col : Nat) :
    Game.boardOk { this with tiles := this.tiles.set this.currentRow (row.set i x),
                             currentCol := col } := by
  obtain ⟨h1, h2, h3, h4⟩ := h
  refine ⟨by simpa using h1, fun r hr => ?_, h3, h4⟩
  rcases List.mem_or_eq_of_mem_set hr with hm | rfl
  · exact h2 r hm
  · rw [List.length_set]
    exact h2 row (List.getElem?_mem hrow)

theorem boardOk_col (this : Game) (h : this.boardOk) (col : Nat) :
    Game.boardOk { this with currentCol := col } := h

theorem boardOk_addLetter (this : Game) (h : this.boardOk) (letter : List Char) :
    (this.addLetter letter).boardOk := by
  unfold Game.addLetter
  split
  · exact h
  · split
    · exact h
    · rename_i row hrow
      split
      · exact boardOk_set_row this h row hrow _ _ _
      · exact h

theorem boardOk_deleteLetter (this : Game) (h : this.boardOk) :
    this.deleteLetter.boardOk := by
  unfold Game.deleteLetter
  split
  · exact h
  · split
    · exact boardOk_col this h _
    · rename_i row hrow
      split
      · exact boardOk_set_row this h row hrow _ _ _
      · exact boardOk_col this h _

theorem boardOk_submitGuess (this : Game) (h : this.boardOk) (isValidWord : List Char → Bool)
    (hardMode : Bool) : (this.submitGuess isValidWord hardMode).game.boardOk := by
  rcases submitGuess_cases this isValidWord hardMode with ⟨e, _⟩ | ⟨guess, hg, _, _, _, e⟩
  · rw [e]; exact h
  · rw [e]
    obtain ⟨h1, h2, h3, h4⟩ := h
    have hs := getCurrentGuess_shakeRowOk this guess hg
    unfold Game.shakeRowOk at hs
    have hlt : this.currentRow < this.tiles.length := by
      cases ht : this.tiles[this.currentRow]? with
      | none => rw [ht] at hs; simp at hs
      | some row => exact (List.getElem?_eq_some_iff.1 ht).1
    refine ⟨h1, h2, ?_, ?_⟩
    · simp [h3]
    · show this.currentRow + 1 ≤ NUM_ROWS
      omega

theorem boardOk_handleKeyPress (this : Game) (h : this.boardOk)
    (isValidWord : List Char → Bool) (hardMode : Bool) (key : List Char) :
    (this.handleKeyPress isValidWord hardMode key).game.boardOk := by
  unfold Game.handleKeyPress
  split
  · exact h
  · split
    · exact boardOk_submitGuess this h isValidWord hardMode
    · split
      · exact boardOk_deleteLetter this h
      · split
        · exact boardOk_addLetter this h _
        · exact h

theorem boardOk_decideGuess (this : Game) (h : this.boardOk) (guess : List Char)
    (result : List LetterState) (a b : Bool) :
    (this.decideGuess guess result a b).game.boardOk := by
  obtain ⟨go, w, e⟩ := decideGuess_game this guess result a b
  rw [e]; exact h

theorem boardOk_fire (s : Session) (h : s.game.boardOk) (i : Nat) :
    (s.fire i).game.boardOk := by
  unfold Session.fire
  split
  · exact h
  · exact boardOk_decideGuess s.game h _ _ _ _
  · exact h

theorem boardOk_step (isValidWord : List Char → Bool) (s : Session) (h : s.game.boardOk)
    (e : Event) : (s.step isValidWord e).game.boardOk := by
  cases e with
  | key key hardMode => exact boardOk_handleKeyPress s.game h isValidWord hardMode key
  | submit hardMode => exact boardOk_submitGuess s.game h isValidWord hardMode
  | fire i => exact boardOk_fire s h i

theorem boardOk_run (isValidWord : List Char → Bool) (events : List Event) :
    ∀ s : Session, s.game.boardOk → (s.run isValidWord events).game.boardOk := by
  induction events with
  | nil => intro s h; exact h
  | cons e es ih =>
    intro s h
    exact ih _ (boardOk_step isValidWord s h e)

/-! ## Hard mode keeps the confirmed letters -/

theorem hardModeOk_of_eq (this other : Game) (h : this.hardModeOk)
    (hg : other.guesses = this.guesses) (hh : other.revealedHints = this.revealedHints) :
    other.hardModeOk := by
  unfold Game.hardModeOk at h ⊢
  rw [hg, hh]
  exact h

theorem hardModeOk_startGame (this : Game) (target : List Char) :
    (this.startGame target).hardModeOk := by
  unfold Game.hardModeOk Game.startGame
  simp

theorem addLetter_frame (this : Game) (letter : List Char) :
    (this.addLetter letter).guesses = this.guesses ∧
    (this.addLetter letter).revealedHints = this.revealedHints ∧
    (this.addLetter letter).gameOver = this.gameOver ∧
    (this.addLetter letter).won = this.won ∧
    (this.addLetter letter).targetWord = this.targetWord ∧
    (this.addLetter letter).currentRow = this.currentRow := by
  unfold Game.addLetter
  split
  · simp
  · split
    · simp
    · split <;> simp

theorem deleteLetter_frame (this : Game) :
    this.deleteLetter.guesses = this.guesses ∧
    this.deleteLetter.revealedHints = this.revealedHints ∧
    this.deleteLetter.gameOver = this.gameOver ∧
    this.deleteLetter.won = this.won ∧
    this.deleteLetter.targetWord = this.targetWord ∧
    this.deleteLetter.currentRow = this.currentRow := by
  unfold Game.deleteLetter
  split
  · simp
  · split
    · simp
    · split <;> simp

theorem hardModeOk_submitGuess (this : Game) (h : this.hardModeOk)
    (isValidWord : List Char → Bool) :
    (this.submitGuess isValidWord true).game.hardModeOk := by
  rcases submitGuess_cases this isValidWord true with ⟨e, _⟩ | ⟨guess, _, _, _, hv, e⟩
  · rw [e]; exact h
  · generalize (this.evaluateGuess guess).1 = result at e
    rw [e]
    have hval := hv rfl
    unfold Game.validateHardMode at hval
    rw [checkCorrect_accepted] at hval
    have hpos : ∀ (p : Nat) (v : JSChar),
        objGet this.revealedHints.correct p = some v → strAt guess p = v :=
      fun p v hp => hval.1 (p, v) ((mem_objEntries _ _ _).2 hp)
    obtain ⟨h1, h2⟩ := h
    have hold : ∀ e1 ∈ this.guesses, ∀ (p : Nat) (c : Char),
        e1.result[p]? = some LetterState.correct → e1.word[p]? = some c →
        guess[p]? = some c := by
      intro e1 he1 p c hr hw
      exact (strAt_eq_chr guess p c).1 (hpos p _ (h1 e1 he1 p c hr hw))
    constructor
    · intro e1 he1 p c hr hw
      simp only [List.mem_append, List.mem_singleton] at he1
      rcases he1 with he1 | rfl
      · have hc := h1 e1 he1 p c hr hw
        rcases updateLoop_entry guess result 0 this.revealedHints p _ hc
          with k | ⟨j, _, _, k⟩
        · exact k
        · rw [k, (strAt_eq_chr guess p c).2 (hold e1 he1 p c hr hw)]
      · have k := (updateLoop_correct guess result 0 this.revealedHints p hr).1
        rw [Nat.zero_add] at k
        rw [k, (strAt_eq_chr guess p c).2 hw]
    · show List.Pairwise keepsCorrect (this.guesses ++ [_])
      rw [List.pairwise_append]
      refine ⟨h2, List.pairwise_singleton _ _, ?_⟩
      intro e1 he1 e2 he2
      rw [List.mem_singleton] at he2
      subst he2
      exact hold e1 he1

theorem hardModeOk_handleKeyPress (this : Game) (h : this.hardModeOk)
    (isValidWord : List Char → Bool) (key : List Char) :
    (this.handleKeyPress isValidWord true key).game.hardModeOk := by
  unfold Game.handleKeyPress
  split
  · exact h
  · split
    · exact hardModeOk_submitGuess this h isValidWord
    · split
      · exact hardModeOk_of_eq this _ h (deleteLetter_frame this).1 (deleteLetter_frame this).2.1
      · split
        · exact hardModeOk_of_eq this _ h (addLetter_frame this _).1 (addLetter_frame this _).2.1
        · exact h

theorem hardModeOk_fire (s : Session) (h : s.game.hardModeOk) (i : Nat) :
    (s.fire i).game.hardModeOk := by
  unfold Session.fire
  split
  · exact h
  · rename_i guess result _
    obtain ⟨go, w, e⟩ :=
      decideGuess_game s.game guess result s.hasOnGuessComplete s.hasOnGameEnd
    simp only [e]
    exact h
  · exact h

theorem hardModeOk_step (isValidWord : List Char → Bool) (s : Session)
    (h : s.game.hardModeOk) (e : Event) (he : e.hard = true) :
    (s.step isValidWord e).game.hardModeOk := by
  cases e with
  | key key hardMode =>
    simp only [Event.hard] at he
    subst he
    exact hardModeOk_handleKeyPress s.game h isValidWord key
  | submit hardMode =>
    simp only [Event.hard] at he
    subst he
    exact hardModeOk_submitGuess s.game h isValidWord
  | fire i => exact hardModeOk_fire s h i

theorem hardModeOk_run (isValidWord : List Char → Bool) (events : List Event) :
    ∀ s : Session, s.game.hardModeOk → (∀ e ∈ events, e.hard = true) →
      (s.run isValidWord events).game.hardModeOk := by
  induction events with
  | nil => intro s h _; exact h
  | cons e es ih =>
    intro s h hall
    exact ih _ (hardModeOk_step isValidWord s h e (hall e (List.mem_cons_self _ _)))
      (fun x hx => hall x (List.mem_cons_of_mem _ hx))

/-! ## A key press followed by its deferred callbacks -/

theorem fire_nil (s : Session) (h : s.timers = []) (i : Nat) : s.fire i = s := by
  unfold Session.fire
  simp [h]

theorem handleKey_gameOver (isValidWord : List Char → Bool) (s : Session)
    (h : s.game.gameOver = true) (key : List Char) (hardMode : Bool) :
    s.handleKey isValidWord key hardMode = s := by
  unfold Session.handleKey Game.handleKeyPress
  simp [h]

theorem press_gameOver (isValidWord : List Char → Bool) (s : Session)
    (h : s.game.gameOver = true) (ht : s.timers = []) (k : List Char × Bool) :
    s.press isValidWord k = s := by
  unfold Session.press
  rw [handleKey_gameOver isValidWord s h, fire_nil s ht, fire_nil s ht]

theorem submitGuess_accept (this : Game) (isValidWord : List Char → Bool) (hardMode : Bool)
    (guess : List Char) (hg : this.getCurrentGuess = some guess)
    (hlen : NUM_COLS ≤ guess.length) (hv : isValidWord guess = true)
    (hh : hardMode = true → this.validateHardMode guess = HardModeCheck.accepted) :
    this.submitGuess isValidWord hardMode =
      { game := this.accept guess (this.evaluateGuess guess).1
        status := some (SubmitStatus.accepted guess (this.evaluateGuess guess).1)
        timer := some (Timer.decide guess (this.evaluateGuess guess).1) } := by
  rw [submitGuess_accepted this isValidWord hardMode guess hg hlen hv hh]
  simp only [Game.accept]

theorem bounceRowOk_accept (this : Game) (guess : List Char) (result : List LetterState)
    (hs : this.shakeRowOk = true) (go w : Bool) :
    Game.bounceRowOk { this.accept guess result with gameOver := go, won := w } = true := by
  unfold Game.shakeRowOk at hs
  unfold Game.bounceRowOk Game.accept
  simp only [Nat.add_sub_cancel, Bool.and_eq_true, decide_eq_true_eq]
  refine ⟨by omega, ?_⟩
  cases ht : this.tiles[this.currentRow]? with
  | none => rw [ht] at hs; simp at hs
  | some row => rfl

theorem fire_cons_decide (s : Session) (guess : List Char) (result : List LetterState)
    (rest : List Timer) (h : s.timers = Timer.decide guess result :: rest) :
    s.fire 0 =
      { s with
        game := (s.game.decideGuess guess result s.hasOnGuessComplete s.hasOnGameEnd).game
        timers := rest
          ++ (s.game.decideGuess guess result s.hasOnGuessComplete s.hasOnGameEnd).timers
        calls := s.calls
          ++ (s.game.decideGuess guess result s.hasOnGuessComplete s.hasOnGameEnd).calls } := by
  unfold Session.fire
  simp only [h, List.getElem?_cons_zero, List.eraseIdx_cons_zero]

theorem fire_cons_gameEnd (s : Session) (rest : List Timer)
    (h : s.timers = Timer.gameEnd :: rest) :
    s.fire 0 =
      { s with
        timers := rest
        calls := s.calls
          ++ (if s.hasOnGameEnd then [Call.onGameEnd true s.game.guesses.length] else []) } := by
  unfold Session.fire
  simp only [h, List.getElem?_cons_zero, List.eraseIdx_cons_zero]

theorem decideGuess_won (this : Game) (guess : List Char) (result : List LetterState)
    (a b : Bool) (hw : guess = this.targetWord)
    (hb : Game.bounceRowOk { this with gameOver := true, won := true } = true) :
    this.decideGuess guess result a b =
      { game := { this with gameOver := true, won := true }
        timers := [Timer.gameEnd]
        calls := Game.reportGuess { this with gameOver := true, won := true } result a } := by
  unfold Game.decideGuess
  rw [if_pos hw]
  simp only [hb, if_true]

theorem decideGuess_lost (this : Game) (guess : List Char) (result : List LetterState)
    (a b : Bool) (hw : guess ≠ this.targetWord) (hr : NUM_ROWS ≤ this.currentRow) :
    this.decideGuess guess result a b =
      { game := { this with gameOver := true, won := false }
        timers := []
        calls := (if b then [Call.onGameEnd false this.guesses.length] else [])
          ++ Game.reportGuess { this with gameOver := true, won := false } result a } := by
  unfold Game.decideGuess
  rw [if_neg hw, if_pos hr]

theorem decideGuess_playing (this : Game) (guess : List Char) (result : List LetterState)
    (a b : Bool) (hw : guess ≠ this.targetWord) (hr : ¬ NUM_ROWS ≤ this.currentRow) :
    this.decideGuess guess result a b =
      { game := this, timers := [], calls := this.reportGuess result a } := by
  unfold Game.decideGuess
  rw [if_neg hw, if_neg hr]

theorem handleKey_accepted (isValidWord : List Char → Bool) (s : Session) (hardMode : Bool)
    (guess : List Char) (result : List LetterState) (ht : s.timers = [])
    (hgo : s.game.gameOver = false)
    (hsub : s.game.submitGuess isValidWord hardMode =
      { game := s.game.accept guess result
        status := some (SubmitStatus.accepted guess result)
        timer := some (Timer.decide guess result) }) :
    s.handleKey isValidWord "ENTER".toList hardMode =
      { s with game := s.game.accept guess result, timers := [Timer.decide guess result] } := by
  unfold Session.handleKey Game.handleKeyPress
  simp only [hgo, Bool.false_eq_true, if_false, if_true, hsub, ht, Option.toList,
    List.nil_append]

/-- The session after `ENTER` is pressed on an accepted guess and the
callbacks it schedules have run, when none was waiting before: the guess is the target. -/
theorem press_accepted_won (isValidWord : List Char → Bool) (s : Session) (hardMode : Bool)
    (guess : List Char) (result : List LetterState) (ht : s.timers = [])
    (hgo : s.game.gameOver = false)
    (hsub : s.game.submitGuess isValidWord hardMode =
      { game := s.game.accept guess result
        status := some (SubmitStatus.accepted guess result)
        timer := some (Timer.decide guess result) })
    (hs : s.game.shakeRowOk = true) (hw : guess = s.game.targetWord) :
    s.press isValidWord ("ENTER".toList, hardMode) =
      { s with
        game := { s.game.accept guess result with gameOver := true, won := true }
        timers := []
        calls := s.calls
          ++ Game.reportGuess { s.game.accept guess result with gameOver := true, won := true }
              result s.hasOnGuessComplete
          ++ (if s.hasOnGameEnd then [Call.onGameEnd true (s.game.guesses.length + 1)]
              else []) } := by
  have h1 := fire_cons_decide
    { s with game := s.game.accept guess result, timers := [Timer.decide guess result] }
    guess result [] rfl
  simp only [List.nil_append] at h1
  rw [decideGuess_won (s.game.accept guess result) guess result _ _ hw
    (bounceRowOk_accept s.game guess result hs true true)] at h1
  simp only at h1
  have h2 := fire_cons_gameEnd
    { s with
      game := { s.game.accept guess result with gameOver := true, won := true }
      timers := [Timer.gameEnd]
      calls := s.calls
        ++ Game.reportGuess { s.game.accept guess result with gameOver := true, won := true }
            result s.hasOnGuessComplete }
    [] rfl
  unfold Session.press
  rw [handleKey_accepted isValidWord s hardMode guess result ht hgo hsub, h1, h2]
  simp [Game.accept]

/-- The same when the guess is not the target. -/
theorem press_accepted_other (isValidWord : List Char → Bool) (s : Session) (hardMode : Bool)
    (guess : List Char) (result : List LetterState) (ht : s.timers = [])
    (hgo : s.game.gameOver = false)
    (hsub : s.game.submitGuess isValidWord hardMode =
      { game := s.game.accept guess result
        status := some (SubmitStatus.accepted guess result)
        timer := some (Timer.decide guess result) })
    (hw : guess ≠ s.game.targetWord) :
    s.press isValidWord ("ENTER".toList, hardMode) =
      { s with
        game := ((s.game.accept guess result).decideGuess guess result
          s.hasOnGuessComplete s.hasOnGameEnd).game
        timers := []
        calls := s.calls
          ++ ((s.game.accept guess result).decideGuess guess result
              s.hasOnGuessComplete s.hasOnGameEnd).calls } := by
  have hd : ((s.game.accept guess result).decideGuess guess result
      s.hasOnGuessComplete s.hasOnGameEnd).timers = [] := by
    by_cases hr : NUM_ROWS ≤ (s.game.accept guess result).currentRow
    · rw [decideGuess_lost (s.game.accept guess result) guess result _ _ hw hr]
    · rw [decideGuess_playing (s.game.accept guess result) guess result _ _ hw hr]
  have h1 := fire_cons_decide
    { s with game := s.game.accept guess result, timers := [Timer.decide guess result] }
    guess result [] rfl
  simp only [List.nil_append, hd] at h1
  unfold Session.press
  rw [handleKey_accepted isValidWord s hardMode guess result ht hgo hsub, h1, fire_nil _ rfl]

/-- A key press that does not accept a guess changes neither the history nor the flags. -/
theorem press_frame (isValidWord : List Char → Bool) (s : Session) (ht : s.timers = [])
    (k : List Char × Bool)
    (hno : (s.game.handleKeyPress isValidWord k.2 k.1).timer = none) :
    (s.press isValidWord k).timers = [] ∧
    (s.press isValidWord k).calls = s.calls ∧
    (s.press isValidWord k).game = (s.game.handleKeyPress isValidWord k.2 k.1).game := by
  have hk : s.handleKey isValidWord k.1 k.2 =
      { s with game := (s.game.handleKeyPress isValidWord k.2 k.1).game } := by
    unfold Session.handleKey
    simp only [hno, ht, Option.toList, List.append_nil]
  have hf := fire_nil
    { s with game := (s.game.handleKeyPress isValidWord k.2 k.1).game } ht 0
  unfold Session.press
  rw [hk, hf, hf]
  exact ⟨ht, rfl, rfl⟩

theorem handleKeyPress_cases (this : Game) (isValidWord : List Char → Bool) (hardMode : Bool)
    (key : List Char) :
    ((this.handleKeyPress isValidWord hardMode key).timer = none ∧
      (this.handleKeyPress isValidWord hardMode key).game.guesses = this.guesses ∧
      (this.handleKeyPress isValidWord hardMode key).game.gameOver = this.gameOver ∧
      (this.handleKeyPress isValidWord hardMode key).game.won = this.won ∧
      (this.handleKeyPress isValidWord hardMode key).game.targetWord = this.targetWord) ∨
    (this.gameOver = false ∧ key = "ENTER".toList ∧
      ∃ guess, this.getCurrentGuess = some guess ∧ NUM_COLS ≤ guess.length ∧
        isValidWord guess = true ∧
        (hardMode = true → this.validateHardMode guess = HardModeCheck.accepted)) := by
  unfold Game.handleKeyPress
  by_cases hgo : this.gameOver = true
  · left; simp [hgo]
  · have hgo' : this.gameOver = false := by simpa using hgo
    simp only [hgo', Bool.false_eq_true, if_false]
    by_cases hk : key = "ENTER".toList
    · simp only [hk, if_true]
      rcases submitGuess_cases this isValidWord hardMode with ⟨e, t⟩ | ⟨guess, hg, hl, hv, hh, _⟩
      · left; rw [e]; exact ⟨t, rfl, hgo', rfl, rfl⟩
      · right; exact ⟨trivial, trivial, guess, hg, hl, hv, hh⟩
    · left
      simp only [hk, if_false]
      split
      · have f := deleteLetter_frame this
        exact ⟨rfl, f.1, f.2.2.1.trans hgo', f.2.2.2.1, f.2.2.2.2.1⟩
      · split
        · have f := addLetter_frame this (toLowerCase key)
          exact ⟨rfl, f.1, f.2.2.1.trans hgo', f.2.2.2.1, f.2.2.2.2.1⟩
        · exact ⟨rfl, rfl, hgo', rfl, rfl⟩

/-! ## Sessions in which every decision runs before the next key press -/

theorem settled_start (s : Session) (h : s.timers = []) (target : List Char) :
    (s.start target).settled := by
  refine ⟨h, boardOk_startGame s.game target, ?_, ?_, ?_⟩
  · simp [Session.start, Game.startGame]
  · simp [Session.start, Game.startGame, NUM_ROWS]
  · simp [Session.start, Game.startGame]

theorem settled_active (s : Session) (h : s.settled) (hgo : s.game.gameOver = false) :
    s.game.won = false ∧ (∀ e ∈ s.game.guesses, e.word ≠ s.game.targetWord) ∧
    s.game.guesses.length < NUM_ROWS := by
  obtain ⟨_, ⟨_, _, hlen, hle⟩, hw, hl, hwg⟩ := h
  have hwon : s.game.won = false := by
    cases hc : s.game.won with
    | false => rfl
    | true => rw [hwg hc] at hgo; exact absurd hgo (by decide)
  have hnone : ∀ e ∈ s.game.guesses, e.word ≠ s.game.targetWord := by
    intro e he heq
    have := hw.2 ⟨e, he, heq⟩
    rw [hwon] at this
    exact absurd this (by decide)
  refine ⟨hwon, hnone, ?_⟩
  have hne : s.game.guesses.length ≠ NUM_ROWS := by
    intro hc
    have := (hl.2 ⟨hc, hnone⟩).1
    rw [hgo] at this
    exact absurd this (by decide)
  omega

theorem settled_press (isValidWord : List Char → Bool) (s : Session) (h : s.settled)
    (k : List Char × Bool) : (s.press isValidWord k).settled := by
  have ht : s.timers = [] := h.1
  rcases handleKeyPress_cases s.game isValidWord k.2 k.1 with
    ⟨hno, e1, e2, e3, e4⟩ | ⟨hgo, hk, guess, hg, hl, hv, hh⟩
  · obtain ⟨p1, _, p3⟩ := press_frame isValidWord s ht k hno
    obtain ⟨_, hb, hw, hlost, hwg⟩ := h
    refine ⟨p1, ?_, ?_, ?_, ?_⟩
    · rw [p3]; exact boardOk_handleKeyPress s.game hb isValidWord k.2 k.1
    · rw [p3, e1, e3, e4]; exact hw
    · rw [p3, e1, e2, e3, e4]; exact hlost
    · rw [p3, e2, e3]; exact hwg
  · obtain ⟨hwon, hnone, hlt⟩ := settled_active s h hgo
    obtain ⟨_, hb, _, _, _⟩ := h
    have hs := getCurrentGuess_shakeRowOk s.game guess hg
    have hsub := submitGuess_accept s.game isValidWord k.2 guess hg hl hv hh
    have hbo := boardOk_submitGuess s.game hb isValidWord k.2
    generalize (s.game.evaluateGuess guess).1 = result at hsub
    rw [hsub] at hbo
    have hkk : k = ("ENTER".toList, k.2) := by
      rw [← hk]
    have hcur : s.game.guesses.length = s.game.currentRow := hb.2.2.1
    rw [hkk]
    by_cases hw : guess = s.game.targetWord
    · rw [press_accepted_won isValidWord s k.2 guess result ht hgo hsub hs hw]
      refine ⟨rfl, hbo, ?_, ?_, ?_⟩
      · simp only [true_iff]
        exact ⟨⟨guess, result⟩, by simp [Game.accept], hw⟩
      · simp only [Bool.true_eq_false, and_false, false_iff, not_and, not_forall]
        intro _
        exact ⟨⟨guess, result⟩, by simp [Game.accept], by simpa using hw⟩
      · intro _; rfl
    · rw [press_accepted_other isValidWord s k.2 guess result ht hgo hsub hw]
      have hmem : ∀ e ∈ (s.game.accept guess result).guesses,
          e.word ≠ (s.game.accept guess result).targetWord := by
        intro e he
        simp only [Game.accept, List.mem_append, List.mem_singleton] at he
        rcases he with he | rfl
        · exact hnone e he
        · exact hw
      have hlen : (s.game.accept guess result).guesses.length = s.game.guesses.length + 1 := by
        simp [Game.accept]
      by_cases hr : NUM_ROWS ≤ (s.game.accept guess result).currentRow
      · rw [decideGuess_lost (s.game.accept guess result) guess result _ _ hw hr]
        have hr' : NUM_ROWS ≤ s.game.currentRow + 1 := hr
        refine ⟨rfl, hbo, ?_, ?_, ?_⟩
        · simp only [Bool.false_eq_true, false_iff, not_exists, not_and]
          exact fun e he => hmem e he
        · simp only [and_self, true_iff]
          exact ⟨by rw [hlen]; omega, hmem⟩
        · intro _; rfl
      · rw [decideGuess_playing (s.game.accept guess result) guess result _ _ hw hr]
        have hr' : ¬ NUM_ROWS ≤ s.game.currentRow + 1 := hr
        refine ⟨rfl, hbo, ?_, ?_, ?_⟩
        · show (s.game.won = true ↔ _)
          rw [hwon]
          simp only [Bool.false_eq_true, false_iff, not_exists, not_and]
          exact fun e he => hmem e he
        · show (s.game.gameOver = true ∧ s.game.won = false ↔ _)
          rw [hgo]
          simp only [Bool.false_eq_true, false_and, false_iff, not_and]
          intro hc
          rw [hlen] at hc
          omega
        · show (s.game.won = true → s.game.gameOver = true)
          rw [hwon]
          intro hc; exact absurd hc (by decide)

theorem settled_play (isValidWord : List Char → Bool) (keys : List (List Char × Bool)) :
    ∀ s : Session, s.settled → (s.play isValidWord keys).settled := by
  induction keys with
  | nil => intro s h; exact h
  | cons k ks ih =>
    intro s h
    exact ih _ (settled_press isValidWord s h k)

theorem press_targetWord (isValidWord : List Char → Bool) (s : Session) (h : s.settled)
    (k : List Char × Bool) :
    (s.press isValidWord k).game.targetWord = s.game.targetWord := by
  have ht : s.timers = [] := h.1
  rcases handleKeyPress_cases s.game isValidWord k.2 k.1 with
    ⟨hno, _, _, _, e4⟩ | ⟨hgo, hk, guess, hg, hl, hv, hh⟩
  · rw [(press_frame isValidWord s ht k hno).2.2, e4]
  · have hs := getCurrentGuess_shakeRowOk s.game guess hg
    have hsub := submitGuess_accept s.game isValidWord k.2 guess hg hl hv hh
    generalize (s.game.evaluateGuess guess).1 = result at hsub
    have hkk : k = ("ENTER".toList, k.2) := by
      rw [← hk]
    rw [hkk]
    by_cases hw : guess = s.game.targetWord
    · rw [press_accepted_won isValidWord s k.2 guess result ht hgo hsub hs hw]
      rfl
    · rw [press_accepted_other isValidWord s k.2 guess result ht hgo hsub hw]
      obtain ⟨go, w, e⟩ := decideGuess_game (s.game.accept guess result) guess result
        s.hasOnGuessComplete s.hasOnGameEnd
      simp only [e]
      rfl

theorem play_targetWord (isValidWord : List Char → Bool) (keys : List (List Char × Bool)) :
    ∀ s : Session, s.settled →
      (s.play isValidWord keys).game.targetWord = s.game.targetWord := by
  induction keys with
  | nil => intro s _; rfl
  | cons k ks ih =>
    intro s h
    have := ih _ (settled_press isValidWord s h k)
    rw [press_targetWord isValidWord s h k] at this
    exact this

/-! ## Claims on the session -/

/-- C11: hard-mode monotonicity. In a session started by `startGame` in which
hard mode is on at every submission, whatever key presses, submissions and
deferred callbacks follow, if the guess accepted as number `i` was evaluated
`correct` at position `p` with letter `c`, then every guess accepted later
(number `j > i`) has the letter `c` at position `p`. -/
theorem C11_hard_mode_monotonic (isValidWord : List Char → Bool) (s0 : Session)
    (target : List Char) (events : List Event) (hhard : ∀ e ∈ events, e.hard = true)
    (i j : Nat) (e1 e2 : GuessEntry) (p : Nat) (c : Char) (hij : i < j)
    (h1 : ((s0.start target).run isValidWord events).game.guesses[i]? = some e1)
    (h2 : ((s0.start target).run isValidWord events).game.guesses[j]? = some e2)
    (hr : e1.result[p]? = some LetterState.correct) (hw : e1.word[p]? = some c) :
    e2.word[p]? = some c := by
  have hok := hardModeOk_run isValidWord events (s0.start target)
    (hardModeOk_startGame s0.game target) hhard
  have hp := List.pairwise_iff_getElem.1 hok.2
  obtain ⟨hi, e1eq⟩ := List.getElem?_eq_some_iff.1 h1
  obtain ⟨hj, e2eq⟩ := List.getElem?_eq_some_iff.1 h2
  have := hp i j hi hj hij
  rw [e1eq, e2eq] at this
  exact this p c hr hw

/-- C11, at the target `crane` with `TRACE` and then `BRACE` entered in hard
mode: the `r` confirmed at position 1 by the first guess is at position 1 of the second. -/
theorem C11_hard_mode_monotonic_witness :
    "brace".toList[1]? = some 'r' :=
  C11_hard_mode_monotonic sampleWords Session.new "crane".toList
    (typeWord "TRACE".toList true ++ typeWord "BRACE".toList true) (by decide!) 0 1
    { word := "trace".toList
      result := [LetterState.absent, LetterState.correct, LetterState.correct,
        LetterState.present, LetterState.correct] }
    { word := "brace".toList
      result := [LetterState.absent, LetterState.correct, LetterState.correct,
        LetterState.present, LetterState.correct] }
    1 'r' (by decide) (by decide!) (by decide!) (by decide) (by decide)

/-- C12: a rejected submission leaves the session unchanged. When
`submitGuess` rejects the current guess because it has fewer than five
letters, because `isValidWord` rejects it, or because hard mode is on and
`validateHardMode` does not return `true`, the game after the call (guesses,
current row and column, `gameOver`, `won`, target word, revealed hints, and
the tiles) is the game before it, and no deferred callback is scheduled. -/
theorem C12_rejected_submission_unchanged (this : Game) (isValidWord : List Char → Bool)
    (hardMode : Bool) (guess : List Char) (hg : this.getCurrentGuess = some guess)
    (hrej : guess.length < NUM_COLS ∨ isValidWord guess = false ∨
      (hardMode = true ∧ this.validateHardMode guess ≠ HardModeCheck.accepted)) :
    (this.submitGuess isValidWord hardMode).game = this ∧
    (this.submitGuess isValidWord hardMode).timer = none ∧
    ∀ g r, (this.submitGuess isValidWord hardMode).status ≠ some (SubmitStatus.accepted g r) :=
  submitGuess_rejected this isValidWord hardMode guess hg hrej

/-- C12, at a fresh game against `crane` with `CR` typed. -/
theorem C12_rejected_submission_unchanged_witness :
    (((Session.new.start "crane".toList).run sampleWords
        [Event.key ['C'] false, Event.key ['R'] false]).game.submitGuess sampleWords false).game
      = ((Session.new.start "crane".toList).run sampleWords
        [Event.key ['C'] false, Event.key ['R'] false]).game :=
  (C12_rejected_submission_unchanged
    ((Session.new.start "crane".toList).run sampleWords
      [Event.key ['C'] false, Event.key ['R'] false]).game
    sampleWords false "cr".toList (by decide) (Or.inl (by decide))).1

/-- C13: a submission made when the game is over is not accepted and leaves
the state unchanged. For every state with `gameOver` set and every key, in
particular `ENTER`, `handleKeyPress` returns at once: the game (guesses,
current row, revealed hints, `gameOver`, `won` and all other fields) stays as
it is, `submitGuess` is not reached, and no callback is scheduled. -/
theorem C13_terminal_submission_ignored (this : Game) (isValidWord : List Char → Bool)
    (hardMode : Bool) (key : List Char) (hover : this.gameOver = true) :
    this.handleKeyPress isValidWord hardMode key
      = { game := this, status := none, timer := none } := by
  unfold Game.handleKeyPress
  simp only [hover, if_true]

/-- C13, at the game won with `CRANE` against `crane`, on `ENTER`. -/
theorem C13_terminal_submission_ignored_witness :
    ((Session.new.start "crane".toList).play sampleWords
        (typeKeys "CRANE".toList false)).game.handleKeyPress sampleWords false "ENTER".toList
      = { game := ((Session.new.start "crane".toList).play sampleWords
            (typeKeys "CRANE".toList false)).game
          status := none, timer := none } :=
  C13_terminal_submission_ignored _ sampleWords false "ENTER".toList (by decide)

/-- C14: an accepted submission performs exactly one step. For a current
guess that passes all checks, after `submitGuess` the history is the old
history with the entry `{word: guess, result: evaluateGuess(guess)}` appended,
the current row is the old one plus one, the current column is 0, the revealed
hints are the old hints updated by `updateRevealedHints(guess, result)`, and
nothing else of the game has changed. -/
theorem C14_accepted_submission_one_step (this : Game) (isValidWord : List Char → Bool)
    (hardMode : Bool) (guess : List Char) (hg : this.getCurrentGuess = some guess)
    (hlen : NUM_COLS ≤ guess.length) (hv : isValidWord guess = true)
    (hh : hardMode = true → this.validateHardMode guess = HardModeCheck.accepted) :
    (this.submitGuess isValidWord hardMode).status
        = some (SubmitStatus.accepted guess (this.evaluateGuess guess).1) ∧
    (this.submitGuess isValidWord hardMode).game.guesses
        = this.guesses ++ [{ word := guess, result := (this.evaluateGuess guess).1 }] ∧
    (this.submitGuess isValidWord hardMode).game.currentRow = this.currentRow + 1 ∧
    (this.submitGuess isValidWord hardMode).game.currentCol = 0 ∧
    (this.submitGuess isValidWord hardMode).game.revealedHints
        = (this.updateRevealedHints guess (this.evaluateGuess guess).1).revealedHints ∧
    (this.submitGuess isValidWord hardMode).game.targetWord = this.targetWord ∧
    (this.submitGuess isValidWord hardMode).game.gameOver = this.gameOver ∧
    (this.submitGuess isValidWord hardMode).game.won = this.won ∧
    (this.submitGuess isValidWord hardMode).game.tiles = this.tiles := by
  rw [submitGuess_accepted this isValidWord hardMode guess hg hlen hv hh]
  simp only [Game.updateRevealedHints, and_self]

/-- C14, at a fresh game against `crane` with `TRACE` typed. -/
theorem C14_accepted_submission_one_step_witness :
    (((Session.new.start "crane".toList).run sampleWords
        ("TRACE".toList.map (fun c => Event.key [c] false))).game.submitGuess
          sampleWords false).game.currentRow = 0 + 1 :=
  (C14_accepted_submission_one_step
    ((Session.new.start "crane".toList).run sampleWords
      ("TRACE".toList.map (fun c => Event.key [c] false))).game
    sampleWords false "trace".toList (by decide) (by decide) (by decide)
    (by intro h; exact absurd h (by decide))).2.2.1

/-- C15, counterexample. (1) Right after `CRANE` is accepted against the
target `crane` the history holds a guess equal to the target, yet `won` and
`gameOver` are still false: the decision waits for the animation. (2) After
four wrong guesses, `CRANE` is accepted and `TRACE` is entered while that
decision is waiting; once all callbacks have run the game is over with `won`
false, although the fifth of its six guesses is the target. -/
theorem C15_terminal_status_counterexample :
    (pendingWin.game.guesses.map (fun e => e.word) = ["crane".toList] ∧
      pendingWin.game.targetWord = "crane".toList ∧
      pendingWin.game.won = false ∧ pendingWin.game.gameOver = false) ∧
    (racedWin.timers = [] ∧ racedWin.game.targetWord = "crane".toList ∧
      racedWin.game.guesses.map (fun e => e.word)
        = ["slate".toList, "pious".toList, "bumpy".toList, "fight".toList,
           "crane".toList, "trace".toList] ∧
      racedWin.game.gameOver = true ∧ racedWin.game.won = false) := by
  decide!

/-- C15, amended: terminal status is decided exactly by the accepted guesses
once their deferred decisions have run. In every session started by
`startGame(target)` with no callback waiting and continued by key presses
each of whose deferred callbacks runs before the next key press, the game is
won if and only if some accepted guess equals the target word, it is lost if
and only if exactly `NUM_ROWS` guesses were accepted and none of them equals
the target word, and otherwise it is active; no callback is left waiting and
the target word is the lower-cased target. -/
theorem C15_terminal_status_resolved (isValidWord : List Char → Bool) (s0 : Session)
    (target : List Char) (keys : List (List Char × Bool)) (h0 : s0.timers = []) :
    (((s0.start target).play isValidWord keys).game.gameOver = true ∧
        ((s0.start target).play isValidWord keys).game.won = true ↔
      ∃ e ∈ ((s0.start target).play isValidWord keys).game.guesses,
        e.word = ((s0.start target).play isValidWord keys).game.targetWord) ∧
    (((s0.start target).play isValidWord keys).game.gameOver = true ∧
        ((s0.start target).play isValidWord keys).game.won = false ↔
      ((s0.start target).play isValidWord keys).game.guesses.length = NUM_ROWS ∧
      ∀ e ∈ ((s0.start target).play isValidWord keys).game.guesses,
        e.word ≠ ((s0.start target).play isValidWord keys).game.targetWord) ∧
    (((s0.start target).play isValidWord keys).game.gameOver = false ↔
      ((s0.start target).play isValidWord keys).game.guesses.length < NUM_ROWS ∧
      ∀ e ∈ ((s0.start target).play isValidWord keys).game.guesses,
        e.word ≠ ((s0.start target).play isValidWord keys).game.targetWord) ∧
    ((s0.start target).play isValidWord keys).timers = [] ∧
    ((s0.start target).play isValidWord keys).game.targetWord = toLowerCase target := by
  have hst := settled_start s0 h0 target
  have hset := settled_play isValidWord keys (s0.start target) hst
  have htw := play_targetWord isValidWord keys (s0.start target) hst
  generalize (s0.start target).play isValidWord keys = s at hset htw
  obtain ⟨ht, hb, hw, hl, hwg⟩ := hset
  refine ⟨?_, hl, ?_, ht, htw⟩
  · constructor
    · rintro ⟨_, h⟩; exact hw.1 h
    · intro h; exact ⟨hwg (hw.2 h), hw.2 h⟩
  · constructor
    · intro hgo
      obtain ⟨_, hnone, hlt⟩ := settled_active s ⟨ht, hb, hw, hl, hwg⟩ hgo
      exact ⟨hlt, hnone⟩
    · rintro ⟨hlt, hnone⟩
      cases hgo : s.game.gameOver with
      | false => rfl
      | true =>
        exfalso
        cases hwon : s.game.won with
        | true =>
          obtain ⟨e, he, heq⟩ := hw.1 hwon
          exact hnone e he heq
        | false =>
          have := (hl.1 ⟨hgo, hwon⟩).1
          omega

/-- C15 amended, at the target `crane` with `CRANE` entered. -/
theorem C15_terminal_status_resolved_witness :
    ((Session.new.start "crane".toList).play sampleWords
        (typeKeys "CRANE".toList false)).game.gameOver = true ∧
      ((Session.new.start "crane".toList).play sampleWords
        (typeKeys "CRANE".toList false)).game.won = true ↔
    ∃ e ∈ ((Session.new.start "crane".toList).play sampleWords
        (typeKeys "CRANE".toList false)).game.guesses,
      e.word = ((Session.new.start "crane".toList).play sampleWords
        (typeKeys "CRANE".toList false)).game.targetWord :=
  (C15_terminal_status_resolved sampleWords Session.new "crane".toList
    (typeKeys "CRANE".toList false) (by decide)).1

/-- C16: in every state reached from `startGame` by any sequence of key
presses, direct calls of `submitGuess` and deferred callbacks, in any order,
the current row is at most `NUM_ROWS` = 6 and the history holds at most 6 guesses. -/
theorem C16_row_and_history_bounded (isValidWord : List Char → Bool) (s0 : Session)
    (target : List Char) (events : List Event) :
    ((s0.start target).run isValidWord events).game.currentRow ≤ 6 ∧
    ((s0.start target).run isValidWord events).game.guesses.length ≤ 6 := by
  have h := boardOk_run isValidWord events (s0.start target)
    (boardOk_startGame s0.game target)
  obtain ⟨_, _, h3, h4⟩ := h
  have h6 : NUM_ROWS = 6 := rfl
  constructor
  · omega
  · omega

/-- C17: `startGame(target)` resets the session from any prior state:
afterwards the target word is the lower-case form of `target`, the current
row and column are 0, the history is empty, `gameOver` and `won` are false,
the position map and the present-set of the hints are empty, and the board
is a fresh one. -/
theorem C17_startGame_resets (this : Game) (target : List Char) :
    (this.startGame target).targetWord = toLowerCase target ∧
    (this.startGame target).currentRow = 0 ∧
    (this.startGame target).currentCol = 0 ∧
    (this.startGame target).guesses = [] ∧
    (this.startGame target).gameOver = false ∧
    (this.startGame target).won = false ∧
    (this.startGame target).revealedHints.correct = [] ∧
    (this.startGame target).revealedHints.present = [] ∧
    (this.startGame target).tiles = createBoard := by
  simp only [Game.startGame, and_self]

/-- C18, counterexample. Against the target `crane`, `CRANE` is accepted and
`TRACE` is entered while its decision is waiting. When the decision for
`trace` runs, the game is already over and won, so the report for `trace`
(the second guess, not the target) carries `won = true` and the status
derived for the room is `won`. -/
theorem C18_progress_report_counterexample :
    racedReport.timers
      = [Timer.decide "trace".toList
          [LetterState.absent, LetterState.correct, LetterState.correct,
           LetterState.present, LetterState.correct]] ∧
    (racedReport.fire 0).calls
      = racedReport.calls ++ [Call.onGuessComplete 2 3 1 (some true)] ∧
    onGuessComplete true 2 3 1 (some true) = some (2, 3, 1, PlayerStatus.won) ∧
    "trace".toList ≠ racedReport.game.targetWord := by
  decide!

/-- C18, amended: in a session started by `startGame` with no callback waiting
and continued by key presses each of whose deferred callbacks runs before the
next key press, when `onGuessComplete` is set, every accepted submission is
reported by exactly one call of `onGuessComplete`, with the number of guesses
accepted so far, the number of `correct` entries and the number of `present`
entries of the evaluation; the status derived from the call for the room is
`won` exactly when the guess equals the target word, `lost` exactly when it
is the sixth accepted guess and differs from the target word, and `playing`
otherwise. -/
theorem C18_progress_report_resolved (isValidWord : List Char → Bool) (s0 : Session)
    (target : List Char) (keys : List (List Char × Bool)) (s : Session) (hardMode : Bool)
    (guess : List Char) (h0 : s0.timers = [])
    (hs : s = (s0.start target).play isValidWord keys)
    (hcb : s.hasOnGuessComplete = true) (hgo : s.game.gameOver = false)
    (hg : s.game.getCurrentGuess = some guess) (hlen : NUM_COLS ≤ guess.length)
    (hv : isValidWord guess = true)
    (hh : hardMode = true → s.game.validateHardMode guess = HardModeCheck.accepted) :
    ∃ w,
      ((s.press isValidWord ("ENTER".toList, hardMode)).calls.drop s.calls.length).filter
          Call.isGuessComplete
        = [Call.onGuessComplete (s.game.guesses.length + 1)
            ((s.game.evaluateGuess guess).1.count LetterState.correct)
            ((s.game.evaluateGuess guess).1.count LetterState.present) w] ∧
      onGuessComplete true (s.game.guesses.length + 1)
          ((s.game.evaluateGuess guess).1.count LetterState.correct)
          ((s.game.evaluateGuess guess).1.count LetterState.present) w
        = some (s.game.guesses.length + 1,
            (s.game.evaluateGuess guess).1.count LetterState.correct,
            (s.game.evaluateGuess guess).1.count LetterState.present, statusOfWon w) ∧
      (statusOfWon w = PlayerStatus.won ↔ guess = s.game.targetWord) ∧
      (statusOfWon w = PlayerStatus.lost ↔
        s.game.guesses.length + 1 = NUM_ROWS ∧ guess ≠ s.game.targetWord) ∧
      (statusOfWon w = PlayerStatus.playing ↔
        s.game.guesses.length + 1 ≠ NUM_ROWS ∧ guess ≠ s.game.targetWord) := by
  have hset : s.settled := by
    rw [hs]
    exact settled_play isValidWord keys (s0.start target) (settled_start s0 h0 target)
  have ht : s.timers = [] := hset.1
  obtain ⟨_, _, hlt⟩ := settled_active s hset hgo
  have hcur : s.game.guesses.length = s.game.currentRow := hset.2.1.2.2.1
  have hshake := getCurrentGuess_shakeRowOk s.game guess hg
  have hsub := submitGuess_accept s.game isValidWord hardMode guess hg hlen hv hh
  generalize (s.game.evaluateGuess guess).1 = result at hsub ⊢
  by_cases hw : guess = s.game.targetWord
  · refine ⟨some true, ?_, ?_, ?_, ?_, ?_⟩
    · rw [press_accepted_won isValidWord s hardMode guess result ht hgo hsub hshake hw]
      simp only [List.append_assoc, List.drop_left, Game.reportGuess, hcb, if_true]
      cases s.hasOnGameEnd <;> simp [Game.accept, Call.isGuessComplete]
    · simp [onGuessComplete]
    · simp [statusOfWon, hw]
    · simp [statusOfWon, hw]
    · simp [statusOfWon, hw]
  · by_cases hr : NUM_ROWS ≤ (s.game.accept guess result).currentRow
    · have hr' : NUM_ROWS ≤ s.game.currentRow + 1 := hr
      refine ⟨some false, ?_, ?_, ?_, ?_, ?_⟩
      · rw [press_accepted_other isValidWord s hardMode guess result ht hgo hsub hw,
          decideGuess_lost (s.game.accept guess result) guess result _ _ hw hr]
        simp only [List.drop_left, Game.reportGuess, hcb, if_true]
        cases s.hasOnGameEnd <;> simp [Game.accept, Call.isGuessComplete]
      · simp [onGuessComplete]
      · simp [statusOfWon, hw]
      · simp only [statusOfWon, true_iff]
        exact ⟨by omega, hw⟩
      · simp only [statusOfWon, reduceCtorEq, false_iff, not_and]
        intro h; omega
    · have hr' : ¬ NUM_ROWS ≤ s.game.currentRow + 1 := hr
      refine ⟨none, ?_, ?_, ?_, ?_, ?_⟩
      · rw [press_accepted_other isValidWord s hardMode guess result ht hgo hsub hw,
          decideGuess_playing (s.game.accept guess result) guess result _ _ hw hr]
        simp only [List.drop_left, Game.reportGuess, hcb, if_true]
        simp [Game.accept, Call.isGuessComplete, hgo]
      · simp [onGuessComplete]
      · simp [statusOfWon, hw]
      · simp only [statusOfWon, reduceCtorEq, false_iff, not_and]
        intro h; omega
      · simp only [statusOfWon, true_iff]
        exact ⟨by omega, hw⟩

/-- C18 amended, at the target `crane` with `TRACE` typed and `ENTER` pressed. -/
theorem C18_progress_report_resolved_witness :
    ∃ w,
      ((((Session.new.start "crane".toList).play sampleWords
            ("TRACE".toList.map (fun c => ([c], false)))).press sampleWords
          ("ENTER".toList, false)).calls.drop
          ((Session.new.start "crane".toList).play sampleWords
            ("TRACE".toList.map (fun c => ([c], false)))).calls.length).filter
          Call.isGuessComplete
        = [Call.onGuessComplete
            (((Session.new.start "crane".toList).play sampleWords
              ("TRACE".toList.map (fun c => ([c], false)))).game.guesses.length + 1)
            ((((Session.new.start "crane".toList).play sampleWords
              ("TRACE".toList.map (fun c => ([c], false)))).game.evaluateGuess
                "trace".toList).1.count LetterState.correct)
            ((((Session.new.start "crane".toList).play sampleWords
              ("TRACE".toList.map (fun c => ([c], false)))).game.evaluateGuess
                "trace".toList).1.count LetterState.present) w] :=
  (C18_progress_report_resolved sampleWords Session.new "crane".toList
    ("TRACE".toList.map (fun c => ([c], false)))
    ((Session.new.start "crane".toList).play sampleWords
      ("TRACE".toList.map (fun c => ([c], false))))
    false "trace".toList (by decide) rfl (by decide!) (by decide!) (by decide!) (by decide)
    (by decide) (by intro h; exact absurd h (by decide))).imp (fun _ h => h.1)

/-! ## The result of a match -/

theorem getResults_returned (this : Multiplayer) (db : Database) (myWon : Bool)
    (myGuesses : Nat) (user opponent : User) (room : Room) (opp : GameStateRow)
    (hu : this.user = some user) (hr : this.room = some room)
    (ho : this.opponent = some opponent)
    (hs : getOpponentState db room.id user.id = some opp) :
    ∃ results this2 db2,
      this.getResults db myWon myGuesses
        = ResultsOutcome.returned results
            (determineWinner myWon myGuesses (decide (opp.status = PlayerStatus.won))
              opp.guess_count user.id opponent.id).winnerId this2 db2 ∧
      results.won = (determineWinner myWon myGuesses (decide (opp.status = PlayerStatus.won))
        opp.guess_count user.id opponent.id).won ∧
      results.draw = (determineWinner myWon myGuesses (decide (opp.status = PlayerStatus.won))
        opp.guess_count user.id opponent.id).draw := by
  unfold Multiplayer.getResults
  simp only [hu, hr, ho, hs]
  exact ⟨_, _, _, rfl, rfl, rfl⟩

theorem determineWinner_both (myGuesses opponentGuesses myId opponentId : Nat) :
    determineWinner true myGuesses true opponentGuesses myId opponentId
      = if myGuesses < opponentGuesses then
          { won := true, draw := false, winnerId := some myId }
        else if opponentGuesses < myGuesses then
          { won := false, draw := false, winnerId := some opponentId }
        else { won := false, draw := true, winnerId := none } := by
  simp [determineWinner]

theorem determineWinner_mine (myGuesses opponentGuesses myId opponentId : Nat) :
    determineWinner true myGuesses false opponentGuesses myId opponentId
      = { won := true, draw := false, winnerId := some myId } := by
  simp [determineWinner]

theorem determineWinner_theirs (myGuesses opponentGuesses myId opponentId : Nat) :
    determineWinner false myGuesses true opponentGuesses myId opponentId
      = { won := false, draw := false, winnerId := some opponentId } := by
  simp [determineWinner]

theorem determineWinner_neither (myGuesses opponentGuesses myId opponentId : Nat) :
    determineWinner false myGuesses false opponentGuesses myId opponentId
      = { won := false, draw := true, winnerId := none } := by
  simp [determineWinner]

/-- C19: the tie-break. When the room, the user and the opponent are set and
the opponent's state is found, `getResults` returns and names the winner as
follows: if both won, the player with the strictly lower guess count; if
exactly one player won, that player, whatever the guess counts; in every
other case (both won with equal counts, or neither won) nobody. The flag
`won` of the result is true exactly when the winner is the local user (the
two users being distinct). Won in 3 against won in 5 names the first player,
and so does won in 4 against a loss. -/
theorem C19_tiebreak_winner (this : Multiplayer) (db : Database) (myWon : Bool)
    (myGuesses : Nat) (user opponent : User) (room : Room) (opp : GameStateRow)
    (hu : this.user = some user) (hr : this.room = some room)
    (ho : this.opponent = some opponent)
    (hs : getOpponentState db room.id user.id = some opp)
    (hne : user.id ≠ opponent.id) :
    (∃ results winnerId this2 db2,
      this.getResults db myWon myGuesses
        = ResultsOutcome.returned results winnerId this2 db2 ∧
      (myWon = true → opp.status = PlayerStatus.won → myGuesses < opp.guess_count →
        winnerId = some user.id) ∧
      (myWon = true → opp.status = PlayerStatus.won → opp.guess_count < myGuesses →
        winnerId = some opponent.id) ∧
      (myWon = true → opp.status ≠ PlayerStatus.won → winnerId = some user.id) ∧
      (myWon = false → opp.status = PlayerStatus.won → winnerId = some opponent.id) ∧
      (myWon = true → opp.status = PlayerStatus.won → myGuesses = opp.guess_count →
        winnerId = none) ∧
      (myWon = false → opp.status ≠ PlayerStatus.won → winnerId = none) ∧
      (results.won = true ↔ winnerId = some user.id)) ∧
    (determineWinner true 3 true 5 user.id opponent.id).winnerId = some user.id ∧
    (determineWinner true 4 false 6 user.id opponent.id).winnerId = some user.id := by
  refine ⟨?_, by simp [determineWinner], by simp [determineWinner]⟩
  obtain ⟨results, this2, db2, e, ew, _⟩ :=
    getResults_returned this db myWon myGuesses user opponent room opp hu hr ho hs
  refine ⟨results, _, this2, db2, e, ?_⟩
  rw [ew]
  have hne' : ¬ opponent.id = user.id := fun h => hne h.symm
  cases myWon <;> by_cases hst : opp.status = PlayerStatus.won
  · simp [hst, determineWinner_theirs, hne']
  · simp [hst, determineWinner_neither]
  · simp only [hst, decide_True, determineWinner_both]
    by_cases h1 : myGuesses < opp.guess_count
    · have h2 : ¬ opp.guess_count < myGuesses := by omega
      have h3 : ¬ myGuesses = opp.guess_count := by omega
      simp [h1, h2, h3]
    · by_cases h2 : opp.guess_count < myGuesses
      · have h3 : ¬ myGuesses = opp.guess_count := by omega
        simp [h1, h2, h3, hne']
      · have h3 : myGuesses = opp.guess_count := by omega
        simp [h1, h2, h3]
  · simp [hst, determineWinner_mine]

/-- C19, at the sample room: the local user won in 3, the opponent in 5. -/
theorem C19_tiebreak_winner_witness :
    (determineWinner true 3 true 5 1 2).winnerId = some 1 :=
  (C19_tiebreak_winner sampleMatch sampleDatabase true 3
    { id := 1, username := "ann".toList } { id := 2, username := "bob".toList }
    { id := 10, player1_id := 1, player2_id := some 2, current_word := "crane".toList }
    { room_id := 10, user_id := 2, guess_count := 5, green_count := 5, yellow_count := 0,
      status := PlayerStatus.won }
    rfl rfl rfl (by decide) (by decide)).2.1

/-- C20: a loss never ties or beats a win. When `getResults` returns, its
flag `draw` is true if and only if both players won with equal guess counts
or neither player won; when `draw` is true nobody is named winner and `won`
is false; when `draw` is false exactly one player is named winner, either the
local user (then `won` is true and the user won their game) or the
opponent (then `won` is false and the opponent won their game). -/
theorem C20_draw_iff_equal_wins_or_no_win (this : Multiplayer) (db : Database)
    (myWon : Bool) (myGuesses : Nat) (user opponent : User) (room : Room)
    (opp : GameStateRow) (hu : this.user = some user) (hr : this.room = some room)
    (ho : this.opponent = some opponent)
    (hs : getOpponentState db room.id user.id = some opp) :
    ∃ results winnerId this2 db2,
      this.getResults db myWon myGuesses
        = ResultsOutcome.returned results winnerId this2 db2 ∧
      (results.draw = true ↔
        (myWon = true ∧ opp.status = PlayerStatus.won ∧ myGuesses = opp.guess_count) ∨
        (myWon = false ∧ opp.status ≠ PlayerStatus.won)) ∧
      (results.draw = true → winnerId = none ∧ results.won = false) ∧
      (results.draw = false →
        (winnerId = some user.id ∧ results.won = true ∧ myWon = true) ∨
        (winnerId = some opponent.id ∧ results.won = false ∧
          opp.status = PlayerStatus.won)) := by
  obtain ⟨results, this2, db2, e, ew, ed⟩ :=
    getResults_returned this db myWon myGuesses user opponent room opp hu hr ho hs
  refine ⟨results, _, this2, db2, e, ?_⟩
  rw [ew, ed]
  cases myWon <;> by_cases hst : opp.status = PlayerStatus.won
  · simp [hst, determineWinner_theirs]
  · simp [hst, determineWinner_neither]
  · simp only [hst, decide_True, determineWinner_both]
    by_cases h1 : myGuesses < opp.guess_count
    · have h3 : ¬ myGuesses = opp.guess_count := by omega
      simp [h1, h3]
    · by_cases h2 : opp.guess_count < myGuesses
      · have h3 : ¬ myGuesses = opp.guess_count := by omega
        simp [h1, h2, h3]
      · have h3 : myGuesses = opp.guess_count := by omega
        simp [h1, h2, h3]
  · simp [hst, determineWinner_mine]

/-- C20, at the sample room with both players having won in 4 guesses. -/
theorem C20_draw_iff_equal_wins_or_no_win_witness :
    ∃ results winnerId this2 db2,
      sampleMatch.getResults
          { sampleDatabase with
            game_states :=
              [{ room_id := 10, user_id := 2, guess_count := 4, green_count := 5,
                 yellow_count := 0, status := PlayerStatus.won }] }
          true 4
        = ResultsOutcome.returned results winnerId this2 db2 :=
  (C20_draw_iff_equal_wins_or_no_win sampleMatch
    { sampleDatabase with
      game_states :=
        [{ room_id := 10, user_id := 2, guess_count := 4, green_count := 5,
           yellow_count := 0, status := PlayerStatus.won }] }
    true 4
    { id := 1, username := "ann".toList } { id := 2, username := "bob".toList }
    { id := 10, player1_id := 1, player2_id := some 2, current_word := "crane".toList }
    { room_id := 10, user_id := 2, guess_count := 4, green_count := 5, yellow_count := 0,
      status := PlayerStatus.won }
    rfl rfl rfl (by decide)).imp
    (fun _ h => h.imp (fun _ h => h.imp (fun _ h => h.imp (fun _ h => h.1))))

/-! ## Who records the result of a match -/

theorem isHost_eq (this : Multiplayer) (user : User) (room : Room)
    (hu : this.user = some user) (hr : this.room = some room) :
    this.isHost = (room.player1_id == user.id) := by
  simp [Multiplayer.isHost, hu, hr]

theorem getResults_eq (this : Multiplayer) (db : Database) (myWon : Bool)
    (myGuesses : Nat) (user opponent : User) (room : Room) (opp : GameStateRow)
    (hu : this.user = some user) (hr : this.room = some room)
    (ho : this.opponent = some opponent)
    (hs : getOpponentState db room.id user.id = some opp) :
    ∃ results this2,
      this.getResults db myWon myGuesses
        = ResultsOutcome.returned results
            (determineWinner myWon myGuesses (decide (opp.status = PlayerStatus.won))
              opp.guess_count user.id opponent.id).winnerId this2
            (if this.isHost = true then
              saveMatchResult db room.id room.player1_id room.player2_id
                (determineWinner myWon myGuesses (decide (opp.status = PlayerStatus.won))
                  opp.guess_count user.id opponent.id).winnerId
                (orSeven myGuesses) (orSeven opp.guess_count) room.current_word
            else db) := by
  unfold Multiplayer.getResults
  simp only [hu, hr, ho, hs]
  exact ⟨_, _, rfl⟩

theorem getResults_database_guest (this : Multiplayer) (db : Database) (myWon : Bool)
    (myGuesses : Nat) (h : this.isHost = false) :
    (this.getResults db myWon myGuesses).database db = db := by
  unfold Multiplayer.getResults
  cases hr : this.room with
  | none => rfl
  | some room =>
    cases ho : this.opponent with
    | none => rfl
    | some opponent =>
      cases hu : this.user with
      | none => rfl
      | some user =>
        cases hs : getOpponentState db room.id user.id with
        | none => simp [ResultsOutcome.database, hs]
        | some opp => simp [ResultsOutcome.database, hs, h]

theorem saveMatchResult_length (db : Database) (roomId player1Id : Nat)
    (player2Id winnerId : Option Nat) (p1Guesses p2Guesses : Nat) (word : List Char) :
    (saveMatchResult db roomId player1Id player2Id winnerId p1Guesses p2Guesses
      word).match_results.length = db.match_results.length + 1 := by
  simp [saveMatchResult]

/-- C21, at a player who lost. The session `lostSession` (six wrong guesses)
ends with the calls `onGameEnd(false, 6)` and `onGuessComplete(6, 3, 1, false)`,
so the guess count that reaches `getResults` and the table `game_states` for
a participant who did not win is 6. With it, the host who lost records
itself with `player1_guesses` 6, and the host who won in 3 records the guest
who lost with `player2_guesses` 6: neither value is the sentinel 7. -/
theorem C21_loss_recorded_with_six_guesses :
    Call.onGameEnd false 6 ∈ lostSession.calls ∧
    lostSession.calls.getLast? = some (Call.onGuessComplete 6 3 1 (some false)) ∧
    ((sampleMatch.getResults lostDatabase false 6).database lostDatabase).match_results
      = [{ room_id := 10, player1_id := 1, player2_id := some 2, winner_id := some 2,
           player1_guesses := 6, player2_guesses := 3, word := "crane".toList }] ∧
    ((sampleMatch.getResults
        { lostDatabase with
          game_states :=
            [{ room_id := 10, user_id := 2, guess_count := 6, green_count := 3,
               yellow_count := 1, status := PlayerStatus.lost }] }
        true 3).database lostDatabase).match_results
      = [{ room_id := 10, player1_id := 1, player2_id := some 2, winner_id := some 1,
           player1_guesses := 3, player2_guesses := 6, word := "crane".toList }] := by
  refine ⟨by decide!, by decide!, by decide!, by decide!⟩

/-- C22: single-writer persistence. A call of `getResults` by a participant
who is not the host leaves the database as it was, however the call ends.
When the user, the room and the opponent are set and the opponent's state is
found, `getResults` returns, and the database after the call is the one
written by `saveMatchResult` (one more record in `match_results`) if and only
if the local user is the room's `player1_id`, which is what `isHost()` tests;
otherwise it is the database before the call. -/
theorem C22_only_host_saves (this : Multiplayer) (db : Database) (myWon : Bool)
    (myGuesses : Nat) :
    (this.isHost = false → (this.getResults db myWon myGuesses).database db = db) ∧
    ∀ (user opponent : User) (room : Room) (opp : GameStateRow),
      this.user = some user → this.room = some room → this.opponent = some opponent →
      getOpponentState db room.id user.id = some opp →
      ∃ results winnerId this2 db2,
        this.getResults db myWon myGuesses
          = ResultsOutcome.returned results winnerId this2 db2 ∧
        (this.isHost = true ↔ room.player1_id = user.id) ∧
        (this.isHost = true ↔
          db2 = saveMatchResult db room.id room.player1_id room.player2_id winnerId
            (orSeven myGuesses) (orSeven opp.guess_count) room.current_word) ∧
        (this.isHost = true ↔ db2.match_results.length = db.match_results.length + 1) ∧
        (this.isHost = false ↔ db2 = db) := by
  refine ⟨getResults_database_guest this db myWon myGuesses, ?_⟩
  intro user opponent room opp hu hr ho hs
  obtain ⟨results, this2, e⟩ :=
    getResults_eq this db myWon myGuesses user opponent room opp hu hr ho hs
  refine ⟨results, _, this2, _, e, ?_, ?_, ?_, ?_⟩
  · rw [isHost_eq this user room hu hr]; simp
  · cases h : this.isHost
    · simp only [Bool.false_eq_true, if_false, false_iff]
      intro e2
      have := congrArg (fun d => d.match_results.length) e2
      simp [saveMatchResult] at this
    · simp
  · cases h : this.isHost
    · simp
    · simp [saveMatchResult]
  · cases h : this.isHost
    · simp
    · simp only [if_true, Bool.true_eq_false, false_iff]
      intro e2
      have := congrArg (fun d => d.match_results.length) e2
      simp [saveMatchResult] at this

/-- C22, at the sample room: the guest writes nothing, the host returns. -/
theorem C22_only_host_saves_witness :
    (sampleGuest.getResults lostDatabase true 3).database lostDatabase = lostDatabase ∧
    ∃ results winnerId this2 db2,
      sampleMatch.getResults sampleDatabase true 3
        = ResultsOutcome.returned results winnerId this2 db2 ∧
      db2.match_results.length = sampleDatabase.match_results.length + 1 :=
  ⟨(C22_only_host_saves sampleGuest lostDatabase true 3).1 (by decide),
   ((C22_only_host_saves sampleMatch sampleDatabase true 3).2
      { id := 1, username := "ann".toList } { id := 2, username := "bob".toList }
      { id := 10, player1_id := 1, player2_id := some 2, current_word := "crane".toList }
      { room_id := 10, user_id := 2, guess_count := 5, green_count := 5, yellow_count := 0,
        status := PlayerStatus.won }
      rfl rfl rfl (by decide)).imp
    (fun _ h => h.imp (fun _ h => h.imp (fun _ h => h.imp
      (fun _ h => ⟨h.1, h.2.2.2.1.mp (by decide)⟩))))⟩

/-- C23: both participants compute the same result. Player A runs
`getResults` with A's own outcome (the status and guess count of A's state)
against B's reported state, and player B with B's own outcome against A's
reported state. Both calls return, they name the same winner and carry the
same flag `draw`, and when it is not a draw exactly one of the two flags
`won` is true. -/
theorem C23_both_compute_same_result (playerA playerB : Multiplayer) (dbA dbB : Database)
    (userA userB : User) (roomA roomB : Room) (stateA stateB : GameStateRow)
    (hAu : playerA.user = some userA) (hAo : playerA.opponent = some userB)
    (hAr : playerA.room = some roomA)
    (hBu : playerB.user = some userB) (hBo : playerB.opponent = some userA)
    (hBr : playerB.room = some roomB)
    (hsA : getOpponentState dbA roomA.id userA.id = some stateB)
    (hsB : getOpponentState dbB roomB.id userB.id = some stateA) :
    ∃ resultsA winnerA thisA dbA2 resultsB winnerB thisB dbB2,
      playerA.getResults dbA (decide (stateA.status = PlayerStatus.won)) stateA.guess_count
        = ResultsOutcome.returned resultsA winnerA thisA dbA2 ∧
      playerB.getResults dbB (decide (stateB.status = PlayerStatus.won)) stateB.guess_count
        = ResultsOutcome.returned resultsB winnerB thisB dbB2 ∧
      winnerA = winnerB ∧ resultsA.draw = resultsB.draw ∧
      (resultsA.draw = false →
        (resultsA.won = true ∧ resultsB.won = false) ∨
        (resultsA.won = false ∧ resultsB.won = true)) := by
  obtain ⟨resultsA, thisA, dbA2, eA, ewA, edA⟩ :=
    getResults_returned playerA dbA (decide (stateA.status = PlayerStatus.won))
      stateA.guess_count userA userB roomA stateB hAu hAr hAo hsA
  obtain ⟨resultsB, thisB, dbB2, eB, ewB, edB⟩ :=
    getResults_returned playerB dbB (decide (stateB.status = PlayerStatus.won))
      stateB.guess_count userB userA roomB stateA hBu hBr hBo hsB
  refine ⟨resultsA, _, thisA, dbA2, resultsB, _, thisB, dbB2, eA, eB, ?_⟩
  rw [ewA, edA, ewB, edB]
  by_cases ha : stateA.status = PlayerStatus.won <;>
    by_cases hb : stateB.status = PlayerStatus.won
  · simp only [ha, hb, decide_True, determineWinner_both]
    by_cases h1 : stateA.guess_count < stateB.guess_count
    · have h2 : ¬ stateB.guess_count < stateA.guess_count := by omega
      simp [h1, h2]
    · by_cases h2 : stateB.guess_count < stateA.guess_count
      · simp [h1, h2]
      · simp [h1, h2]
  · simp [ha, hb, determineWinner_mine, determineWinner_theirs]
  · simp [ha, hb, determineWinner_mine, determineWinner_theirs]
  · simp [ha, hb, determineWinner_neither]

/-- C23, at the sample room: the host lost with six guesses, the guest won in three. -/
theorem C23_both_compute_same_result_witness :
    ∃ resultsA winnerA thisA dbA2 resultsB winnerB thisB dbB2,
      sampleMatch.getResults lostDatabase false 6
        = ResultsOutcome.returned resultsA winnerA thisA dbA2 ∧
      sampleGuest.getResults lostDatabase true 3
        = ResultsOutcome.returned resultsB winnerB thisB dbB2 ∧
      winnerA = winnerB ∧ resultsA.draw = resultsB.draw :=
  (C23_both_compute_same_result sampleMatch sampleGuest lostDatabase lostDatabase
    { id := 1, username := "ann".toList } { id := 2, username := "bob".toList }
    { id := 10, player1_id := 1, player2_id := some 2, current_word := "crane".toList }
    { id := 10, player1_id := 1, player2_id := some 2, current_word := "crane".toList }
    { room_id := 10, user_id := 1, guess_count := 6, green_count := 3, yellow_count := 1,
      status := PlayerStatus.lost }
    { room_id := 10, user_id := 2, guess_count := 3, green_count := 5, yellow_count := 0,
      status := PlayerStatus.won }
    rfl rfl rfl rfl rfl rfl (by decide) (by decide)).imp
    (fun _ h => h.imp (fun _ h => h.imp (fun _ h => h.imp (fun _ h => h.imp (fun _ h =>
      h.imp (fun _ h => h.imp (fun _ h => h.imp
        (fun _ h => ⟨h.1, h.2.1, h.2.2.1, h.2.2.2.1⟩))))))))

/-! ## The head-to-head record -/

theorem foldl_countMatch_swap (a b : Nat) (hab : a ≠ b) (l : List MatchRecord)
    (hl : ∀ m ∈ l, m.winner_id = none ∨ m.winner_id = some a ∨ m.winner_id = some b)
    (acc acc2 : HeadToHead)
    (h1 : acc.user1Wins = acc2.user2Wins) (h2 : acc.user2Wins = acc2.user1Wins)
    (h3 : acc.draws = acc2.draws) (h4 : acc.totalGames = acc2.totalGames) :
    (l.foldl (countMatch a) acc).user1Wins = (l.foldl (countMatch b) acc2).user2Wins ∧
    (l.foldl (countMatch a) acc).user2Wins = (l.foldl (countMatch b) acc2).user1Wins ∧
    (l.foldl (countMatch a) acc).draws = (l.foldl (countMatch b) acc2).draws ∧
    (l.foldl (countMatch a) acc).totalGames = (l.foldl (countMatch b) acc2).totalGames := by
  induction l generalizing acc acc2 with
  | nil => exact ⟨h1, h2, h3, h4⟩
  | cons m l ih =>
    simp only [List.foldl_cons]
    have hl2 : ∀ m ∈ l, m.winner_id = none ∨ m.winner_id = some a ∨ m.winner_id = some b :=
      fun m hm => hl m (List.mem_cons_of_mem _ hm)
    have hba : ¬ b = a := fun h => hab h.symm
    rcases hl m (List.mem_cons_self _ _) with hw | hw | hw
    · exact ih hl2 _ _ (by simp [countMatch, hw, h1]) (by simp [countMatch, hw, h2])
        (by simp [countMatch, hw, h3]) (by simp [countMatch, hw, h4])
    · exact ih hl2 _ _ (by simp [countMatch, hw, h1, hab]) (by simp [countMatch, hw, h2, hab])
        (by simp [countMatch, hw, h3, hab]) (by simp [countMatch, hw, h4, hab])
    · exact ih hl2 _ _ (by simp [countMatch, hw, h1, hba]) (by simp [countMatch, hw, h2, hba])
        (by simp [countMatch, hw, h3, hba]) (by simp [countMatch, hw, h4, hba])

theorem headToHead_filter_swap (a b : Nat) (l : List MatchRecord) :
    l.filter (fun m =>
        (m.player1_id == a && m.player2_id == some b)
          || (m.player1_id == b && m.player2_id == some a))
      = l.filter (fun m =>
        (m.player1_id == b && m.player2_id == some a)
          || (m.player1_id == a && m.player2_id == some b)) := by
  congr 1
  funext m
  exact Bool.or_comm _ _

/-- C26: the head-to-head lookup does not depend on the order of the two
users. For distinct users `a` and `b`, when every record between them names as
its winner nobody, `a` or `b`, the lookups `getHeadToHead(a, b)` and
`getHeadToHead(b, a)` credit the same wins to `a` (`user1Wins` of the first,
`user2Wins` of the second), the same wins to `b`, the same draws and the same
`totalGames`; so what `loadHeadToHead` shows to `a` as `myScore` is what it
shows to `b` as `opponentScore`, and the other way round. -/
theorem C26_head_to_head_order_independent (db : Database) (a b : Nat) (hab : a ≠ b)
    (hw : ∀ m ∈ db.match_results,
      ((m.player1_id = a ∧ m.player2_id = some b) ∨ (m.player1_id = b ∧ m.player2_id = some a)) →
      (m.winner_id = none ∨ m.winner_id = some a ∨ m.winner_id = some b)) :
    (getHeadToHead db a b).user1Wins = (getHeadToHead db b a).user2Wins ∧
    (getHeadToHead db a b).user2Wins = (getHeadToHead db b a).user1Wins ∧
    (getHeadToHead db a b).draws = (getHeadToHead db b a).draws ∧
    (getHeadToHead db a b).totalGames = (getHeadToHead db b a).totalGames ∧
    ∀ (playerA playerB : Multiplayer) (userA userB : User),
      playerA.user = some userA → playerA.opponent = some userB →
      playerB.user = some userB → playerB.opponent = some userA →
      userA.id = a → userB.id = b →
      (playerA.loadHeadToHead db).myScore = (playerB.loadHeadToHead db).opponentScore ∧
      (playerA.loadHeadToHead db).opponentScore = (playerB.loadHeadToHead db).myScore ∧
      (playerA.loadHeadToHead db).draws = (playerB.loadHeadToHead db).draws := by
  have key :
      (getHeadToHead db a b).user1Wins = (getHeadToHead db b a).user2Wins ∧
      (getHeadToHead db a b).user2Wins = (getHeadToHead db b a).user1Wins ∧
      (getHeadToHead db a b).draws = (getHeadToHead db b a).draws ∧
      (getHeadToHead db a b).totalGames = (getHeadToHead db b a).totalGames := by
    unfold getHeadToHead
    simp only []
    rw [← headToHead_filter_swap a b db.match_results]
    apply foldl_countMatch_swap a b hab
    · intro m hm
      rw [List.mem_filter] at hm
      apply hw m hm.1
      have h2 := hm.2
      simp only [Bool.or_eq_true, Bool.and_eq_true, beq_iff_eq] at h2
      exact h2
    · rfl
    · rfl
    · rfl
    · rfl
  refine ⟨key.1, key.2.1, key.2.2.1, key.2.2.2, ?_⟩
  intro playerA playerB userA userB hAu hAo hBu hBo ha hb
  simp only [Multiplayer.loadHeadToHead, hAu, hAo, hBu, hBo, ha, hb]
  exact ⟨key.1, key.2.1, key.2.2.1⟩

/-- C26, on three records between the users 1 and 2: one win each and a draw. -/
theorem C26_head_to_head_order_independent_witness :
    (getHeadToHead sampleLedger 1 2).user1Wins = (getHeadToHead sampleLedger 2 1).user2Wins ∧
    (getHeadToHead sampleLedger 1 2).user2Wins = (getHeadToHead sampleLedger 2 1).user1Wins ∧
    (getHeadToHead sampleLedger 1 2).draws = (getHeadToHead sampleLedger 2 1).draws ∧
    (getHeadToHead sampleLedger 1 2).totalGames = (getHeadToHead sampleLedger 2 1).totalGames :=
  have h := C26_head_to_head_order_independent sampleLedger 1 2 (by decide) (by decide)
  ⟨h.1, h.2.1, h.2.2.1, h.2.2.2.1⟩

theorem foldl_countMatch_totalGames (u : Nat) (l : List MatchRecord) (acc : HeadToHead)
    (n : Nat) :
    l.foldl (countMatch u) { acc with totalGames := n }
      = { l.foldl (countMatch u) acc with totalGames := n } := by
  induction l generalizing acc with
  | nil => rfl
  | cons m l ih =>
    simp only [List.foldl_cons]
    have e : countMatch u { acc with totalGames := n } m
        = { countMatch u acc m with totalGames := n } := by
      unfold countMatch
      cases m.winner_id with
      | none => rfl
      | some w => by_cases hw : w = u <;> simp [hw]
    rw [e, ih]

theorem foldl_countMatch_keeps_totalGames (u : Nat) (l : List MatchRecord)
    (acc : HeadToHead) : (l.foldl (countMatch u) acc).totalGames = acc.totalGames := by
  induction l generalizing acc with
  | nil => rfl
  | cons m l ih =>
    simp only [List.foldl_cons]
    rw [ih]
    unfold countMatch
    cases m.winner_id with
    | none => rfl
    | some w => by_cases hw : w = u <;> simp [hw]

/-- The lookup after one more record between the two users has been saved. -/
theorem getHeadToHead_saveMatchResult (db : Database) (roomId player1Id : Nat)
    (player2Id winnerId : Option Nat) (p1Guesses p2Guesses : Nat) (word : List Char)
    (u1 u2 : Nat)
    (hm : (player1Id = u1 ∧ player2Id = some u2) ∨ (player1Id = u2 ∧ player2Id = some u1)) :
    getHeadToHead
        (saveMatchResult db roomId player1Id player2Id winnerId p1Guesses p2Guesses word) u1 u2
      = countMatch u1
          { getHeadToHead db u1 u2 with totalGames := (getHeadToHead db u1 u2).totalGames + 1 }
          { room_id := roomId, player1_id := player1Id, player2_id := player2Id,
            winner_id := winnerId, player1_guesses := p1Guesses, player2_guesses := p2Guesses,
            word := word } := by
  have hp : ((player1Id == u1 && player2Id == some u2)
      || (player1Id == u2 && player2Id == some u1)) = true := by
    simp only [Bool.or_eq_true, Bool.and_eq_true, beq_iff_eq]
    exact hm
  have ht : (getHeadToHead db u1 u2).totalGames
      = (db.match_results.filter (fun m =>
          (m.player1_id == u1 && m.player2_id == some u2)
            || (m.player1_id == u2 && m.player2_id == some u1))).length := by
    unfold getHeadToHead
    simp only []
    rw [foldl_countMatch_keeps_totalGames]
  rw [ht]
  unfold getHeadToHead saveMatchResult
  simp only [List.filter_append, List.filter_cons, hp, if_true, List.filter_nil,
    List.foldl_append, List.foldl_cons, List.foldl_nil, List.length_append,
    List.length_singleton]
  exact congrArg (fun h => countMatch u1 h _)
    (foldl_countMatch_totalGames u1 _ ⟨0, 0, 0, _⟩ _)

/-- What one more record does to the counters: the number of games grows by
one, and so does exactly one of the two win counters and the draw counter. -/
theorem countMatch_one_more (u : Nat) (h : HeadToHead) (m : MatchRecord) :
    (countMatch u { h with totalGames := h.totalGames + 1 } m).totalGames = h.totalGames + 1 ∧
    (((countMatch u { h with totalGames := h.totalGames + 1 } m).user1Wins = h.user1Wins + 1 ∧
      (countMatch u { h with totalGames := h.totalGames + 1 } m).user2Wins = h.user2Wins ∧
      (countMatch u { h with totalGames := h.totalGames + 1 } m).draws = h.draws) ∨
     ((countMatch u { h with totalGames := h.totalGames + 1 } m).user1Wins = h.user1Wins ∧
      (countMatch u { h with totalGames := h.totalGames + 1 } m).user2Wins = h.user2Wins + 1 ∧
      (countMatch u { h with totalGames := h.totalGames + 1 } m).draws = h.draws) ∨
     ((countMatch u { h with totalGames := h.totalGames + 1 } m).user1Wins = h.user1Wins ∧
      (countMatch u { h with totalGames := h.totalGames + 1 } m).user2Wins = h.user2Wins ∧
      (countMatch u { h with totalGames := h.totalGames + 1 } m).draws = h.draws + 1)) := by
  unfold countMatch
  cases m.winner_id with
  | none => simp
  | some w => by_cases hw : w = u <;> simp [hw]

theorem resultsCalls_guest_only (host guest : Multiplayer) (hostState guestState : GameStateRow)
    (hg : guest.isHost = false) (callers : List Bool) (db : Database)
    (hc : callers.count true = 0) :
    resultsCalls host guest hostState guestState db callers = db := by
  induction callers generalizing db with
  | nil => rfl
  | cons c callers ih =>
    cases c with
    | true => simp at hc
    | false =>
      simp only [List.count_cons, Bool.false_eq_true, beq_iff_eq, if_false, add_zero] at hc
      simp only [resultsCalls, List.foldl_cons, resultsCall, Bool.false_eq_true, if_false]
      rw [getResults_database_guest guest db _ _ hg]
      exact ih db hc

theorem resultsCall_host (host guest : Multiplayer) (hostState guestState : GameStateRow)
    (db : Database) (hostUser guestUser : User) (room : Room)
    (hu : host.user = some hostUser) (hr : host.room = some room)
    (ho : host.opponent = some guestUser) (h1 : room.player1_id = hostUser.id)
    (hs : getOpponentState db room.id hostUser.id = some guestState) :
    ∃ winnerId p1Guesses p2Guesses,
      resultsCall host guest hostState guestState db true
        = saveMatchResult db room.id room.player1_id room.player2_id winnerId
            p1Guesses p2Guesses room.current_word := by
  obtain ⟨results, this2, e⟩ :=
    getResults_eq host db (decide (hostState.status = PlayerStatus.won)) hostState.guess_count
      hostUser guestUser room guestState hu hr ho hs
  have hh : host.isHost = true := by
    rw [isHost_eq host hostUser room hu hr, h1]; simp
  refine ⟨(determineWinner (decide (hostState.status = PlayerStatus.won)) hostState.guess_count
      (decide (guestState.status = PlayerStatus.won)) guestState.guess_count hostUser.id
      guestUser.id).winnerId, orSeven hostState.guess_count, orSeven guestState.guess_count, ?_⟩
  simp only [resultsCall, if_true, e, ResultsOutcome.database, hh]

/-- C24, as the code has it: the ledger after one call by the host. With the
room set up for the host (`player1_id` the host, `player2_id` the guest) and
the guest's terminal state found, after any runs of `getResults` of which
exactly one is the host's, `totalGames` of `getHeadToHead` for the pair has
grown by exactly 1 and exactly one of the three counters (wins of the one,
wins of the other, draws) has grown by 1, the other two being as before. -/
theorem C24_ledger_after_one_host_call (host guest : Multiplayer)
    (hostState guestState : GameStateRow) (db : Database) (callers : List Bool)
    (hostUser guestUser : User) (room : Room)
    (hu : host.user = some hostUser) (hr : host.room = some room)
    (ho : host.opponent = some guestUser) (h1 : room.player1_id = hostUser.id)
    (h2 : room.player2_id = some guestUser.id) (hg : guest.isHost = false)
    (hs : getOpponentState db room.id hostUser.id = some guestState)
    (hc : callers.count true = 1) :
    (getHeadToHead (resultsCalls host guest hostState guestState db callers)
        hostUser.id guestUser.id).totalGames
      = (getHeadToHead db hostUser.id guestUser.id).totalGames + 1 ∧
    (((getHeadToHead (resultsCalls host guest hostState guestState db callers)
          hostUser.id guestUser.id).user1Wins
        = (getHeadToHead db hostUser.id guestUser.id).user1Wins + 1 ∧
      (getHeadToHead (resultsCalls host guest hostState guestState db callers)
          hostUser.id guestUser.id).user2Wins
        = (getHeadToHead db hostUser.id guestUser.id).user2Wins ∧
      (getHeadToHead (resultsCalls host guest hostState guestState db callers)
          hostUser.id guestUser.id).draws
        = (getHeadToHead db hostUser.id guestUser.id).draws) ∨
     ((getHeadToHead (resultsCalls host guest hostState guestState db callers)
          hostUser.id guestUser.id).user1Wins
        = (getHeadToHead db hostUser.id guestUser.id).user1Wins ∧
      (getHeadToHead (resultsCalls host guest hostState guestState db callers)
          hostUser.id guestUser.id).user2Wins
        = (getHeadToHead db hostUser.id guestUser.id).user2Wins + 1 ∧
      (getHeadToHead (resultsCalls host guest hostState guestState db callers)
          hostUser.id guestUser.id).draws
        = (getHeadToHead db hostUser.id guestUser.id).draws) ∨
     ((getHeadToHead (resultsCalls host guest hostState guestState db callers)
          hostUser.id guestUser.id).user1Wins
        = (getHeadToHead db hostUser.id guestUser.id).user1Wins ∧
      (getHeadToHead (resultsCalls host guest hostState guestState db callers)
          hostUser.id guestUser.id).user2Wins
        = (getHeadToHead db hostUser.id guestUser.id).user2Wins ∧
      (getHeadToHead (resultsCalls host guest hostState guestState db callers)
          hostUser.id guestUser.id).draws
        = (getHeadToHead db hostUser.id guestUser.id).draws + 1)) := by
  induction callers with
  | nil => simp at hc
  | cons c callers ih =>
    cases c with
    | false =>
      have hc2 : callers.count true = 1 := by
        simpa [List.count_cons] using hc
      have e : resultsCalls host guest hostState guestState db (false :: callers)
          = resultsCalls host guest hostState guestState db callers := by
        simp only [resultsCalls, List.foldl_cons, resultsCall, Bool.false_eq_true, if_false]
        rw [getResults_database_guest guest db _ _ hg]
      rw [e]
      exact ih hc2
    | true =>
      have hc2 : callers.count true = 0 := by
        simpa [List.count_cons] using hc
      obtain ⟨winnerId, p1Guesses, p2Guesses, e1⟩ :=
        resultsCall_host host guest hostState guestState db hostUser guestUser room
          hu hr ho h1 hs
      have e : resultsCalls host guest hostState guestState db (true :: callers)
          = saveMatchResult db room.id room.player1_id room.player2_id winnerId
              p1Guesses p2Guesses room.current_word := by
        have e2 : resultsCalls host guest hostState guestState db (true :: callers)
            = resultsCalls host guest hostState guestState
                (resultsCall host guest hostState guestState db true) callers := rfl
        rw [e2, resultsCalls_guest_only host guest hostState guestState hg callers _ hc2, e1]
      rw [e, getHeadToHead_saveMatchResult db room.id room.player1_id room.player2_id winnerId
        p1Guesses p2Guesses room.current_word hostUser.id guestUser.id (Or.inl ⟨h1, h2⟩)]
      exact countMatch_one_more hostUser.id _ _

/-- C24, at the sample room: a call by the guest, one by the host and one more by the guest. -/
theorem C24_ledger_after_one_host_call_witness :
    (getHeadToHead
        (resultsCalls sampleMatch sampleGuest
          { room_id := 10, user_id := 1, guess_count := 6, green_count := 3, yellow_count := 1,
            status := PlayerStatus.lost }
          { room_id := 10, user_id := 2, guess_count := 3, green_count := 5, yellow_count := 0,
            status := PlayerStatus.won }
          lostDatabase [false, true, false]) 1 2).totalGames
      = (getHeadToHead lostDatabase 1 2).totalGames + 1 :=
  (C24_ledger_after_one_host_call sampleMatch sampleGuest
    { room_id := 10, user_id := 1, guess_count := 6, green_count := 3, yellow_count := 1,
      status := PlayerStatus.lost }
    { room_id := 10, user_id := 2, guess_count := 3, green_count := 5, yellow_count := 0,
      status := PlayerStatus.won }
    lostDatabase [false, true, false]
    { id := 1, username := "ann".toList } { id := 2, username := "bob".toList }
    { id := 10, player1_id := 1, player2_id := some 2, current_word := "crane".toList }
    rfl rfl rfl rfl rfl (by decide) (by decide) (by decide)).1

/-- C24, as stated, fails both ways at the sample room, where the pair has no
record yet: after a single run of `getResults` by the guest `totalGames` is
still 0, and after two runs by the host it is 2, with 2 wins credited to the
guest for the one match. -/
theorem C24_ledger_counterexample :
    (getHeadToHead lostDatabase 1 2).totalGames = 0 ∧
    (getHeadToHead
        (resultsCalls sampleMatch sampleGuest
          { room_id := 10, user_id := 1, guess_count := 6, green_count := 3, yellow_count := 1,
            status := PlayerStatus.lost }
          { room_id := 10, user_id := 2, guess_count := 3, green_count := 5, yellow_count := 0,
            status := PlayerStatus.won }
          lostDatabase [false]) 1 2).totalGames = 0 ∧
    getHeadToHead
        (resultsCalls sampleMatch sampleGuest
          { room_id := 10, user_id := 1, guess_count := 6, green_count := 3, yellow_count := 1,
            status := PlayerStatus.lost }
          { room_id := 10, user_id := 2, guess_count := 3, green_count := 5, yellow_count := 0,
            status := PlayerStatus.won }
          lostDatabase [true, true]) 1 2
      = { user1Wins := 0, user2Wins := 2, draws := 0, totalGames := 2 } := by
  refine ⟨by decide!, by decide!, by decide!⟩

/-! ## The wait for the opponent -/

/-- C25, where the poll and the push both report the opponent terminal. The
poll sees the finished opponent first and the pushed update of the same fact
arrives afterwards: the poll callback has cleared the interval but the pushed
handler is still installed, and the result is surfaced a second time. The
same happens when the update is pushed while a poll callback is suspended at
its query, and when two poll callbacks are suspended at once. A push alone,
or a poll alone, surfaces the result once. -/
theorem C25_poll_and_push_surface_twice :
    (Waiting.new.run
      [WaitEvent.tick, WaitEvent.checked true, WaitEvent.push PlayerStatus.won]).surfaced = 2 ∧
    (Waiting.new.run
      [WaitEvent.tick, WaitEvent.checked true]).onOpponentUpdate = true ∧
    (Waiting.new.run
      [WaitEvent.tick, WaitEvent.push PlayerStatus.lost, WaitEvent.checked true]).surfaced = 2 ∧
    (Waiting.new.run
      [WaitEvent.tick, WaitEvent.tick, WaitEvent.checked true,
       WaitEvent.checked true]).surfaced = 2 ∧
    (Waiting.new.run
      [WaitEvent.push PlayerStatus.won, WaitEvent.tick, WaitEvent.checked true,
       WaitEvent.push PlayerStatus.won]).surfaced = 1 ∧
    (Waiting.new.run [WaitEvent.tick, WaitEvent.checked true, WaitEvent.tick,
       WaitEvent.checked true]).surfaced = 1 := by
  decide

/-! ## The report of the end of the game -/

/-- C27, counterexample. Against the target `crane`, `CRANE` is accepted and
its decision is waiting (the game is not over yet); `TRACE`, typed meanwhile,
is accepted by `submitGuess` as well. When the waiting callbacks have run,
`onGameEnd` reports the guess count 2 for a game that the first guess ended.
In `racedWin` the fifth guess is the target and the sixth is entered during
the wait: `onGameEnd(true, 6)` is followed by `onGameEnd(false, 6)`. -/
theorem C27_sequential_submission_counterexample :
    pendingWin.game.gameOver = false ∧
    pendingWin.timers
      = [Timer.decide "crane".toList
          [LetterState.correct, LetterState.correct, LetterState.correct,
           LetterState.correct, LetterState.correct]] ∧
    ((pendingWin.run sampleWords
        ("TRACE".toList.map (fun c => Event.key [c] false))).game.submitGuess
          sampleWords false).status
      = some (SubmitStatus.accepted "trace".toList
          [LetterState.absent, LetterState.correct, LetterState.correct,
           LetterState.present, LetterState.correct]) ∧
    racedReport.calls.filter Call.isGameEnd = [Call.onGameEnd true 2] ∧
    racedWin.calls.filter Call.isGameEnd
      = [Call.onGameEnd true 6, Call.onGameEnd false 6] := by
  decide!

/-- C27, amended: the session does not lock its input while a decision is
waiting; in a session started by `startGame` with no callback waiting and
continued by key presses each of whose deferred callbacks runs before the
next key press, an accepted submission leaves no callback waiting, and with
`onGameEnd` set it calls `onGameEnd` exactly once when the guess equals the
target word (with `won` true) or is the sixth accepted guess and differs from
it (with `won` false), and not at all otherwise; the guess count of the call
is the number of guesses accepted up to and including that guess, the last
entry of the history. -/
theorem C27_game_end_report_resolved (isValidWord : List Char → Bool) (s0 : Session)
    (target : List Char) (keys : List (List Char × Bool)) (s : Session) (hardMode : Bool)
    (guess : List Char) (h0 : s0.timers = [])
    (hs : s = (s0.start target).play isValidWord keys)
    (hcb : s.hasOnGameEnd = true) (hgo : s.game.gameOver = false)
    (hg : s.game.getCurrentGuess = some guess) (hlen : NUM_COLS ≤ guess.length)
    (hv : isValidWord guess = true)
    (hh : hardMode = true → s.game.validateHardMode guess = HardModeCheck.accepted) :
    ((s.press isValidWord ("ENTER".toList, hardMode)).calls.drop s.calls.length).filter
        Call.isGameEnd
      = (if guess = s.game.targetWord then [Call.onGameEnd true (s.game.guesses.length + 1)]
         else if s.game.guesses.length + 1 = NUM_ROWS then
           [Call.onGameEnd false (s.game.guesses.length + 1)]
         else []) ∧
    (s.press isValidWord ("ENTER".toList, hardMode)).timers = [] ∧
    (s.press isValidWord ("ENTER".toList, hardMode)).game.guesses
      = s.game.guesses ++ [{ word := guess, result := (s.game.evaluateGuess guess).1 }] ∧
    ((s.press isValidWord ("ENTER".toList, hardMode)).game.gameOver = true ↔
      guess = s.game.targetWord ∨ s.game.guesses.length + 1 = NUM_ROWS) ∧
    ((s.press isValidWord ("ENTER".toList, hardMode)).game.won = true ↔
      guess = s.game.targetWord) := by
  have hset : s.settled := by
    rw [hs]
    exact settled_play isValidWord keys (s0.start target) (settled_start s0 h0 target)
  have ht : s.timers = [] := hset.1
  obtain ⟨hnw, _, hlt⟩ := settled_active s hset hgo
  have hcur : s.game.guesses.length = s.game.currentRow := hset.2.1.2.2.1
  have hshake := getCurrentGuess_shakeRowOk s.game guess hg
  have hsub := submitGuess_accept s.game isValidWord hardMode guess hg hlen hv hh
  generalize (s.game.evaluateGuess guess).1 = result at hsub ⊢
  by_cases hw : guess = s.game.targetWord
  · rw [press_accepted_won isValidWord s hardMode guess result ht hgo hsub hshake hw]
    refine ⟨?_, rfl, rfl, ?_, ?_⟩
    · simp only [List.append_assoc, List.drop_left, Game.reportGuess, hcb, if_true, if_pos hw]
      cases s.hasOnGuessComplete <;> simp [Call.isGameEnd]
    · simp [hw]
    · simp [hw]
  · by_cases hr : NUM_ROWS ≤ (s.game.accept guess result).currentRow
    · have hr' : NUM_ROWS ≤ s.game.currentRow + 1 := hr
      have hsix : s.game.guesses.length + 1 = NUM_ROWS := by omega
      rw [press_accepted_other isValidWord s hardMode guess result ht hgo hsub hw,
        decideGuess_lost (s.game.accept guess result) guess result _ _ hw hr]
      refine ⟨?_, rfl, rfl, ?_, ?_⟩
      · simp only [List.drop_left, Game.reportGuess, hcb, if_true, if_neg hw, if_pos hsix]
        cases s.hasOnGuessComplete <;> simp [Game.accept, Call.isGameEnd]
      · simp [hsix]
      · simp [hw]
    · have hr' : ¬ NUM_ROWS ≤ s.game.currentRow + 1 := hr
      have hsix : ¬ s.game.guesses.length + 1 = NUM_ROWS := by omega
      rw [press_accepted_other isValidWord s hardMode guess result ht hgo hsub hw,
        decideGuess_playing (s.game.accept guess result) guess result _ _ hw hr]
      refine ⟨?_, rfl, rfl, ?_, ?_⟩
      · simp only [List.drop_left, Game.reportGuess, if_neg hw, if_neg hsix]
        cases s.hasOnGuessComplete <;> simp [Call.isGameEnd]
      · simp [Game.accept, hgo, hw, hsix]
      · simp only [Game.accept, hw, iff_false, Bool.not_eq_true]
        cases hwon : s.game.won with
        | false => rfl
        | true => exact absurd (hset.2.2.2.2 hwon) (by simp [hgo])

/-- C27 amended, at the target `crane` with `CRANE` typed and `ENTER` pressed. -/
theorem C27_game_end_report_resolved_witness :
    ((((Session.new.start "crane".toList).play sampleWords
          ("CRANE".toList.map (fun c => ([c], false)))).press sampleWords
        ("ENTER".toList, false)).calls.drop
        ((Session.new.start "crane".toList).play sampleWords
          ("CRANE".toList.map (fun c => ([c], false)))).calls.length).filter
        Call.isGameEnd
      = (if "crane".toList
            = ((Session.new.start "crane".toList).play sampleWords
                ("CRANE".toList.map (fun c => ([c], false)))).game.targetWord then
          [Call.onGameEnd true
            (((Session.new.start "crane".toList).play sampleWords
              ("CRANE".toList.map (fun c => ([c], false)))).game.guesses.length + 1)]
         else if ((Session.new.start "crane".toList).play sampleWords
              ("CRANE".toList.map (fun c => ([c], false)))).game.guesses.length + 1
              = NUM_ROWS then
           [Call.onGameEnd false
            (((Session.new.start "crane".toList).play sampleWords
              ("CRANE".toList.map (fun c => ([c], false)))).game.guesses.length + 1)]
         else []) :=
  (C27_game_end_report_resolved sampleWords Session.new "crane".toList
    ("CRANE".toList.map (fun c => ([c], false)))
    ((Session.new.start "crane".toList).play sampleWords
      ("CRANE".toList.map (fun c => ([c], false))))
    false "crane".toList (by decide) rfl (by decide!) (by decide!) (by decide!) (by decide)
    (by decide) (by intro h; exact absurd h (by decide))).1

/-! ## The states of the keys -/

theorem propGet_propSet_self (o : List (List Char × LetterState)) (key : List Char)
    (v : LetterState) : propGet (propSet o key v) key = some v := by
  induction o with
  | nil => simp [propSet, propGet]
  | cons p rest ih =>
    obtain ⟨k, w⟩ := p
    by_cases h : k = key
    · simp [propSet, propGet, h]
    · simp [propSet, propGet, h, ih]

theorem propGet_propSet_ne (o : List (List Char × LetterState)) (key other : List Char)
    (v : LetterState) (hne : key ≠ other) :
    propGet (propSet o key v) other = propGet o other := by
  induction o with
  | nil => simp [propSet, propGet, hne]
  | cons p rest ih =>
    obtain ⟨k, w⟩ := p
    by_cases h : k = key
    · have h2 : ¬ k = other := fun e => hne (h.symm.trans e)
      simp [propSet, propGet, h, hne]
    · by_cases h2 : k = other
      · subst h2
        simp [propSet, propGet, h]
      · simp [propSet, propGet, h, h2, ih]

theorem updateKeyState_keys (this : Keyboard) (letter : List Char) (state : LetterState) :
    (this.updateKeyState letter state).keys = this.keys := by
  unfold Keyboard.updateKeyState
  simp only []
  split
  · split
    · rfl
    · split <;> rfl
  · rfl

/-- What one call does to the stored state of a key that has an element. -/
theorem updateKeyState_get (this : Keyboard) (letter : List Char) (state : LetterState)
    (key : List Char) (hk : key ∈ this.keys) :
    propGet (this.updateKeyState letter state).keyStates key
      = if toUpperCase letter = key then upgraded (propGet this.keyStates key) state
        else propGet this.keyStates key := by
  unfold Keyboard.updateKeyState
  simp only []
  by_cases h : toUpperCase letter = key
  · subst h
    simp only [hk, if_true]
    cases hc : propGet this.keyStates (toUpperCase letter) with
    | none => simp [upgraded, propGet_propSet_self]
    | some currentState =>
      by_cases hs : stateOrder state > stateOrder currentState
      · simp [upgraded, hs, propGet_propSet_self]
      · simp [upgraded, hs, hc]
  · simp only [h, if_false]
    split
    · split
      · exact propGet_propSet_ne _ _ _ _ h
      · split
        · exact propGet_propSet_ne _ _ _ _ h
        · rfl
    · rfl

theorem updates_keys (calls : List (List Char × LetterState)) (this : Keyboard) :
    (this.updates calls).keys = this.keys := by
  induction calls generalizing this with
  | nil => rfl
  | cons c calls ih =>
    show ((this.updateKeyState c.1 c.2).updates calls).keys = this.keys
    rw [ih, updateKeyState_keys]

theorem updates_get (calls : List (List Char × LetterState)) (this : Keyboard)
    (key : List Char) (hk : key ∈ this.keys) :
    propGet (this.updates calls).keyStates key
      = (passedFor key calls).foldl upgraded (propGet this.keyStates key) := by
  induction calls generalizing this with
  | nil => rfl
  | cons c calls ih =>
    show propGet ((this.updateKeyState c.1 c.2).updates calls).keyStates key = _
    rw [ih _ (by rw [updateKeyState_keys]; exact hk), updateKeyState_get this c.1 c.2 key hk]
    by_cases h : toUpperCase c.1 = key
    · simp [passedFor, List.filter_cons, h]
    · simp [passedFor, List.filter_cons, h]

/-- The strongest state of a run of upgrades. -/
theorem foldl_upgraded_strongest (l : List LetterState) (o : Option LetterState) :
    match l.foldl upgraded o with
    | none => o = none ∧ l = []
    | some st =>
      (o = some st ∨ st ∈ l) ∧ (∀ c, o = some c → stateOrder c ≤ stateOrder st) ∧
        ∀ s ∈ l, stateOrder s ≤ stateOrder st := by
  induction l generalizing o with
  | nil =>
    cases o with
    | none => simp
    | some c => simp
  | cons s l ih =>
    simp only [List.foldl_cons]
    have h := ih (upgraded o s)
    cases hr : l.foldl upgraded (upgraded o s) with
    | none =>
      rw [hr] at h
      cases o with
      | none => simp [upgraded] at h
      | some c =>
        exfalso
        by_cases hs : stateOrder s > stateOrder c <;> simp [upgraded, hs] at h
    | some st =>
      rw [hr] at h
      obtain ⟨h1, h2, h3⟩ := h
      cases o with
      | none =>
        simp only [upgraded, Option.some.injEq] at h1 h2
        refine ⟨Or.inr ?_, by simp, ?_⟩
        · rcases h1 with h1 | h1
          · rw [← h1]; exact List.mem_cons_self _ _
          · exact List.mem_cons_of_mem _ h1
        · intro x hx
          rcases List.mem_cons.1 hx with e | hx
          · rw [e]; exact h2 s rfl
          · exact h3 x hx
      | some c =>
        by_cases hs : stateOrder s > stateOrder c
        · simp only [upgraded, hs, if_true, Option.some.injEq] at h1 h2
          refine ⟨Or.inr ?_, ?_, ?_⟩
          · rcases h1 with h1 | h1
            · rw [← h1]; exact List.mem_cons_self _ _
            · exact List.mem_cons_of_mem _ h1
          · intro x hx
            simp only [Option.some.injEq] at hx
            subst hx
            have := h2 s rfl
            omega
          · intro x hx
            rcases List.mem_cons.1 hx with e | hx
            · rw [e]; exact h2 s rfl
            · exact h3 x hx
        · simp only [upgraded, hs, if_false, Option.some.injEq] at h1 h2
          refine ⟨?_, ?_, ?_⟩
          · rcases h1 with h1 | h1
            · exact Or.inl (by rw [h1])
            · exact Or.inr (List.mem_cons_of_mem _ h1)
          · intro x hx
            simp only [Option.some.injEq] at hx
            exact h2 x hx
          · intro x hx
            rcases List.mem_cons.1 hx with e | hx
            · have := h2 c rfl
              rw [e]; omega
            · exact h3 x hx

/-- C28: key states only upgrade, in the order absent < present < correct.
For every key that has an element (every letter key of the keyboard has one)
and every sequence of calls of `updateKeyState` after `reset()`, the stored
state of the key is undefined when no call was made for it, and otherwise it
is one of the states passed for it (the letter of a call is upper-cased) and
the strongest of them; and a call whose state is not strictly stronger than
the state stored for its key leaves the keyboard, `keyStates` included,
unchanged. -/
theorem C28_key_states_only_upgrade (this : Keyboard)
    (calls : List (List Char × LetterState)) (key : List Char) (hk : key ∈ this.keys) :
    (match propGet (this.reset.updates calls).keyStates key with
      | none => passedFor key calls = []
      | some st =>
        st ∈ passedFor key calls ∧ ∀ s ∈ passedFor key calls, stateOrder s ≤ stateOrder st) ∧
    (∀ (k : Keyboard) (letter : List Char) (state currentState : LetterState),
      propGet k.keyStates (toUpperCase letter) = some currentState →
      ¬ stateOrder currentState < stateOrder state →
      k.updateKeyState letter state = k) ∧
    (stateOrder LetterState.absent < stateOrder LetterState.present ∧
      stateOrder LetterState.present < stateOrder LetterState.correct) ∧
    ∀ c ∈ "ABCDEFGHIJKLMNOPQRSTUVWXYZ".toList, [c] ∈ Keyboard.new.keys := by
  refine ⟨?_, ?_, by decide, by decide⟩
  · rw [updates_get calls this.reset key hk]
    have h := foldl_upgraded_strongest (passedFor key calls) (propGet this.reset.keyStates key)
    have e : propGet this.reset.keyStates key = none := rfl
    rw [e] at h ⊢
    cases hr : (passedFor key calls).foldl upgraded none with
    | none =>
      rw [hr] at h
      exact h.2
    | some st =>
      rw [hr] at h
      obtain ⟨h1, _, h3⟩ := h
      refine ⟨?_, h3⟩
      rcases h1 with h1 | h1
      · exact absurd h1 (by simp)
      · exact h1
  · intro k letter state currentState hc hs
    unfold Keyboard.updateKeyState
    simp only [hc]
    have hs2 : ¬ stateOrder state > stateOrder currentState := hs
    simp [hs2]

/-- C28, at the key `E` of the keyboard after the calls absent, correct, present. -/
theorem C28_key_states_only_upgrade_witness :
    propGet (Keyboard.new.reset.updates
        [("e".toList, LetterState.absent), ("e".toList, LetterState.correct),
         ("e".toList, LetterState.present)]).keyStates "E".toList
      = some LetterState.correct ∧
    (match propGet (Keyboard.new.reset.updates
        [("e".toList, LetterState.absent), ("e".toList, LetterState.correct),
         ("e".toList, LetterState.present)]).keyStates "E".toList with
      | none =>
        passedFor "E".toList
          [("e".toList, LetterState.absent), ("e".toList, LetterState.correct),
           ("e".toList, LetterState.present)] = []
      | some st =>
        st ∈ passedFor "E".toList
          [("e".toList, LetterState.absent), ("e".toList, LetterState.correct),
           ("e".toList, LetterState.present)] ∧
        ∀ s ∈ passedFor "E".toList
          [("e".toList, LetterState.absent), ("e".toList, LetterState.correct),
           ("e".toList, LetterState.present)], stateOrder s ≤ stateOrder st) :=
  ⟨by decide,
   (C28_key_states_only_upgrade Keyboard.new
    [("e".toList, LetterState.absent), ("e".toList, LetterState.correct),
     ("e".toList, LetterState.present)] "E".toList (by decide)).1⟩

/-! ## The hints agree with the target word -/

theorem updateStep_agree (target guess : List Char) (h : RevealedHints) (i : Nat)
    (r : LetterState)
    (hc : r = LetterState.correct → strAt target i = strAt guess i)
    (hp : r = LetterState.present → ∃ c, strAt guess i = JSChar.chr c ∧ c ∈ target)
    (ha : hintsAgree target h) : hintsAgree target (updateStep guess h i r) := by
  obtain ⟨h1, h2⟩ := ha
  cases r with
  | correct =>
    simp only [updateStep]
    constructor
    · intro p v hv
      by_cases hpi : p = i
      · subst hpi
        rw [objGet_objSet_self] at hv
        simp only [Option.some.injEq] at hv
        rw [← hv]
        exact hc rfl
      · rw [objGet_objSet_ne _ _ _ _ hpi] at hv
        exact h1 p v hv
    · intro v hv
      exact h2 v ((mem_setDelete _ _ _).1 hv).1
  | present =>
    simp only [updateStep]
    split
    · exact ⟨h1, h2⟩
    · refine ⟨h1, ?_⟩
      intro v hv
      rcases (mem_setAdd _ _ _).1 hv with hv | hv
      · exact h2 v hv
      · rw [hv]; exact hp rfl
  | absent => exact ⟨h1, h2⟩

theorem updateLoop_agree (target guess : List Char) (rs : List LetterState) :
    ∀ (k : Nat) (h : RevealedHints),
      (∀ j : Nat, rs[j]? = some LetterState.correct →
        strAt target (k + j) = strAt guess (k + j)) →
      (∀ j : Nat, rs[j]? = some LetterState.present →
        ∃ c, strAt guess (k + j) = JSChar.chr c ∧ c ∈ target) →
      hintsAgree target h → hintsAgree target (updateLoop guess k rs h) := by
  induction rs with
  | nil => intro k h _ _ ha; exact ha
  | cons r rs ih =>
    intro k h hc hp ha
    simp only [updateLoop]
    apply ih (k + 1)
    · intro j hj
      have := hc (j + 1) (by simpa using hj)
      have e : k + 1 + j = k + (j + 1) := by omega
      rw [e]; exact this
    · intro j hj
      have := hp (j + 1) (by simpa using hj)
      have e : k + 1 + j = k + (j + 1) := by omega
      rw [e]; exact this
    · apply updateStep_agree target guess h k r _ _ ha
      · intro hr
        have := hc 0 (by simp [hr])
        simpa using this
      · intro hr
        have := hp 0 (by simp [hr])
        simpa using this

theorem mem_of_nonExactTarget_pos (a : Char) (guess target : List Char)
    (h : 0 < nonExactTarget a guess target) : a ∈ target := by
  unfold nonExactTarget at h
  rw [List.countP_pos_iff] at h
  obtain ⟨p, hp, hq⟩ := h
  simp only [decide_eq_true_eq] at hq
  have := (List.of_mem_zip hp).2
  rw [hq.1] at this
  exact this

/-- What a mark of `evaluateGuess` says about the letter it is given to. -/
theorem evaluate_marks (target guess : List Char)
    (hg : guess.length = NUM_COLS) (ht : target.length = NUM_COLS) (j : Nat) :
    ((evaluate target guess).result[j]? = some LetterState.correct →
      strAt target j = strAt guess j) ∧
    ((evaluate target guess).result[j]? = some LetterState.present →
      ∃ c, strAt guess j = JSChar.chr c ∧ c ∈ target) := by
  by_cases hj : j < NUM_COLS
  · have hgj : j < guess.length := by omega
    have htj : j < target.length := by omega
    have ha : guess[j]? = some guess[j] := List.getElem?_eq_getElem hgj
    have hb : target[j]? = some target[j] := List.getElem?_eq_getElem htj
    rw [evaluate_getElem? target guess hg ht j _ _ ha hb]
    constructor
    · intro h
      by_cases e : guess[j] = target[j]
      · simp [strAt, ha, hb, e]
      · exfalso
        simp only [e, if_false, Option.some.injEq] at h
        split at h <;> exact absurd h (by decide)
    · intro h
      refine ⟨guess[j], by simp [strAt, ha], ?_⟩
      by_cases e : guess[j] = target[j]
      · simp [e] at h
      · simp only [e, if_false, Option.some.injEq] at h
        by_cases hlt : nonExactGuess guess[j] (guess.take j) (target.take j)
            < nonExactTarget guess[j] guess target
        · exact mem_of_nonExactTarget_pos _ guess target (by omega)
        · simp [hlt] at h
  · have hlen : (evaluate target guess).result.length = NUM_COLS := by
      rw [evaluate_result_eq target guess hg ht]
      have : ∀ (ps : List (Char × Char)) (tl : List Cell),
          (scoreRest ps tl).length = ps.length := by
        intro ps
        induction ps with
        | nil => intro tl; rfl
        | cons p ps ih => intro tl; simp [scoreRest, ih]
      rw [this]
      simp [hg, ht]
    have hn : (evaluate target guess).result[j]? = none :=
      List.getElem?_eq_none (by omega)
    rw [hn]
    exact ⟨fun h => absurd h (by simp), fun h => absurd h (by simp)⟩

/-- The target word passes `validateHardMode` when the hints agree with it. -/
theorem validateHardMode_of_agree (this : Game)
    (h : hintsAgree this.targetWord this.revealedHints) :
    this.validateHardMode this.targetWord = HardModeCheck.accepted := by
  unfold Game.validateHardMode
  rw [checkCorrect_accepted, checkPresent_accepted]
  constructor
  · intro e he
    exact h.1 e.1 e.2 ((mem_objEntries _ _ _).1 he)
  · intro v hv
    obtain ⟨c, rfl, hc⟩ := h.2 v hv
    exact (strIncludes_chr _ c).2 hc

theorem tilesOk_startGame (this : Game) (target : List Char) :
    (this.startGame target).tilesOk := by
  intro row hrow tile htile
  have hr : row ∈ createBoard := hrow
  unfold createBoard at hr
  rw [List.eq_of_mem_replicate hr] at htile
  rw [List.eq_of_mem_replicate htile]
  exact Nat.zero_le 1

theorem tilesOk_set_row (this : Game) (h : this.tilesOk) (row : List (List Char))
    (hrow : this.tiles[this.currentRow]? = some row) (i : Nat) (x : List Char)
    (hx : x.length ≤ 1) (col : Nat) :
    Game.tilesOk { this with tiles := this.tiles.set this.currentRow (row.set i x),
                             currentCol := col } := by
  intro r hr tile htile
  rcases List.mem_or_eq_of_mem_set hr with hm | rfl
  · exact h r hm tile htile
  · rcases List.mem_or_eq_of_mem_set htile with hm | rfl
    · exact h row (List.getElem?_mem hrow) tile hm
    · exact hx

theorem tilesOk_addLetter (this : Game) (h : this.tilesOk) (letter : List Char)
    (hl : letter.length ≤ 1) : (this.addLetter letter).tilesOk := by
  unfold Game.addLetter
  split
  · exact h
  · split
    · exact h
    · rename_i row hrow
      split
      · exact tilesOk_set_row this h row hrow _ _ (by simpa [toUpperCase] using hl) _
      · exact h

theorem tilesOk_deleteLetter (this : Game) (h : this.tilesOk) :
    this.deleteLetter.tilesOk := by
  unfold Game.deleteLetter
  split
  · exact h
  · split
    · exact h
    · rename_i row hrow
      split
      · exact tilesOk_set_row this h row hrow _ _ (by simp) _
      · exact h

/-- With at most one letter in every tile, the current guess has at most `NUM_COLS` letters. -/
theorem getCurrentGuess_length_le (this : Game) (h : this.tilesOk) (guess : List Char)
    (hg : this.getCurrentGuess = some guess) : guess.length ≤ NUM_COLS := by
  unfold Game.getCurrentGuess at hg
  rw [range_NUM_COLS] at hg
  simp only [List.foldl] at hg
  cases ht : this.tiles[this.currentRow]? with
  | none => simp [ht] at hg
  | some row =>
    simp only [ht] at hg
    have hrow : row ∈ this.tiles := List.getElem?_mem ht
    cases h0 : row[0]? with
    | none => simp [h0] at hg
    | some t0 =>
      cases h1 : row[1]? with
      | none => simp [h0, h1] at hg
      | some t1 =>
        cases h2 : row[2]? with
        | none => simp [h0, h1, h2] at hg
        | some t2 =>
          cases h3 : row[3]? with
          | none => simp [h0, h1, h2, h3] at hg
          | some t3 =>
            cases h4 : row[4]? with
            | none => simp [h0, h1, h2, h3, h4] at hg
            | some t4 =>
              simp only [h0, h1, h2, h3, h4, List.nil_append, Option.some.injEq] at hg
              have l0 := h row hrow t0 (List.getElem?_mem h0)
              have l1 := h row hrow t1 (List.getElem?_mem h1)
              have l2 := h row hrow t2 (List.getElem?_mem h2)
              have l3 := h row hrow t3 (List.getElem?_mem h3)
              have l4 := h row hrow t4 (List.getElem?_mem h4)
              rw [← hg]
              simp only [List.length_append, toLowerCase, List.length_map, NUM_COLS]
              omega

/-- The facts that every event of a session keeps: the target word has
`NUM_COLS` letters, every tile holds at most one letter, and the hints agree
with the target word. -/
theorem answer_submitGuess (this : Game) (isValidWord : List Char → Bool) (hardMode : Bool)
    (ht : this.targetWord.length = NUM_COLS) (hb : this.tilesOk)
    (ha : hintsAgree this.targetWord this.revealedHints) :
    (this.submitGuess isValidWord hardMode).game.targetWord = this.targetWord ∧
    (this.submitGuess isValidWord hardMode).game.tilesOk ∧
    hintsAgree this.targetWord (this.submitGuess isValidWord hardMode).game.revealedHints := by
  rcases submitGuess_cases this isValidWord hardMode with ⟨e, _⟩ | ⟨guess, hg, hlen, _, _, e⟩
  · rw [e]; exact ⟨rfl, hb, ha⟩
  · have hle := getCurrentGuess_length_le this hb guess hg
    have hgl : guess.length = NUM_COLS := by omega
    rw [evaluateGuess_fst] at e
    rw [e]
    refine ⟨rfl, hb, ?_⟩
    apply updateLoop_agree this.targetWord guess _ 0 _ _ _ ha
    · intro j hj
      rw [Nat.zero_add]
      exact (evaluate_marks this.targetWord guess hgl ht j).1 hj
    · intro j hj
      rw [Nat.zero_add]
      exact (evaluate_marks this.targetWord guess hgl ht j).2 hj

theorem answer_handleKeyPress (this : Game) (isValidWord : List Char → Bool) (hardMode : Bool)
    (key : List Char)
    (ht : this.targetWord.length = NUM_COLS) (hb : this.tilesOk)
    (ha : hintsAgree this.targetWord this.revealedHints) :
    (this.handleKeyPress isValidWord hardMode key).game.targetWord = this.targetWord ∧
    (this.handleKeyPress isValidWord hardMode key).game.tilesOk ∧
    hintsAgree this.targetWord
      (this.handleKeyPress isValidWord hardMode key).game.revealedHints := by
  unfold Game.handleKeyPress
  split
  · exact ⟨rfl, hb, ha⟩
  · split
    · exact answer_submitGuess this isValidWord hardMode ht hb ha
    · split
      · refine ⟨(deleteLetter_frame this).2.2.2.2.1, tilesOk_deleteLetter this hb, ?_⟩
        rw [(deleteLetter_frame this).2.1]; exact ha
      · split
        · rename_i hk
          refine ⟨(addLetter_frame this _).2.2.2.2.1, tilesOk_addLetter this hb _ ?_, ?_⟩
          · unfold isLetterKey at hk
            split at hk
            · simp [toLowerCase]
            · exact absurd hk (by simp)
          · rw [(addLetter_frame this _).2.1]; exact ha
        · exact ⟨rfl, hb, ha⟩

theorem answer_fire (s : Session) (i : Nat)
    (_ht : s.game.targetWord.length = NUM_COLS) (hb : s.game.tilesOk)
    (ha : hintsAgree s.game.targetWord s.game.revealedHints) :
    (s.fire i).game.targetWord = s.game.targetWord ∧ (s.fire i).game.tilesOk ∧
    hintsAgree s.game.targetWord (s.fire i).game.revealedHints := by
  unfold Session.fire
  split
  · exact ⟨rfl, hb, ha⟩
  · rename_i guess result _
    obtain ⟨go, w, e⟩ :=
      decideGuess_game s.game guess result s.hasOnGuessComplete s.hasOnGameEnd
    simp only [e]
    exact ⟨trivial, hb, ha⟩
  · exact ⟨rfl, hb, ha⟩

theorem answer_step (isValidWord : List Char → Bool) (s : Session) (e : Event)
    (ht : s.game.targetWord.length = NUM_COLS) (hb : s.game.tilesOk)
    (ha : hintsAgree s.game.targetWord s.game.revealedHints) :
    (s.step isValidWord e).game.targetWord = s.game.targetWord ∧
    (s.step isValidWord e).game.tilesOk ∧
    hintsAgree s.game.targetWord (s.step isValidWord e).game.revealedHints := by
  cases e with
  | key key hardMode => exact answer_handleKeyPress s.game isValidWord hardMode key ht hb ha
  | submit hardMode => exact answer_submitGuess s.game isValidWord hardMode ht hb ha
  | fire i => exact answer_fire s i ht hb ha

theorem answer_run (isValidWord : List Char → Bool) (events : List Event) :
    ∀ s : Session, s.game.targetWord.length = NUM_COLS → s.game.tilesOk →
      hintsAgree s.game.targetWord s.game.revealedHints →
      (s.run isValidWord events).game.targetWord = s.game.targetWord ∧
      hintsAgree s.game.targetWord (s.run isValidWord events).game.revealedHints := by
  induction events with
  | nil => intro s _ _ ha; exact ⟨rfl, ha⟩
  | cons e es ih =>
    intro s ht hb ha
    obtain ⟨h1, h2, h3⟩ := answer_step isValidWord s e ht hb ha
    have key := ih (s.step isValidWord e) (by rw [h1]; exact ht) h2 (by rw [h1]; exact h3)
    rw [h1] at key
    exact key

/-- C29: hard mode never excludes the answer. In every state of a session
started by `startGame(target)` with a target of `NUM_COLS` letters and
continued by any key presses, submissions and deferred callbacks (every
accepted guess then has `NUM_COLS` letters, and its hints are recorded by
`updateRevealedHints` from `evaluateGuess`), `validateHardMode` accepts the
target word: every confirmed position holds the letter of the target word at
that position, and every member of the present-set is a letter that occurs
in the target word. -/
theorem C29_hard_mode_admits_answer (isValidWord : List Char → Bool) (s0 : Session)
    (target : List Char) (events : List Event) (ht : target.length = NUM_COLS) :
    ((s0.start target).run isValidWord events).game.targetWord = toLowerCase target ∧
    ((s0.start target).run isValidWord events).game.validateHardMode
        ((s0.start target).run isValidWord events).game.targetWord
      = HardModeCheck.accepted ∧
    (∀ (p : Nat) (v : JSChar),
      objGet ((s0.start target).run isValidWord events).game.revealedHints.correct p = some v →
      strAt ((s0.start target).run isValidWord events).game.targetWord p = v) ∧
    (∀ v ∈ ((s0.start target).run isValidWord events).game.revealedHints.present,
      ∃ c, v = JSChar.chr c ∧
        c ∈ ((s0.start target).run isValidWord events).game.targetWord) := by
  have h0 : (s0.start target).game.targetWord = toLowerCase target := rfl
  have hlen : (s0.start target).game.targetWord.length = NUM_COLS := by
    rw [h0]; simpa [toLowerCase] using ht
  have hb : (s0.start target).game.tilesOk := tilesOk_startGame s0.game target
  have ha : hintsAgree (s0.start target).game.targetWord (s0.start target).game.revealedHints := by
    constructor
    · intro p v hv
      have : objGet ([] : PosMap) p = some v := hv
      simp [objGet] at this
    · intro v hv
      have : v ∈ ([] : List JSChar) := hv
      simp at this
  obtain ⟨h1, h2⟩ := answer_run isValidWord events (s0.start target) hlen hb ha
  rw [← h1] at h2
  refine ⟨by rw [h1, h0], validateHardMode_of_agree _ h2, h2.1, h2.2⟩

/-- C29, at the target `crane` after the guesses `SLATE` and `TRACE`, hard mode on. -/
theorem C29_hard_mode_admits_answer_witness :
    ((Session.new.start "crane".toList).run sampleWords
        (typeWord "SLATE".toList true ++ typeWord "TRACE".toList true)).game.validateHardMode
        ((Session.new.start "crane".toList).run sampleWords
          (typeWord "SLATE".toList true ++ typeWord "TRACE".toList true)).game.targetWord
      = HardModeCheck.accepted :=
  (C29_hard_mode_admits_answer sampleWords Session.new "crane".toList
    (typeWord "SLATE".toList true ++ typeWord "TRACE".toList true) (by decide)).2.1

/-! ## The message of a hard-mode violation -/

/-- C30, at a guess that lacks the confirmed letter `a` at position 0. The
position comes from `Object.entries` as the string `0`, and the message
starts with that string followed by `1`: it reads `01st letter must be A`,
not `1st letter must be A`, although the suffix is the one of
`getOrdinalSuffix(1)`. At the positions 1 to 4 the message starts with `11nd`,
`21rd`, `31th`, `41th`. The order of the reports is as claimed: `PIOUS`
against the hints of `laterConfirmed` violates the positions 1, 2 and 4 and
lacks the present letter `c`, and the report is for position 1. -/
theorem C30_position_message_first_letter :
    firstConfirmed.revealedHints = { correct := [some (JSChar.chr 'a')], present := [] } ∧
    firstConfirmed.getCurrentGuess = some "bbbbb".toList ∧
    (firstConfirmed.submitGuess (fun _ => true) true).status
      = some (SubmitStatus.hardModeViolation
          (HardModeCheck.rejected "01st letter must be A".toList)) ∧
    getOrdinalSuffix 1 = "st".toList ∧
    (List.range NUM_COLS).map (fun p => firstConfirmed.rejectPosition p (JSChar.chr 'a'))
      = [HardModeCheck.rejected "01st letter must be A".toList,
         HardModeCheck.rejected "11nd letter must be A".toList,
         HardModeCheck.rejected "21rd letter must be A".toList,
         HardModeCheck.rejected "31th letter must be A".toList,
         HardModeCheck.rejected "41th letter must be A".toList] ∧
    laterConfirmed.revealedHints
      = { correct := [none, some (JSChar.chr 'r'), some (JSChar.chr 'a'), none,
                      some (JSChar.chr 'e')],
          present := [JSChar.chr 'c'] } ∧
    laterConfirmed.validateHardMode "pious".toList
      = HardModeCheck.rejected "11nd letter must be R".toList := by
  refine ⟨by decide!, by decide!, by decide!, by decide!, by decide!, by decide!, by decide!⟩

end Wordle
